import Mathlib

/-!
# Personal finance ledger: repository layer

A shallow embedding of the persistence and caching layer of the ledger
(`internal/services/repository`): the JSON file store `FileRepository` and the
write-through cache `ProxyRepository` that wraps any `Repository`; and of what
calls into it: the factory (`internal/domain/factory`), the facades for
accounts, categories, operations and analytics (`internal/services`), and the
YAML export and import.

Conventions of the embedding.

* A Go method with receiver `r` and result `(T, error)` becomes a function that
  takes the receiver state first and returns `Except Error T` together with the
  new state; a method returning only `error` returns `Option Error`
  (`none` is Go's `nil`).
* The model is sequential: one call runs to completion before the next starts,
  so the mutexes of the source are elided.
* The storage file and the conditions of the operating system around it are an
  explicit value of type `Disk`.
* Go strings are Lean strings, so the text in the model is valid UTF-8. A finite
  `float64` is the rational number it denotes; addition, subtraction and
  multiplication round the exact result to the nearest `float64`
  (`Float64.ofRat`) and overflow to an infinity. The two zeros of IEEE 754 are
  one value.
* A facade takes the repository it holds as a method table and threads the
  state of that repository; functions of the Go standard library that are not
  modelled are fields of `TextLib`.
-/

namespace Hw2

/-! ## Errors -/

/-- Go `error` values as the code builds them: `text msg` is `errors.New(msg)` or
`fmt.Errorf` without `%w` (also an error handed up by the OS or by
`encoding/json`), `wrap ctx cause` is `fmt.Errorf(ctx + ": %w", cause)`. -/
inductive Error where
  | text (msg : String)
  | wrap (ctx : String) (cause : Error)
  deriving DecidableEq, Repr

instance {α : Type} [DecidableEq α] : DecidableEq (Except Error α)
  | .ok a, .ok b =>
    if h : a = b then isTrue (by rw [h]) else isFalse (fun h' => h (by cases h'; rfl))
  | .error a, .error b =>
    if h : a = b then isTrue (by rw [h]) else isFalse (fun h' => h (by cases h'; rfl))
  | .ok _, .error _ => isFalse (fun h => by cases h)
  | .error _, .ok _ => isFalse (fun h => by cases h)

/-- The text of `err.Error()`. -/
def Error.message : Error → String
  | .text msg => msg
  | .wrap ctx cause => ctx ++ ": " ++ cause.message

/-- The error `fmt.Errorf("<kind> %s not found", id)` returned by `Get*`,
`Update*` and `Delete*`. -/
def notFound (kind id : String) : Error :=
  .text (kind ++ " " ++ id ++ " not found")

/-! ## Domain models (`internal/domain/models`) -/

/-- A Go `float64`: a finite value (kept as the rational it denotes; the values
of the type are those with `Float64.IsFloat`) or one of the three non-finite
values. -/
inductive Float64 where
  | finite (q : ℚ)
  | posInf
  | negInf
  | nan
  deriving DecidableEq, Repr

/-- True for the values `encoding/json` can write (it rejects NaN and ±Inf). -/
def Float64.isFinite : Float64 → Bool
  | .finite _ => true
  | _ => false

/-- A Go `time.Time`: `sec` seconds and `nsec` nanoseconds since
0001-01-01T00:00:00 UTC, shown in a zone `offset` minutes east of UTC. RFC 3339,
the format of the storage file, writes zone offsets in whole minutes, and every
time the program parses or reads from the clock has such an offset; a monotonic
clock reading, which JSON drops, is not part of the model. -/
structure Time where
  sec : Int
  nsec : Nat
  offset : Int
  deriving DecidableEq, Repr

/-- Go's `Time.MarshalJSON` succeeds exactly when the year shown lies in `[0, 9999]`
(year 0 starts 366 days before the epoch of `sec`, year 10000 starts 3652059
days after it) and the zone offset is less than 24 hours. -/
def Time.marshalable (t : Time) : Bool :=
  decide (-31622400 ≤ t.sec + 60 * t.offset) &&
    decide (t.sec + 60 * t.offset < 315537897600) &&
    decide (-1440 < t.offset) && decide (t.offset < 1440)

/-- Go's `Time.IsZero`: the instant January 1, year 1, 00:00:00 UTC. -/
def Time.IsZero (t : Time) : Bool :=
  decide (t.sec = 0) && decide (t.nsec = 0)

abbrev CategoryType := String
abbrev OperationType := String

def CategoryTypeIncome : CategoryType := "income"
def CategoryTypeExpense : CategoryType := "expense"
def OperationTypeIncome : OperationType := "income"
def OperationTypeExpense : OperationType := "expense"

/-- Go `models.BankAccount`. -/
structure BankAccount where
  ID : String
  Name : String
  Balance : Float64
  deriving DecidableEq, Repr

/-- Go `models.Category`; `Typ` is the Go field `Type`. -/
structure Category where
  ID : String
  Typ : CategoryType
  Name : String
  deriving DecidableEq, Repr

/-- Go `models.Operation`; `Typ` is the Go field `Type`. -/
structure Operation where
  ID : String
  Typ : OperationType
  BankAccountID : String
  Amount : Float64
  Date : Time
  Description : String
  CategoryID : String
  deriving DecidableEq, Repr

/-- The `ID` field shared by the three entity kinds. -/
class HasID (α : Type) where
  ID : α → String

instance : HasID BankAccount := ⟨BankAccount.ID⟩
instance : HasID Category := ⟨Category.ID⟩
instance : HasID Operation := ⟨Operation.ID⟩

/-- Go `repository.StorageData`: the persisted snapshot. A nil slice and an empty
slice are both the empty list. -/
structure StorageData where
  Accounts : List BankAccount := []
  Categories : List Category := []
  Operations : List Operation := []
  deriving DecidableEq, Repr

/-! ## Slice loops of the file store -/

/-- The loop `for i, x := range l { if x.ID == id { ... i ... } }`: the index of
the first element whose ID is `id`. -/
def indexOfID {α : Type} [HasID α] : List α → String → Option Nat
  | [], _ => none
  | x :: xs, id => if HasID.ID x = id then some 0 else (indexOfID xs id).map (· + 1)

/-- The loop of `Get*`: the first element whose ID is `id`. -/
def firstByID {α : Type} [HasID α] : List α → String → Option α
  | [], _ => none
  | x :: xs, id => if HasID.ID x = id then some x else firstByID xs id

/-- The slice expression `append(l[:i], l[i+1:]...)`. -/
def removeAt {α : Type} (l : List α) (i : Nat) : List α :=
  l.take i ++ l.drop (i + 1)

/-- IDs of a collection, in order. -/
def ids {α : Type} [HasID α] (l : List α) : List String :=
  l.map HasID.ID

/-! ## The storage file -/

/-- What `json.NewDecoder(file).Decode` meets in an existing file. -/
inductive FileBytes where
  /-- No JSON value before the end of input: `Decode` reports `io.EOF`. -/
  | empty
  /-- A JSON value that decodes to the snapshot `d`. -/
  | document (d : StorageData)
  /-- Anything else: `Decode` fails with `e`. -/
  | malformed (e : Error)
  deriving DecidableEq, Repr

/-- How much of the encoded snapshot reached the file when `Write` failed. -/
inductive ShortWrite where
  /-- Not a single byte. -/
  | nothing
  /-- A proper prefix that is not a complete JSON value. -/
  | truncated
  /-- The whole JSON value, short of the trailing newline only. -/
  | wholeValue
  deriving DecidableEq, Repr

/-- The file at the repository's path and the conditions of the operating system
around it. `file = none`: the path does not exist. `openErr`: `os.Open` fails
with this error, which is not `fs.ErrNotExist`. `createErr`: `os.Create` fails
with this error (the file is left as it is). `writeErr`: writing the encoded
bytes fails with this error after the given part was written. -/
structure Disk where
  file : Option FileBytes := none
  openErr : Option Error := none
  createErr : Option Error := none
  writeErr : Option (Error × ShortWrite) := none
  deriving DecidableEq, Repr

/-- The error of `json.Marshal` on one account, if any. -/
def BankAccount.encodeError (a : BankAccount) : Option Error :=
  if a.Balance.isFinite then none else some (.text "json: unsupported value")

/-- The error of `json.Marshal` on one operation, if any (fields in declaration
order: `Amount` before `Date`). -/
def Operation.encodeError (o : Operation) : Option Error :=
  if !o.Amount.isFinite then some (.text "json: unsupported value")
  else if !o.Date.marshalable then
    some (.text "json: error calling MarshalJSON for type time.Time")
  else none

/-- The error of `json.Marshal` on a snapshot, if any: accounts first, then
operations (categories hold strings only). -/
def encodeError (d : StorageData) : Option Error :=
  match d.Accounts.findSome? BankAccount.encodeError with
  | some e => some e
  | none => d.Operations.findSome? Operation.encodeError

/-- A JSON value as `encoding/json` writes it for the storage file and reads it
back. The leaves that the standard library formats and parses are kept by what
they denote: a number by the `float64` that `strconv.ParseFloat` returns for its
digits (`encoding/json` writes the shortest digits that parse back to the same
`float64`), a string that holds a timestamp by the time it denotes (`time.Time`
writes RFC 3339 with nanoseconds and the zone offset in minutes, which is what a
`Time` holds), any other string by its text (escaping keeps valid UTF-8 text). -/
inductive Json where
  | null
  | num (x : Float64)
  | str (s : String)
  | timestamp (t : Time)
  | arr (items : List Json)
  | obj (fields : List (String × Json))

/-- The value an object holds under `key`, `null` when the key is absent (an
absent key and `null` both leave the Go field at its zero value); of a key written
twice the last value counts. Keys are matched exactly, as the encoder writes
them. -/
def Json.get (fields : List (String × Json)) (key : String) : Json :=
  ((fields.reverse.find? (fun f => f.1 == key)).map Prod.snd).getD .null

/-- Decoding into a Go `string` field. -/
def Json.string : Json → Except Error String
  | .str s => .ok s
  | .null => .ok ""
  | _ => .error (.text "json: cannot unmarshal into Go value of type string")

/-- Decoding into a Go `float64` field. -/
def Json.float : Json → Except Error Float64
  | .num x => .ok x
  | .null => .ok (.finite 0)
  | _ => .error (.text "json: cannot unmarshal into Go value of type float64")

/-- Decoding into a Go `time.Time` field. -/
def Json.time : Json → Except Error Time
  | .timestamp t => .ok t
  | .null => .ok ⟨0, 0, 0⟩
  | _ => .error (.text "parsing time: cannot parse as RFC 3339")

/-- The object `json.Marshal` writes for an account: the fields in declaration
order under the names of their `json` tags. -/
def BankAccount.json (a : BankAccount) : Json :=
  .obj [("id", .str a.ID), ("name", .str a.Name), ("balance", .num a.Balance)]

/-- The object `json.Marshal` writes for a category. -/
def Category.json (c : Category) : Json :=
  .obj [("id", .str c.ID), ("type", .str c.Typ), ("name", .str c.Name)]

/-- The object `json.Marshal` writes for an operation; `description` has the
option `omitempty` and is left out when empty. -/
def Operation.json (o : Operation) : Json :=
  .obj ([("id", .str o.ID), ("type", .str o.Typ), ("bank_account_id", .str o.BankAccountID),
      ("amount", .num o.Amount), ("date", .timestamp o.Date)] ++
    (if o.Description = "" then [] else [("description", .str o.Description)]) ++
    [("category_id", .str o.CategoryID)])

/-- The object `json.Marshal` writes for a snapshot. A list is written as an
array (Go writes `null` for a nil slice; both read back as the empty list). -/
def StorageData.json (d : StorageData) : Json :=
  .obj [("accounts", .arr (d.Accounts.map BankAccount.json)),
    ("categories", .arr (d.Categories.map Category.json)),
    ("operations", .arr (d.Operations.map Operation.json))]

/-- Decoding into a Go `models.BankAccount`. -/
def BankAccount.ofJson : Json → Except Error BankAccount
  | .obj fields =>
    match (Json.get fields "id").string, (Json.get fields "name").string,
      (Json.get fields "balance").float with
    | .ok id, .ok name, .ok balance => .ok ⟨id, name, balance⟩
    | .error e, _, _ => .error e
    | _, .error e, _ => .error e
    | _, _, .error e => .error e
  | .null => .ok ⟨"", "", .finite 0⟩
  | _ => .error (.text "json: cannot unmarshal into Go value of type models.BankAccount")

/-- Decoding into a Go `models.Category`. -/
def Category.ofJson : Json → Except Error Category
  | .obj fields =>
    match (Json.get fields "id").string, (Json.get fields "type").string,
      (Json.get fields "name").string with
    | .ok id, .ok typ, .ok name => .ok ⟨id, typ, name⟩
    | .error e, _, _ => .error e
    | _, .error e, _ => .error e
    | _, _, .error e => .error e
  | .null => .ok ⟨"", "", ""⟩
  | _ => .error (.text "json: cannot unmarshal into Go value of type models.Category")

/-- Decoding into a Go `models.Operation`. -/
def Operation.ofJson : Json → Except Error Operation
  | .obj fields =>
    match (Json.get fields "id").string, (Json.get fields "type").string,
      (Json.get fields "bank_account_id").string, (Json.get fields "amount").float,
      (Json.get fields "date").time, (Json.get fields "description").string,
      (Json.get fields "category_id").string with
    | .ok id, .ok typ, .ok account, .ok amount, .ok date, .ok description, .ok category =>
      .ok ⟨id, typ, account, amount, date, description, category⟩
    | .error e, _, _, _, _, _, _ => .error e
    | _, .error e, _, _, _, _, _ => .error e
    | _, _, .error e, _, _, _, _ => .error e
    | _, _, _, .error e, _, _, _ => .error e
    | _, _, _, _, .error e, _, _ => .error e
    | _, _, _, _, _, .error e, _ => .error e
    | _, _, _, _, _, _, .error e => .error e
  | .null => .ok ⟨"", "", "", .finite 0, ⟨0, 0, 0⟩, "", ""⟩
  | _ => .error (.text "json: cannot unmarshal into Go value of type models.Operation")

/-- Decoding the elements of an array one after the other, up to the first
error. -/
def decodeAll {α : Type} (f : Json → Except Error α) : List Json → Except Error (List α)
  | [] => .ok []
  | j :: js =>
    match f j with
    | .error e => .error e
    | .ok a =>
      match decodeAll f js with
      | .error e => .error e
      | .ok as => .ok (a :: as)

/-- Decoding into a Go slice: an array element by element, `null` as no
element. -/
def Json.slice {α : Type} (f : Json → Except Error α) : Json → Except Error (List α)
  | .arr items => decodeAll f items
  | .null => .ok []
  | _ => .error (.text "json: cannot unmarshal into Go value of type slice")

/-- Decoding into a Go `StorageData`, what `json.Decoder.Decode` does with the
value it read. -/
def StorageData.ofJson : Json → Except Error StorageData
  | .obj fields =>
    match (Json.get fields "accounts").slice BankAccount.ofJson,
      (Json.get fields "categories").slice Category.ofJson,
      (Json.get fields "operations").slice Operation.ofJson with
    | .ok accounts, .ok categories, .ok operations => .ok ⟨accounts, categories, operations⟩
    | .error e, _, _ => .error e
    | _, .error e, _ => .error e
    | _, _, .error e => .error e
  | .null => .ok {}
  | _ => .error (.text "json: cannot unmarshal into Go value of type repository.StorageData")

/-- The marshalling step of `json.Encoder.Encode`: the whole value is encoded in
memory before anything is written. The bytes written are recorded by what
`Decode` makes of them. -/
def jsonEncode (d : StorageData) : Except Error FileBytes :=
  match encodeError d with
  | some e => .error e
  | none =>
    match StorageData.ofJson d.json with
    | .ok d' => .ok (.document d')
    | .error e => .ok (.malformed e)

/-- The content of the file after a failed `Write` of the encoding of `d`. -/
def ShortWrite.leaves (w : ShortWrite) (d : StorageData) : FileBytes :=
  match w with
  | .nothing => .empty
  | .truncated => .malformed (.text "unexpected EOF")
  | .wholeValue => .document d

/-! ## `FileRepository` (`file_repository.go`) -/

namespace FileRepository

/-- Method `FileRepository.loadUnsafe`. -/
def loadUnsafe (r : Disk) : Except Error StorageData :=
  match r.openErr with
  | some err => .error (.wrap "open storage file" err)
  | none =>
    match r.file with
    | none => .ok {}
    | some .empty => .ok {}
    | some (.malformed err) => .error (.wrap "decode storage" err)
    | some (.document data) => .ok data

/-- Method `FileRepository.saveUnsafe`: `os.Create` truncates the file as soon as it
succeeds, before the snapshot is encoded. -/
def saveUnsafe (r : Disk) (data : StorageData) : Option Error × Disk :=
  match r.createErr with
  | some err => (some (.wrap "create storage file" err), r)
  | none =>
    match jsonEncode data with
    | .error err => (some (.wrap "encode storage" err), { r with file := some .empty })
    | .ok bytes =>
      match r.writeErr with
      | some (err, w) =>
        (some (.wrap "encode storage" err), { r with file := some (w.leaves data) })
      | none => (none, { r with file := some bytes })

/-- Method `FileRepository.load`. -/
def load (r : Disk) : Except Error StorageData :=
  loadUnsafe r

/-- Method `FileRepository.withData`: load, run `fn` on the snapshot, save. -/
def withData (r : Disk) (fn : StorageData → Except Error StorageData) : Option Error × Disk :=
  match loadUnsafe r with
  | .error err => (some err, r)
  | .ok data =>
    match fn data with
    | .error err => (some err, r)
    | .ok data => saveUnsafe r data

def ListAccounts (r : Disk) : Except Error (List BankAccount) × Disk :=
  match load r with
  | .error err => (.error err, r)
  | .ok data => (.ok data.Accounts, r)

def GetAccount (r : Disk) (id : String) : Except Error BankAccount × Disk :=
  match load r with
  | .error err => (.error err, r)
  | .ok data =>
    match firstByID data.Accounts id with
    | some acc => (.ok acc, r)
    | none => (.error (notFound "account" id), r)

def CreateAccount (r : Disk) (account : BankAccount) : Option Error × Disk :=
  withData r fun data => .ok { data with Accounts := data.Accounts ++ [account] }

def UpdateAccount (r : Disk) (account : BankAccount) : Option Error × Disk :=
  withData r fun data =>
    match indexOfID data.Accounts account.ID with
    | some i => .ok { data with Accounts := data.Accounts.set i account }
    | none => .error (notFound "account" account.ID)

def DeleteAccount (r : Disk) (id : String) : Option Error × Disk :=
  withData r fun data =>
    match indexOfID data.Accounts id with
    | some i => .ok { data with Accounts := removeAt data.Accounts i }
    | none => .error (notFound "account" id)

def ListCategories (r : Disk) : Except Error (List Category) × Disk :=
  match load r with
  | .error err => (.error err, r)
  | .ok data => (.ok data.Categories, r)

def GetCategory (r : Disk) (id : String) : Except Error Category × Disk :=
  match load r with
  | .error err => (.error err, r)
  | .ok data =>
    match firstByID data.Categories id with
    | some cat => (.ok cat, r)
    | none => (.error (notFound "category" id), r)

def CreateCategory (r : Disk) (category : Category) : Option Error × Disk :=
  withData r fun data => .ok { data with Categories := data.Categories ++ [category] }

def UpdateCategory (r : Disk) (category : Category) : Option Error × Disk :=
  withData r fun data =>
    match indexOfID data.Categories category.ID with
    | some i => .ok { data with Categories := data.Categories.set i category }
    | none => .error (notFound "category" category.ID)

def DeleteCategory (r : Disk) (id : String) : Option Error × Disk :=
  withData r fun data =>
    match indexOfID data.Categories id with
    | some i => .ok { data with Categories := removeAt data.Categories i }
    | none => .error (notFound "category" id)

def ListOperations (r : Disk) : Except Error (List Operation) × Disk :=
  match load r with
  | .error err => (.error err, r)
  | .ok data => (.ok data.Operations, r)

def GetOperation (r : Disk) (id : String) : Except Error Operation × Disk :=
  match load r with
  | .error err => (.error err, r)
  | .ok data =>
    match firstByID data.Operations id with
    | some op => (.ok op, r)
    | none => (.error (notFound "operation" id), r)

def CreateOperation (r : Disk) (operation : Operation) : Option Error × Disk :=
  withData r fun data => .ok { data with Operations := data.Operations ++ [operation] }

def UpdateOperation (r : Disk) (operation : Operation) : Option Error × Disk :=
  withData r fun data =>
    match indexOfID data.Operations operation.ID with
    | some i => .ok { data with Operations := data.Operations.set i operation }
    | none => .error (notFound "operation" operation.ID)

def DeleteOperation (r : Disk) (id : String) : Option Error × Disk :=
  withData r fun data =>
    match indexOfID data.Operations id with
    | some i => .ok { data with Operations := removeAt data.Operations i }
    | none => .error (notFound "operation" id)

/-- Method `FileRepository.ReplaceAll`: saves without loading. -/
def ReplaceAll (r : Disk) (data : StorageData) : Option Error × Disk :=
  saveUnsafe r data

end FileRepository

/-! ## The `Repository` interface (`repository.go`) -/

/-- The method table of a `Repository` implementation whose state has type `σ`. -/
structure Repository (σ : Type) where
  ListAccounts : σ → Except Error (List BankAccount) × σ
  GetAccount : σ → String → Except Error BankAccount × σ
  CreateAccount : σ → BankAccount → Option Error × σ
  UpdateAccount : σ → BankAccount → Option Error × σ
  DeleteAccount : σ → String → Option Error × σ
  ListCategories : σ → Except Error (List Category) × σ
  GetCategory : σ → String → Except Error Category × σ
  CreateCategory : σ → Category → Option Error × σ
  UpdateCategory : σ → Category → Option Error × σ
  DeleteCategory : σ → String → Option Error × σ
  ListOperations : σ → Except Error (List Operation) × σ
  GetOperation : σ → String → Except Error Operation × σ
  CreateOperation : σ → Operation → Option Error × σ
  UpdateOperation : σ → Operation → Option Error × σ
  DeleteOperation : σ → String → Option Error × σ
  ReplaceAll : σ → StorageData → Option Error × σ

/-- The file store as a `Repository`. -/
def FileRepository.repo : Repository Disk where
  ListAccounts := FileRepository.ListAccounts
  GetAccount := FileRepository.GetAccount
  CreateAccount := FileRepository.CreateAccount
  UpdateAccount := FileRepository.UpdateAccount
  DeleteAccount := FileRepository.DeleteAccount
  ListCategories := FileRepository.ListCategories
  GetCategory := FileRepository.GetCategory
  CreateCategory := FileRepository.CreateCategory
  UpdateCategory := FileRepository.UpdateCategory
  DeleteCategory := FileRepository.DeleteCategory
  ListOperations := FileRepository.ListOperations
  GetOperation := FileRepository.GetOperation
  CreateOperation := FileRepository.CreateOperation
  UpdateOperation := FileRepository.UpdateOperation
  DeleteOperation := FileRepository.DeleteOperation
  ReplaceAll := FileRepository.ReplaceAll

/-! ## Go maps keyed by ID -/

/-- A Go `map[string]V` as the list of its entries. Go leaves the iteration
order of a map unspecified; the model iterates in order of first insertion, and
statements about what an iteration returns are made up to reordering. The nil
map is the empty list: the code assigns into a map only after `ensureLoaded`
returned nil, that is after the load has made the three maps. -/
abbrev GoMap (V : Type) := List (String × V)

namespace GoMap

/-- The assignment `m[k] = v`. -/
def assign {V : Type} (m : GoMap V) (k : String) (v : V) : GoMap V :=
  if m.any (fun e => e.1 == k) then m.map (fun e => if e.1 = k then (k, v) else e)
  else m ++ [(k, v)]

/-- The statement `delete(m, k)`. -/
def delete {V : Type} (m : GoMap V) (k : String) : GoMap V :=
  m.filter (fun e => e.1 != k)

/-- The lookup `v, ok := m[k]`. -/
def lookup {V : Type} (m : GoMap V) (k : String) : Option V :=
  (m.find? (fun e => e.1 == k)).map Prod.snd

/-- The values met by `for _, v := range m`. -/
def values {V : Type} (m : GoMap V) : List V :=
  m.map Prod.snd

/-- The loop `for _, x := range l { m[x.ID] = x }` run on the map `m`. -/
def assignAll {V : Type} [HasID V] (m : GoMap V) (l : List V) : GoMap V :=
  l.foldl (fun m x => assign m (HasID.ID x) x) m

end GoMap

/-! ## `ProxyRepository` (`proxy_repository.go`) -/

/-- Go `ProxyRepository`: the wrapped repository's state `base`, the
`sync.Once` of the lazy load (`loadOnce` is true once `Do` has run its
function), the error the load left, and the three cached maps. -/
structure ProxyRepository (σ : Type) where
  base : σ
  loadOnce : Bool := false
  loadErr : Option Error := none
  accounts : GoMap BankAccount := []
  categories : GoMap Category := []
  operations : GoMap Operation := []

/-- Go `NewProxyRepository`. -/
def NewProxyRepository {σ : Type} (base : σ) : ProxyRepository σ :=
  { base := base }

namespace ProxyRepository

variable {σ : Type}

/-- The function passed to `p.loadOnce.Do` in `ensureLoaded`. -/
def loadBody (b : Repository σ) (p : ProxyRepository σ) : ProxyRepository σ :=
  match b.ListAccounts p.base with
  | (.error err, s) => { p with base := s, loadErr := some (.wrap "load accounts" err) }
  | (.ok accounts, s) =>
    match b.ListCategories s with
    | (.error err, s) => { p with base := s, loadErr := some (.wrap "load categories" err) }
    | (.ok categories, s) =>
      match b.ListOperations s with
      | (.error err, s) =>
        { p with base := s, loadErr := some (.wrap "load operations" err) }
      | (.ok operations, s) =>
        { p with
          base := s
          accounts := GoMap.assignAll [] accounts
          categories := GoMap.assignAll [] categories
          operations := GoMap.assignAll [] operations }

/-- Method `ProxyRepository.ensureLoaded`: `sync.Once.Do` runs the load the
first time only and marks it done whatever its outcome. -/
def ensureLoaded (b : Repository σ) (p : ProxyRepository σ) : Option Error × ProxyRepository σ :=
  if p.loadOnce then (p.loadErr, p)
  else
    let p := loadBody b { p with loadOnce := true }
    (p.loadErr, p)

def ListAccounts (b : Repository σ) (p : ProxyRepository σ) :
    Except Error (List BankAccount) × ProxyRepository σ :=
  match ensureLoaded b p with
  | (some err, p) => (.error err, p)
  | (none, p) => (.ok p.accounts.values, p)

def GetAccount (b : Repository σ) (p : ProxyRepository σ) (id : String) :
    Except Error BankAccount × ProxyRepository σ :=
  match ensureLoaded b p with
  | (some err, p) => (.error err, p)
  | (none, p) =>
    match p.accounts.lookup id with
    | none => (.error (notFound "account" id), p)
    | some acc => (.ok acc, p)

def CreateAccount (b : Repository σ) (p : ProxyRepository σ) (account : BankAccount) :
    Option Error × ProxyRepository σ :=
  match b.CreateAccount p.base account with
  | (some err, s) => (some err, { p with base := s })
  | (none, s) =>
    match ensureLoaded b { p with base := s } with
    | (some err, p) => (some err, p)
    | (none, p) => (none, { p with accounts := p.accounts.assign account.ID account })

def UpdateAccount (b : Repository σ) (p : ProxyRepository σ) (account : BankAccount) :
    Option Error × ProxyRepository σ :=
  match b.UpdateAccount p.base account with
  | (some err, s) => (some err, { p with base := s })
  | (none, s) =>
    match ensureLoaded b { p with base := s } with
    | (some err, p) => (some err, p)
    | (none, p) => (none, { p with accounts := p.accounts.assign account.ID account })

def DeleteAccount (b : Repository σ) (p : ProxyRepository σ) (id : String) :
    Option Error × ProxyRepository σ :=
  match b.DeleteAccount p.base id with
  | (some err, s) => (some err, { p with base := s })
  | (none, s) =>
    match ensureLoaded b { p with base := s } with
    | (some err, p) => (some err, p)
    | (none, p) => (none, { p with accounts := p.accounts.delete id })

def ListCategories (b : Repository σ) (p : ProxyRepository σ) :
    Except Error (List Category) × ProxyRepository σ :=
  match ensureLoaded b p with
  | (some err, p) => (.error err, p)
  | (none, p) => (.ok p.categories.values, p)

def GetCategory (b : Repository σ) (p : ProxyRepository σ) (id : String) :
    Except Error Category × ProxyRepository σ :=
  match ensureLoaded b p with
  | (some err, p) => (.error err, p)
  | (none, p) =>
    match p.categories.lookup id with
    | none => (.error (notFound "category" id), p)
    | some cat => (.ok cat, p)

def CreateCategory (b : Repository σ) (p : ProxyRepository σ) (category : Category) :
    Option Error × ProxyRepository σ :=
  match b.CreateCategory p.base category with
  | (some err, s) => (some err, { p with base := s })
  | (none, s) =>
    match ensureLoaded b { p with base := s } with
    | (some err, p) => (some err, p)
    | (none, p) => (none, { p with categories := p.categories.assign category.ID category })

def UpdateCategory (b : Repository σ) (p : ProxyRepository σ) (category : Category) :
    Option Error × ProxyRepository σ :=
  match b.UpdateCategory p.base category with
  | (some err, s) => (some err, { p with base := s })
  | (none, s) =>
    match ensureLoaded b { p with base := s } with
    | (some err, p) => (some err, p)
    | (none, p) => (none, { p with categories := p.categories.assign category.ID category })

def DeleteCategory (b : Repository σ) (p : ProxyRepository σ) (id : String) :
    Option Error × ProxyRepository σ :=
  match b.DeleteCategory p.base id with
  | (some err, s) => (some err, { p with base := s })
  | (none, s) =>
    match ensureLoaded b { p with base := s } with
    | (some err, p) => (some err, p)
    | (none, p) => (none, { p with categories := p.categories.delete id })

def ListOperations (b : Repository σ) (p : ProxyRepository σ) :
    Except Error (List Operation) × ProxyRepository σ :=
  match ensureLoaded b p with
  | (some err, p) => (.error err, p)
  | (none, p) => (.ok p.operations.values, p)

def GetOperation (b : Repository σ) (p : ProxyRepository σ) (id : String) :
    Except Error Operation × ProxyRepository σ :=
  match ensureLoaded b p with
  | (some err, p) => (.error err, p)
  | (none, p) =>
    match p.operations.lookup id with
    | none => (.error (notFound "operation" id), p)
    | some op => (.ok op, p)

def CreateOperation (b : Repository σ) (p : ProxyRepository σ) (operation : Operation) :
    Option Error × ProxyRepository σ :=
  match b.CreateOperation p.base operation with
  | (some err, s) => (some err, { p with base := s })
  | (none, s) =>
    match ensureLoaded b { p with base := s } with
    | (some err, p) => (some err, p)
    | (none, p) => (none, { p with operations := p.operations.assign operation.ID operation })

def UpdateOperation (b : Repository σ) (p : ProxyRepository σ) (operation : Operation) :
    Option Error × ProxyRepository σ :=
  match b.UpdateOperation p.base operation with
  | (some err, s) => (some err, { p with base := s })
  | (none, s) =>
    match ensureLoaded b { p with base := s } with
    | (some err, p) => (some err, p)
    | (none, p) => (none, { p with operations := p.operations.assign operation.ID operation })

def DeleteOperation (b : Repository σ) (p : ProxyRepository σ) (id : String) :
    Option Error × ProxyRepository σ :=
  match b.DeleteOperation p.base id with
  | (some err, s) => (some err, { p with base := s })
  | (none, s) =>
    match ensureLoaded b { p with base := s } with
    | (some err, p) => (some err, p)
    | (none, p) => (none, { p with operations := p.operations.delete id })

/-- Method `ProxyRepository.ReplaceAll`. -/
def ReplaceAll (b : Repository σ) (p : ProxyRepository σ) (data : StorageData) :
    Option Error × ProxyRepository σ :=
  match b.ReplaceAll p.base data with
  | (some err, s) => (some err, { p with base := s })
  | (none, s) =>
    match ensureLoaded b { p with base := s } with
    | (some err, p) => (some err, p)
    | (none, p) =>
      (none, { p with
        accounts := GoMap.assignAll [] data.Accounts
        categories := GoMap.assignAll [] data.Categories
        operations := GoMap.assignAll [] data.Operations })

/-- The proxy over `b` as a `Repository` (it implements the same interface). -/
def repo (b : Repository σ) : Repository (ProxyRepository σ) where
  ListAccounts := ListAccounts b
  GetAccount := GetAccount b
  CreateAccount := CreateAccount b
  UpdateAccount := UpdateAccount b
  DeleteAccount := DeleteAccount b
  ListCategories := ListCategories b
  GetCategory := GetCategory b
  CreateCategory := CreateCategory b
  UpdateCategory := UpdateCategory b
  DeleteCategory := DeleteCategory b
  ListOperations := ListOperations b
  GetOperation := GetOperation b
  CreateOperation := CreateOperation b
  UpdateOperation := UpdateOperation b
  DeleteOperation := DeleteOperation b
  ReplaceAll := ReplaceAll b

end ProxyRepository

/-! ## Calls and runs -/

/-- One call of a `Repository` method with its arguments. -/
inductive Call where
  | listAccounts
  | getAccount (id : String)
  | createAccount (account : BankAccount)
  | updateAccount (account : BankAccount)
  | deleteAccount (id : String)
  | listCategories
  | getCategory (id : String)
  | createCategory (category : Category)
  | updateCategory (category : Category)
  | deleteCategory (id : String)
  | listOperations
  | getOperation (id : String)
  | createOperation (operation : Operation)
  | updateOperation (operation : Operation)
  | deleteOperation (id : String)
  | replaceAll (data : StorageData)
  deriving DecidableEq, Repr

/-- What a call returns to its caller. -/
inductive Reply where
  | accounts (r : Except Error (List BankAccount))
  | account (r : Except Error BankAccount)
  | categories (r : Except Error (List Category))
  | category (r : Except Error Category)
  | operations (r : Except Error (List Operation))
  | operation (r : Except Error Operation)
  | done (err : Option Error)
  deriving DecidableEq

/-- The error of an `Except` result, if any. -/
def errorOf {α : Type} : Except Error α → Option Error
  | .error e => some e
  | .ok _ => none

/-- The error a call returned, `none` for Go's nil. -/
def Reply.err : Reply → Option Error
  | .accounts r => errorOf r
  | .account r => errorOf r
  | .categories r => errorOf r
  | .category r => errorOf r
  | .operations r => errorOf r
  | .operation r => errorOf r
  | .done e => e

/-- The calls that write: `Create*`, `Update*`, `Delete*` and `ReplaceAll`. -/
def Call.isWrite : Call → Bool
  | .createAccount _ | .updateAccount _ | .deleteAccount _ => true
  | .createCategory _ | .updateCategory _ | .deleteCategory _ => true
  | .createOperation _ | .updateOperation _ | .deleteOperation _ => true
  | .replaceAll _ => true
  | _ => false

/-- The calls `Create*`, `Update*` and `Delete*`. -/
def Call.isCUD : Call → Bool
  | .replaceAll _ => false
  | c => c.isWrite

/-- The calls `ListAccounts`, `ListCategories` and `ListOperations`. -/
def Call.isList : Call → Bool
  | .listAccounts | .listCategories | .listOperations => true
  | _ => false

namespace Repository

variable {σ : Type}

/-- Dispatch of one call on a repository in state `s`. -/
def call (b : Repository σ) (s : σ) : Call → Reply × σ
  | .listAccounts => let r := b.ListAccounts s; (.accounts r.1, r.2)
  | .getAccount id => let r := b.GetAccount s id; (.account r.1, r.2)
  | .createAccount a => let r := b.CreateAccount s a; (.done r.1, r.2)
  | .updateAccount a => let r := b.UpdateAccount s a; (.done r.1, r.2)
  | .deleteAccount id => let r := b.DeleteAccount s id; (.done r.1, r.2)
  | .listCategories => let r := b.ListCategories s; (.categories r.1, r.2)
  | .getCategory id => let r := b.GetCategory s id; (.category r.1, r.2)
  | .createCategory c => let r := b.CreateCategory s c; (.done r.1, r.2)
  | .updateCategory c => let r := b.UpdateCategory s c; (.done r.1, r.2)
  | .deleteCategory id => let r := b.DeleteCategory s id; (.done r.1, r.2)
  | .listOperations => let r := b.ListOperations s; (.operations r.1, r.2)
  | .getOperation id => let r := b.GetOperation s id; (.operation r.1, r.2)
  | .createOperation o => let r := b.CreateOperation s o; (.done r.1, r.2)
  | .updateOperation o => let r := b.UpdateOperation s o; (.done r.1, r.2)
  | .deleteOperation id => let r := b.DeleteOperation s id; (.done r.1, r.2)
  | .replaceAll d => let r := b.ReplaceAll s d; (.done r.1, r.2)

/-- The state after a sequence of calls, made one after the other. -/
def run (b : Repository σ) (s : σ) : List Call → σ
  | [] => s
  | c :: cs => run b (b.call s c).2 cs

/-- The repository `b` with a journal: every method appends its call to the
list kept beside the state, then behaves as `b`. -/
def traced (b : Repository σ) : Repository (σ × List Call) where
  ListAccounts s := let r := b.ListAccounts s.1; (r.1, (r.2, s.2 ++ [.listAccounts]))
  GetAccount s id := let r := b.GetAccount s.1 id; (r.1, (r.2, s.2 ++ [.getAccount id]))
  CreateAccount s a := let r := b.CreateAccount s.1 a; (r.1, (r.2, s.2 ++ [.createAccount a]))
  UpdateAccount s a := let r := b.UpdateAccount s.1 a; (r.1, (r.2, s.2 ++ [.updateAccount a]))
  DeleteAccount s id := let r := b.DeleteAccount s.1 id; (r.1, (r.2, s.2 ++ [.deleteAccount id]))
  ListCategories s := let r := b.ListCategories s.1; (r.1, (r.2, s.2 ++ [.listCategories]))
  GetCategory s id := let r := b.GetCategory s.1 id; (r.1, (r.2, s.2 ++ [.getCategory id]))
  CreateCategory s c := let r := b.CreateCategory s.1 c; (r.1, (r.2, s.2 ++ [.createCategory c]))
  UpdateCategory s c := let r := b.UpdateCategory s.1 c; (r.1, (r.2, s.2 ++ [.updateCategory c]))
  DeleteCategory s id := let r := b.DeleteCategory s.1 id; (r.1, (r.2, s.2 ++ [.deleteCategory id]))
  ListOperations s := let r := b.ListOperations s.1; (r.1, (r.2, s.2 ++ [.listOperations]))
  GetOperation s id := let r := b.GetOperation s.1 id; (r.1, (r.2, s.2 ++ [.getOperation id]))
  CreateOperation s o := let r := b.CreateOperation s.1 o; (r.1, (r.2, s.2 ++ [.createOperation o]))
  UpdateOperation s o := let r := b.UpdateOperation s.1 o; (r.1, (r.2, s.2 ++ [.updateOperation o]))
  DeleteOperation s id := let r := b.DeleteOperation s.1 id; (r.1, (r.2, s.2 ++ [.deleteOperation id]))
  ReplaceAll s d := let r := b.ReplaceAll s.1 d; (r.1, (r.2, s.2 ++ [.replaceAll d]))

end Repository

/-! ## The common shape of the proxy's methods -/

/-- The reply of call `c` when it returns the error `e`. -/
def Call.fail : Call → Error → Reply
  | .listAccounts, e => .accounts (.error e)
  | .getAccount _, e => .account (.error e)
  | .listCategories, e => .categories (.error e)
  | .getCategory _, e => .category (.error e)
  | .listOperations, e => .operations (.error e)
  | .getOperation _, e => .operation (.error e)
  | _, e => .done (some e)

/-- What `List*` and `Get*` answer from the maps once the load guard has
passed. -/
def ProxyRepository.answer {σ : Type} (p : ProxyRepository σ) : Call → Reply
  | .listAccounts => .accounts (.ok p.accounts.values)
  | .getAccount id =>
    match p.accounts.lookup id with
    | none => .account (.error (notFound "account" id))
    | some acc => .account (.ok acc)
  | .listCategories => .categories (.ok p.categories.values)
  | .getCategory id =>
    match p.categories.lookup id with
    | none => .category (.error (notFound "category" id))
    | some cat => .category (.ok cat)
  | .listOperations => .operations (.ok p.operations.values)
  | .getOperation id =>
    match p.operations.lookup id with
    | none => .operation (.error (notFound "operation" id))
    | some op => .operation (.ok op)
  | _ => .done none

/-- The map statements a write runs under `p.mu` once the store has accepted it
and the load guard has passed. -/
def ProxyRepository.cacheWrite {σ : Type} (p : ProxyRepository σ) : Call → ProxyRepository σ
  | .createAccount a => { p with accounts := p.accounts.assign a.ID a }
  | .updateAccount a => { p with accounts := p.accounts.assign a.ID a }
  | .deleteAccount id => { p with accounts := p.accounts.delete id }
  | .createCategory c => { p with categories := p.categories.assign c.ID c }
  | .updateCategory c => { p with categories := p.categories.assign c.ID c }
  | .deleteCategory id => { p with categories := p.categories.delete id }
  | .createOperation o => { p with operations := p.operations.assign o.ID o }
  | .updateOperation o => { p with operations := p.operations.assign o.ID o }
  | .deleteOperation id => { p with operations := p.operations.delete id }
  | .replaceAll d =>
    { p with
      accounts := GoMap.assignAll [] d.Accounts
      categories := GoMap.assignAll [] d.Categories
      operations := GoMap.assignAll [] d.Operations }
  | _ => p

/-! ## Observations used in the statements -/

/-- The snapshot the storage file holds: what a load reads when the file can be
opened; `none` when the content does not decode. -/
def Disk.persisted (r : Disk) : Option StorageData :=
  match r.file with
  | none => some {}
  | some .empty => some {}
  | some (.document d) => some d
  | some (.malformed _) => none

/-- IDs are unique within each collection of the snapshot. -/
def UniqueIDs (d : StorageData) : Prop :=
  (ids d.Accounts).Nodup ∧ (ids d.Categories).Nodup ∧ (ids d.Operations).Nodup

instance (d : StorageData) : Decidable (UniqueIDs d) := by
  unfold UniqueIDs; infer_instance

/-- A `Create*` call brings an ID that the matching collection of `d` does not
hold yet, and a `ReplaceAll` brings a snapshot with unique IDs; true of every
other call. -/
def Call.freshAt (d : StorageData) : Call → Bool
  | .createAccount a => decide (a.ID ∉ ids d.Accounts)
  | .createCategory c => decide (c.ID ∉ ids d.Categories)
  | .createOperation o => decide (o.ID ∉ ids d.Operations)
  | .replaceAll x => decide (UniqueIDs x)
  | _ => true

/-- The entity or snapshot a write brings can be encoded as JSON (finite
numbers, dates within years 0 to 9999); true of every other call. -/
def Call.encodes : Call → Bool
  | .createAccount a => a.encodeError.isNone
  | .updateAccount a => a.encodeError.isNone
  | .createOperation o => o.encodeError.isNone
  | .updateOperation o => o.encodeError.isNone
  | .replaceAll x => (encodeError x).isNone
  | _ => true

/-- The function a `Create*`, `Update*` or `Delete*` of the file store hands to
`withData`; for `ReplaceAll` the snapshot that is saved. -/
def FileRepository.mutation (c : Call) (data : StorageData) : Except Error StorageData :=
  match c with
  | .createAccount account => .ok { data with Accounts := data.Accounts ++ [account] }
  | .updateAccount account =>
    match indexOfID data.Accounts account.ID with
    | some i => .ok { data with Accounts := data.Accounts.set i account }
    | none => .error (notFound "account" account.ID)
  | .deleteAccount id =>
    match indexOfID data.Accounts id with
    | some i => .ok { data with Accounts := removeAt data.Accounts i }
    | none => .error (notFound "account" id)
  | .createCategory category =>
    .ok { data with Categories := data.Categories ++ [category] }
  | .updateCategory category =>
    match indexOfID data.Categories category.ID with
    | some i => .ok { data with Categories := data.Categories.set i category }
    | none => .error (notFound "category" category.ID)
  | .deleteCategory id =>
    match indexOfID data.Categories id with
    | some i => .ok { data with Categories := removeAt data.Categories i }
    | none => .error (notFound "category" id)
  | .createOperation operation =>
    .ok { data with Operations := data.Operations ++ [operation] }
  | .updateOperation operation =>
    match indexOfID data.Operations operation.ID with
    | some i => .ok { data with Operations := data.Operations.set i operation }
    | none => .error (notFound "operation" operation.ID)
  | .deleteOperation id =>
    match indexOfID data.Operations id with
    | some i => .ok { data with Operations := removeAt data.Operations i }
    | none => .error (notFound "operation" id)
  | .replaceAll x => .ok x
  | _ => .ok data

/-- The entries of a map that holds each element of `l` under its ID, in the
order of `l`. -/
def entries {α : Type} [HasID α] (l : List α) : GoMap α :=
  l.map (fun x => (HasID.ID x, x))

/-- No I/O fault is in force, and the file holds a snapshot with unique IDs that
can be encoded again. -/
def Disk.Sound (r : Disk) : Prop :=
  r.openErr = none ∧ r.createErr = none ∧ r.writeErr = none ∧
    ∃ d, r.persisted = some d ∧ UniqueIDs d ∧ encodeError d = none

/-- Each call of the sequence, at the moment it reaches the store, keeps IDs
unique (`freshAt` the snapshot then persisted) and brings encodable values
(`encodes`). -/
def admissible (r : Disk) : List Call → Bool
  | [] => true
  | c :: cs =>
    c.freshAt (r.persisted.getD {}) && c.encodes &&
      admissible (FileRepository.repo.call r c).2 cs

/-- Each cached map holds exactly the entities of the matching collection of
`d`, each under its ID. -/
def ProxyRepository.Mirrors {σ : Type} (p : ProxyRepository σ) (d : StorageData) : Prop :=
  p.accounts = entries d.Accounts ∧ p.categories = entries d.Categories ∧
    p.operations = entries d.Operations

/-- The cache of a proxy over the file store mirrors the file: either the lazy
load has not run yet, or it succeeded and the maps mirror the persisted
snapshot. -/
def Synced (p : ProxyRepository Disk) : Prop :=
  (p.loadOnce = false ∧ p.loadErr = none) ∨
  (p.loadOnce = true ∧ p.loadErr = none ∧ ∃ d, p.base.persisted = some d ∧ p.Mirrors d)

/-- Every entry of the map is stored under the ID of its value. -/
def GoMap.KeysAreIDs {V : Type} [HasID V] (m : GoMap V) : Prop :=
  ∀ e ∈ m, e.1 = HasID.ID e.2

/-- The three cached maps store every entity under its own ID. -/
def ProxyRepository.CacheInv {σ : Type} (p : ProxyRepository σ) : Prop :=
  p.accounts.KeysAreIDs ∧ p.categories.KeysAreIDs ∧ p.operations.KeysAreIDs

/-- The proxy over the journalled store `b.traced`, started fresh on the store
state `s` with an empty journal, after the calls `calls`. -/
def journalled {σ : Type} (b : Repository σ) (s : σ) (calls : List Call) :
    ProxyRepository (σ × List Call) :=
  (ProxyRepository.repo b.traced).run (NewProxyRepository (s, [])) calls

/-! ## Sample data -/

def sampleAccount : BankAccount := ⟨"a1", "Checking", .finite 100⟩

/-- A second account under the ID of `sampleAccount`. -/
def sampleTwin : BankAccount := ⟨"a1", "Savings", .finite 5⟩

/-- An account whose balance is NaN. -/
def sampleNaN : BankAccount := ⟨"a2", "Broken", .nan⟩

def sampleCategory : Category := ⟨"c1", "income", "Salary"⟩

def sampleOperation : Operation :=
  ⟨"o1", "income", "a1", .finite 10, ⟨63900000000, 0, 0⟩, "", "c1"⟩

def sampleData : StorageData :=
  { Accounts := [sampleAccount], Categories := [sampleCategory], Operations := [sampleOperation] }

/-- A healthy disk holding `sampleData`. -/
def sampleDisk : Disk := { file := some (.document sampleData) }

/-- The same file on a disk where `os.Create` is refused. -/
def readOnlyDisk : Disk :=
  { file := some (.document sampleData), createErr := some (.text "permission denied") }

/-- A disk on which the storage file does not exist yet. -/
def emptyDisk : Disk := {}

/-- A create under a new ID, an update, a delete and a delete of an absent ID. -/
def sampleCalls : List Call :=
  [.createAccount ⟨"a2", "Cash", .finite 0⟩, .updateAccount sampleTwin,
    .deleteOperation "o1", .deleteCategory "c9"]

/-- A file that does not decode. -/
def corruptDisk : Disk :=
  { file := some (.malformed (.text "unexpected EOF")) }


/-- The state of the wrapped store at the moment the call `c` made on the proxy
`p` reaches the load guard: a write has delegated to the store by then, a read
has not touched it. -/
def ProxyRepository.guardState {σ : Type} (b : Repository σ) (p : ProxyRepository σ)
    (c : Call) : σ :=
  if c.isWrite then (b.call p.base c).2 else p.base


/-! ## Reference list operations (after the words of the specification) -/

/-- Reference: the old list with `e` appended at the end. -/
def refAppend {α : Type} (l : List α) (e : α) : List α :=
  l ++ [e]

/-- Reference: the old list with the first element whose ID equals the ID of `e`
replaced by `e`; every other position keeps its element. -/
def refReplaceFirst {α : Type} [HasID α] : List α → α → List α
  | [], _ => []
  | x :: xs, e => if HasID.ID x = HasID.ID e then e :: xs else x :: refReplaceFirst xs e

/-- Reference: the old list with the first element whose ID is `id` removed; the
others keep their relative order. -/
def refRemoveFirst {α : Type} [HasID α] : List α → String → List α
  | [], _ => []
  | x :: xs, id => if HasID.ID x = id then xs else x :: refRemoveFirst xs id

/-- Reference: the snapshot after a successful `Create*`, `Update*` or `Delete*`,
the reference operation applied to the relevant collection and the two other
collections as they were. -/
def referenceAfter (c : Call) (d : StorageData) : StorageData :=
  match c with
  | .createAccount a => { d with Accounts := refAppend d.Accounts a }
  | .updateAccount a => { d with Accounts := refReplaceFirst d.Accounts a }
  | .deleteAccount id => { d with Accounts := refRemoveFirst d.Accounts id }
  | .createCategory a => { d with Categories := refAppend d.Categories a }
  | .updateCategory a => { d with Categories := refReplaceFirst d.Categories a }
  | .deleteCategory id => { d with Categories := refRemoveFirst d.Categories id }
  | .createOperation a => { d with Operations := refAppend d.Operations a }
  | .updateOperation a => { d with Operations := refReplaceFirst d.Operations a }
  | .deleteOperation id => { d with Operations := refRemoveFirst d.Operations id }
  | _ => d


/-! ## `DomainFactory` (`internal/domain/factory/factory.go`) -/

/-- Go's `x < y` on `float64`: false whenever an operand is NaN. -/
def Float64.lt : Float64 → Float64 → Bool
  | .finite a, .finite b => decide (a < b)
  | .negInf, .finite _ => true
  | .negInf, .posInf => true
  | .finite _, .posInf => true
  | _, _ => false

/-- Go's `x <= y` on `float64`: false whenever an operand is NaN. -/
def Float64.le : Float64 → Float64 → Bool
  | .finite a, .finite b => decide (a ≤ b)
  | .negInf, .finite _ => true
  | .negInf, .posInf => true
  | .finite _, .posInf => true
  | .negInf, .negInf => true
  | .posInf, .posInf => true
  | _, _ => false

/-- Go's `unicode.IsSpace`: the white space characters of Unicode, by code
point. -/
def isSpace (c : Char) : Bool :=
  let n := c.toNat
  (9 ≤ n && n ≤ 13) || n = 32 || n = 133 || n = 160 || n = 5760 ||
    (8192 ≤ n && n ≤ 8202) || n = 8232 || n = 8233 || n = 8239 || n = 8287 || n = 12288

/-- Go's `strings.TrimSpace`: the string without its leading and trailing white
space. -/
def TrimSpace (s : String) : String :=
  ⟨((s.data.dropWhile isSpace).reverse.dropWhile isSpace).reverse⟩

/-- Go `IDGenerator`: an implementation of `NewID` over a state of type `γ` (for
`UUIDGenerator` the source of random bytes). -/
structure IDGenerator (γ : Type) where
  NewID : γ → Except Error String × γ

/-- Go `DomainFactory`. -/
structure DomainFactory (γ : Type) where
  idGen : IDGenerator γ

/-- Go `NewDomainFactory`. -/
def NewDomainFactory {γ : Type} (idGen : IDGenerator γ) : DomainFactory γ :=
  { idGen := idGen }

namespace DomainFactory

variable {γ : Type}

/-- Method `DomainFactory.CreateBankAccount`. -/
def CreateBankAccount (f : DomainFactory γ) (g : γ) (name : String)
    (initialBalance : Float64) : Except Error BankAccount × γ :=
  if TrimSpace name = "" then (.error (.text "account name is required"), g)
  else
    match f.idGen.NewID g with
    | (.error err, g) => (.error (.wrap "generate account id" err), g)
    | (.ok id, g) =>
      if initialBalance.lt (.finite 0) then
        (.error (.text "initial balance cannot be negative"), g)
      else (.ok { ID := id, Name := name, Balance := initialBalance }, g)

/-- Method `DomainFactory.CreateCategory`. -/
def CreateCategory (f : DomainFactory γ) (g : γ) (name : String)
    (categoryType : CategoryType) : Except Error Category × γ :=
  if TrimSpace name = "" then (.error (.text "category name is required"), g)
  else if categoryType ≠ CategoryTypeIncome ∧ categoryType ≠ CategoryTypeExpense then
    (.error (.text "invalid category type"), g)
  else
    match f.idGen.NewID g with
    | (.error err, g) => (.error (.wrap "generate category id" err), g)
    | (.ok id, g) => (.ok { ID := id, Typ := categoryType, Name := name }, g)

/-- Method `DomainFactory.CreateOperation`. -/
def CreateOperation (f : DomainFactory γ) (g : γ) (opType : OperationType)
    (accountID categoryID : String) (amount : Float64) (date : Time)
    (description : String) : Except Error Operation × γ :=
  if opType ≠ OperationTypeIncome ∧ opType ≠ OperationTypeExpense then
    (.error (.text "invalid operation type"), g)
  else if TrimSpace accountID = "" then (.error (.text "bank account id is required"), g)
  else if TrimSpace categoryID = "" then (.error (.text "category id is required"), g)
  else if amount.le (.finite 0) then
    (.error (.text "operation amount must be positive"), g)
  else if date.IsZero then (.error (.text "operation date is required"), g)
  else
    match f.idGen.NewID g with
    | (.error err, g) => (.error (.wrap "generate operation id" err), g)
    | (.ok id, g) =>
      (.ok
        { ID := id
          Typ := opType
          BankAccountID := accountID
          CategoryID := categoryID
          Amount := amount
          Date := date
          Description := TrimSpace description }, g)

end DomainFactory

/-- A generator that hands out the identifier `id` and never fails. -/
def fixedID (id : String) : IDGenerator Unit :=
  { NewID := fun g => (.ok id, g) }


/-- Go's `hextable` of `encoding/hex`: the lowercase hexadecimal digits. -/
def hextable : List Char := "0123456789abcdef".data

/-- The digit `hextable[n]`. -/
def hexDigit (n : Nat) : Char := hextable.getD n '0'

/-- Go's `hex.Encode`: for each byte its high and its low hexadecimal digit. -/
def hexEncode (src : List Nat) : List Char :=
  src.flatMap (fun v => [hexDigit (v >>> 4), hexDigit (v &&& 0x0f)])

/-- The part of `newUUID` after `rand.Read` has filled the 16 bytes `b`: version and
variant bits are set, then the bytes are written in hexadecimal in groups of 4,
2, 2, 2 and 6 bytes with hyphens between them. -/
def uuidFromBytes (b : List Nat) : String :=
  let b := b.set 6 ((b.getD 6 0 &&& 0x0f) ||| 0x40)
  let b := b.set 8 ((b.getD 8 0 &&& 0x3f) ||| 0x80)
  ⟨hexEncode (b.take 4) ++ ['-'] ++ hexEncode ((b.drop 4).take 2) ++ ['-'] ++
    hexEncode ((b.drop 6).take 2) ++ ['-'] ++ hexEncode ((b.drop 8).take 2) ++ ['-'] ++
    hexEncode ((b.drop 10).take 6)⟩

/-- The source of random bytes of `crypto/rand`: `reads n` is the outcome of the
`n`-th call of `rand.Read` on a 16-byte buffer (the bytes delivered, or an
error), `next` counts the calls made. -/
structure RandSource where
  reads : Nat → Except Error (List Nat)
  next : Nat := 0

/-- Go `newUUID`. -/
def newUUID (rnd : RandSource) : Except Error String × RandSource :=
  match rnd.reads rnd.next with
  | .error err => (.error (.wrap "read random" err), { rnd with next := rnd.next + 1 })
  | .ok b => (.ok (uuidFromBytes b), { rnd with next := rnd.next + 1 })

/-- Go `UUIDGenerator`: `NewID` is `newUUID`. -/
def UUIDGenerator : IDGenerator RandSource :=
  { NewID := newUUID }

/-- The index in the UUID string of the high digit of byte `j`: two digits per
byte, after one hyphen each behind bytes 3, 5, 7 and 9. -/
def uuidPos (j : Nat) : Nat :=
  2 * j + (if j < 4 then 0 else if j < 6 then 1 else if j < 8 then 2 else if j < 10 then 3
    else 4)


/-! ## `CategoryFacade` (`internal/services/category_facade.go`) -/

namespace CategoryFacade

/-- Method `CategoryFacade.UpdateCategoryName`, over the repository `repo` the
facade holds. -/
def UpdateCategoryName {σ : Type} (repo : Repository σ) (s : σ) (id newName : String) :
    Option Error × σ :=
  if newName = "" then (some (.text "category name cannot be empty"), s)
  else
    match repo.GetCategory s id with
    | (.error err, s) => (some err, s)
    | (.ok category, s) => repo.UpdateCategory s { category with Name := newName }

end CategoryFacade

/-- A file in which two categories of different types share the ID `c1`. -/
def twinCategoryDisk : Disk :=
  { file := some (.document
      { Categories := [⟨"c1", "income", "Salary"⟩, ⟨"c1", "expense", "Rent"⟩] }) }

/-! ## Arithmetic and comparison of the model values -/

/-- Go's unary minus on `float64`. -/
def Float64.neg : Float64 → Float64
  | .finite q => .finite (-q)
  | .posInf => .negInf
  | .negInf => .posInf
  | .nan => .nan

/-- The quotient `n / d` rounded to the nearest natural number, a tie going to
the even one. -/
def roundHalfEven (n d : Nat) : Nat :=
  let q := n / d
  let r := n % d
  if 2 * r < d then q
  else if d < 2 * r then q + 1
  else if q % 2 = 0 then q else q + 1

/-- The number of binary digits of `n`, counted in at most `fuel` halvings. -/
def bitLen : Nat → Nat → Nat
  | 0, _ => 0
  | fuel + 1, n => if n = 0 then 0 else bitLen fuel (n / 2) + 1

/-- The exponent of the leading bit of the positive quotient `n / d`: the `e`
with `2 ^ e ≤ n / d < 2 ^ (e + 1)`. -/
def leadExp (n d : Nat) : Int :=
  let k : Int := (bitLen n n : Int) - (bitLen d d : Int)
  if 0 ≤ k then (if d * 2 ^ k.toNat ≤ n then k else k - 1)
  else (if d ≤ n * 2 ^ (-k).toNat then k else k - 1)

/-- The `float64` nearest to the positive quotient `n / d` (IEEE 754 binary64,
round to nearest, ties to even): 53 significant bits, the last place never
below `2 ^ (-1074)`, and `+Inf` when the rounded value reaches `2 ^ 1024`. -/
def Float64.ofPos (n d : Nat) : Float64 :=
  let p : Int := max (leadExp n d - 52) (-1074)
  if 0 ≤ p then
    let v := roundHalfEven n (d * 2 ^ p.toNat) * 2 ^ p.toNat
    if 2 ^ 1024 ≤ v then .posInf else .finite v
  else .finite (mkRat (roundHalfEven (n * 2 ^ (-p).toNat) d) (2 ^ (-p).toNat))

/-- The `float64` nearest to the rational `q`: the rounding step of every
arithmetic operation on finite values. -/
def Float64.ofRat (q : ℚ) : Float64 :=
  if q.num = 0 then .finite 0
  else if 0 < q.num then Float64.ofPos q.num.natAbs q.den
  else (Float64.ofPos q.num.natAbs q.den).neg

/-- The model value is a `float64`: a non-finite value, or a finite one whose
rational is a binary64 number (rounding leaves it as it is). -/
def Float64.IsFloat : Float64 → Prop
  | .finite q => Float64.ofRat q = .finite q
  | _ => True

instance (x : Float64) : Decidable x.IsFloat := by
  cases x <;> unfold Float64.IsFloat <;> infer_instance

/-- Go's `x + y` on `float64`: the exact sum of two finite values rounded to the
nearest `float64`; the non-finite cases follow IEEE 754. -/
def Float64.add : Float64 → Float64 → Float64
  | .finite a, .finite b => Float64.ofRat (a + b)
  | .nan, _ => .nan
  | _, .nan => .nan
  | .posInf, .negInf => .nan
  | .negInf, .posInf => .nan
  | .posInf, _ => .posInf
  | _, .posInf => .posInf
  | .negInf, _ => .negInf
  | _, .negInf => .negInf

/-- Go's `x - y` on `float64`: IEEE 754 subtraction is the addition of the
negated operand. -/
def Float64.sub (x y : Float64) : Float64 :=
  x.add y.neg

/-- The sign of an infinite product: `+Inf` scaled by the finite factor `a`. -/
def Float64.scaleInf (a : ℚ) : Float64 :=
  if a = 0 then .nan else if 0 < a then .posInf else .negInf

/-- Go's `x * y` on `float64`: the exact product of two finite values rounded to
the nearest `float64`; the non-finite cases follow IEEE 754. -/
def Float64.mul : Float64 → Float64 → Float64
  | .finite a, .finite b => Float64.ofRat (a * b)
  | .nan, _ => .nan
  | _, .nan => .nan
  | .finite a, .posInf => Float64.scaleInf a
  | .posInf, .finite a => Float64.scaleInf a
  | .finite a, .negInf => (Float64.scaleInf a).neg
  | .negInf, .finite a => (Float64.scaleInf a).neg
  | .posInf, .posInf => .posInf
  | .negInf, .negInf => .posInf
  | .posInf, .negInf => .negInf
  | .negInf, .posInf => .negInf

/-- Go's `Time.Before`: the instants are compared, the zone plays no part. -/
def Time.Before (t u : Time) : Bool :=
  decide (t.sec < u.sec) || (decide (t.sec = u.sec) && decide (t.nsec < u.nsec))

/-- Go's `Time.After`. -/
def Time.After (t u : Time) : Bool :=
  decide (t.sec > u.sec) || (decide (t.sec = u.sec) && decide (t.nsec > u.nsec))

/-- Go's `Time.Equal`: the same instant, whatever the zones. -/
def Time.Equal (t u : Time) : Bool :=
  decide (t.sec = u.sec) && decide (t.nsec = u.nsec)

/-! ## `OperationFacade` (`internal/services/operation_facade.go`) -/

namespace OperationFacade

variable {σ γ : Type}

/-- Method `OperationFacade.ensureCategoryMatchesOperation`. -/
def ensureCategoryMatchesOperation (repo : Repository σ) (s : σ) (categoryID : String)
    (opType : OperationType) : Option Error × σ :=
  match repo.GetCategory s categoryID with
  | (.error err, s) => (some err, s)
  | (.ok category, s) =>
    if category.Typ = CategoryTypeIncome then
      if opType ≠ OperationTypeIncome then
        (some (.text ("category " ++ category.Name ++ " is income, but operation is " ++
          opType)), s)
      else (none, s)
    else if category.Typ = CategoryTypeExpense then
      if opType ≠ OperationTypeExpense then
        (some (.text ("category " ++ category.Name ++ " is expense, but operation is " ++
          opType)), s)
      else (none, s)
    else (some (.text ("unsupported category type " ++ category.Typ)), s)

/-- Method `OperationFacade.applyOperationEffect`; `coef` is `1.0`, or `-1.0` when
the effect is taken back. -/
def applyOperationEffect (repo : Repository σ) (s : σ) (operation : Operation)
    (apply : Bool) : Option Error × σ :=
  match repo.GetAccount s operation.BankAccountID with
  | (.error err, s) => (some err, s)
  | (.ok account, s) =>
    let coef : Float64 := if apply then .finite 1 else .finite (-1)
    if operation.Typ = OperationTypeIncome then
      repo.UpdateAccount s
        { account with Balance := account.Balance.add (coef.mul operation.Amount) }
    else if operation.Typ = OperationTypeExpense then
      repo.UpdateAccount s
        { account with Balance := account.Balance.sub (coef.mul operation.Amount) }
    else (some (.text ("unknown operation type " ++ operation.Typ)), s)

/-- Method `OperationFacade.AddOperation`, over the repository `repo` and the
factory `factory` the facade holds; `s` and `g` are their states. -/
def AddOperation (repo : Repository σ) (factory : DomainFactory γ) (s : σ) (g : γ)
    (opType : OperationType) (accountID categoryID : String) (amount : Float64)
    (date : Time) (description : String) : Except Error Operation × σ × γ :=
  match ensureCategoryMatchesOperation repo s categoryID opType with
  | (some err, s) => (.error err, s, g)
  | (none, s) =>
    match repo.GetAccount s accountID with
    | (.error err, s) => (.error err, s, g)
    | (.ok _, s) =>
      match factory.CreateOperation g opType accountID categoryID amount date description with
      | (.error err, g) => (.error err, s, g)
      | (.ok operation, g) =>
        match repo.CreateOperation s operation with
        | (some err, s) => (.error err, s, g)
        | (none, s) =>
          match applyOperationEffect repo s operation true with
          | (some err, s) => (.error err, s, g)
          | (none, s) => (.ok operation, s, g)

/-- Method `OperationFacade.UpdateOperation`. -/
def UpdateOperation (repo : Repository σ) (factory : DomainFactory γ) (s : σ) (g : γ)
    (id : String) (opType : OperationType) (accountID categoryID : String)
    (amount : Float64) (date : Time) (description : String) : Option Error × σ × γ :=
  match repo.GetOperation s id with
  | (.error err, s) => (some err, s, g)
  | (.ok prev, s) =>
    match ensureCategoryMatchesOperation repo s categoryID opType with
    | (some err, s) => (some err, s, g)
    | (none, s) =>
      match repo.GetAccount s accountID with
      | (.error err, s) => (some err, s, g)
      | (.ok _, s) =>
        match applyOperationEffect repo s prev false with
        | (some err, s) => (some err, s, g)
        | (none, s) =>
          match factory.CreateOperation g opType accountID categoryID amount date
              description with
          | (.error err, g) => (some err, s, g)
          | (.ok updated, g) =>
            match repo.UpdateOperation s { updated with ID := id } with
            | (some err, s) => (some err, s, g)
            | (none, s) =>
              match applyOperationEffect repo s { updated with ID := id } true with
              | (err, s) => (err, s, g)

/-- Method `OperationFacade.DeleteOperation`. -/
def DeleteOperation (repo : Repository σ) (s : σ) (id : String) : Option Error × σ :=
  match repo.GetOperation s id with
  | (.error err, s) => (some err, s)
  | (.ok operation, s) =>
    match repo.DeleteOperation s id with
    | (some err, s) => (some err, s)
    | (none, s) => applyOperationEffect repo s operation false

end OperationFacade

/-! ## `AccountFacade` (`internal/services/account_facade.go`) -/

namespace AccountFacade

variable {σ : Type}

/-- Method `AccountFacade.DeleteAccount`; the loop returns the error at the first
operation of the account, so the error is returned exactly when some operation
belongs to the account. -/
def DeleteAccount (repo : Repository σ) (s : σ) (id : String) : Option Error × σ :=
  match repo.ListOperations s with
  | (.error err, s) => (some err, s)
  | (.ok operations, s) =>
    if operations.any (fun op => op.BankAccountID == id) then
      (some (.text "cannot delete account with existing operations"), s)
    else repo.DeleteAccount s id

/-- The loop of `RecalculateBalance` over the operations, from the zero value of
`var balance float64`. -/
def recalculated (id : String) (operations : List Operation) : Float64 :=
  operations.foldl
    (fun balance op =>
      if op.BankAccountID ≠ id then balance
      else if op.Typ = OperationTypeIncome then balance.add op.Amount
      else if op.Typ = OperationTypeExpense then balance.sub op.Amount
      else balance)
    (.finite 0)

/-- Method `AccountFacade.RecalculateBalance`. -/
def RecalculateBalance (repo : Repository σ) (s : σ) (id : String) : Option Error × σ :=
  match repo.GetAccount s id with
  | (.error err, s) => (some err, s)
  | (.ok account, s) =>
    match repo.ListOperations s with
    | (.error err, s) => (some err, s)
    | (.ok operations, s) =>
      repo.UpdateAccount s { account with Balance := recalculated id operations }

end AccountFacade

/-! ## Further observations on the proxy -/

/-- The load guard of the proxy has passed without error: every later call skips
the load. -/
def ProxyRepository.Loaded {σ : Type} (p : ProxyRepository σ) : Prop :=
  p.loadOnce = true ∧ p.loadErr = none

/-- No key occurs twice among the entries of the map, as in every Go map. -/
def GoMap.KeysUnique {V : Type} (m : GoMap V) : Prop :=
  (m.map Prod.fst).Nodup

/-- The three cached maps are maps: each holds every key once, and every entity
under its own ID. True of a fresh proxy, and kept by every call. -/
def ProxyRepository.WellFormed {σ : Type} (p : ProxyRepository σ) : Prop :=
  p.CacheInv ∧ p.accounts.KeysUnique ∧ p.categories.KeysUnique ∧ p.operations.KeysUnique

/-- The effect of an operation on the balance of its account: its amount for an
income, its amount negated for an expense. -/
def Operation.effect (op : Operation) : Float64 :=
  if op.Typ = OperationTypeIncome then op.Amount else op.Amount.neg

/-! ## Reference sums (after the words of the specification) -/

/-- Reference: the sum of a list of amounts, from zero. -/
def total (amounts : List Float64) : Float64 :=
  amounts.foldl Float64.add (.finite 0)

/-- Reference: the amounts of the operations of type `typ` on the account
`id`. -/
def amountsOf (typ : OperationType) (id : String) (operations : List Operation) :
    List Float64 :=
  (operations.filter (fun op => decide (op.BankAccountID = id ∧ op.Typ = typ))).map
    Operation.Amount

/-- A file with the account `a1`, on which the operation `o1` depends, and the
account `a2`, on which none does. -/
def twoAccountDisk : Disk :=
  { file := some (.document
      { sampleData with Accounts := [sampleAccount, ⟨"a2", "Cash", .finite 3⟩] }) }

/-! ## `AnalyticsFacade` (`internal/services/analytics_facade.go`) -/

/-- Go `CategoryTotals`. -/
structure CategoryTotals where
  Income : Float64
  Expense : Float64
  deriving DecidableEq, Repr

namespace AnalyticsFacade

variable {σ : Type}

/-- Go `validatePeriod`; `frm` and `til` are the Go parameters `from` and `to`. -/
def validatePeriod (frm til : Time) : Option Error :=
  if til.Before frm then some (.text "period end cannot precede start") else none

/-- Go `inPeriod`. -/
def inPeriod (date frm til : Time) : Bool :=
  (date.Equal frm || date.After frm) && (date.Equal til || date.Before til)

/-- The body of the loop of `Difference`, on the pair of `income` and
`expense`. -/
def differenceStep (frm til : Time) (sums : Float64 × Float64) (op : Operation) :
    Float64 × Float64 :=
  if !inPeriod op.Date frm til then sums
  else if op.Typ = OperationTypeIncome then (sums.1.add op.Amount, sums.2)
  else if op.Typ = OperationTypeExpense then (sums.1, sums.2.add op.Amount)
  else sums

/-- Method `AnalyticsFacade.Difference`. -/
def Difference (repo : Repository σ) (s : σ) (frm til : Time) : Except Error Float64 × σ :=
  match validatePeriod frm til with
  | some err => (.error err, s)
  | none =>
    match repo.ListOperations s with
    | (.error err, s) => (.error err, s)
    | (.ok operations, s) =>
      let sums := operations.foldl (differenceStep frm til) (.finite 0, .finite 0)
      (.ok (sums.1.sub sums.2), s)

/-- The `switch` that adds the amount of `op` to the entry of its category. -/
def addToEntry (entry : CategoryTotals) (op : Operation) : CategoryTotals :=
  if op.Typ = OperationTypeIncome then { entry with Income := entry.Income.add op.Amount }
  else if op.Typ = OperationTypeExpense then
    { entry with Expense := entry.Expense.add op.Amount }
  else entry

/-- The body of the loop of `GroupByCategory` over the operations; a name that
has no entry yet reads as the zero value of `CategoryTotals`. -/
def groupStep (categoryMap : GoMap Category) (frm til : Time)
    (totals : GoMap CategoryTotals) (op : Operation) : GoMap CategoryTotals :=
  if !inPeriod op.Date frm til then totals
  else
    match categoryMap.lookup op.CategoryID with
    | none => totals
    | some category =>
      let entry := (totals.lookup category.Name).getD ⟨.finite 0, .finite 0⟩
      totals.assign category.Name (addToEntry entry op)

/-- Method `AnalyticsFacade.GroupByCategory`. -/
def GroupByCategory (repo : Repository σ) (s : σ) (frm til : Time) :
    Except Error (GoMap CategoryTotals) × σ :=
  match validatePeriod frm til with
  | some err => (.error err, s)
  | none =>
    match repo.ListOperations s with
    | (.error err, s) => (.error err, s)
    | (.ok operations, s) =>
      match repo.ListCategories s with
      | (.error err, s) => (.error err, s)
      | (.ok categories, s) =>
        let categoryMap := GoMap.assignAll [] categories
        (.ok (operations.foldl (groupStep categoryMap frm til) []), s)

end AnalyticsFacade

/-! ## Reference notions for the analytics (after the words of the specification) -/

/-- Reference: the instant `t` is not later than the instant `u`. -/
def Time.le (t u : Time) : Prop :=
  t.sec < u.sec ∨ (t.sec = u.sec ∧ t.nsec ≤ u.nsec)

instance (t u : Time) : Decidable (Time.le t u) := by
  unfold Time.le; infer_instance

/-- Reference: the operations whose date lies between `frm` and `til`, both bounds
included. -/
def inRange (frm til : Time) (operations : List Operation) : List Operation :=
  operations.filter (fun op => decide (Time.le frm op.Date ∧ Time.le op.Date til))

/-- Reference: the amounts of the operations of type `typ`. -/
def amountsOfType (typ : OperationType) (operations : List Operation) : List Float64 :=
  (operations.filter (fun op => decide (op.Typ = typ))).map Operation.Amount

/-- Reference: the operations whose `category_id` is `cid`. -/
def ofCategory (cid : String) (operations : List Operation) : List Operation :=
  operations.filter (fun op => decide (op.CategoryID = cid))

/-- A file with two categories named `Misc`, an income of 10 in the first and an
expense of 4 in the second. -/
def sameNameDisk : Disk :=
  { file := some (.document
      { Accounts := [sampleAccount]
        Categories := [⟨"c1", "income", "Misc"⟩, ⟨"c2", "expense", "Misc"⟩]
        Operations :=
          [⟨"o1", "income", "a1", .finite 10, ⟨63900000000, 0, 0⟩, "", "c1"⟩,
           ⟨"o2", "expense", "a1", .finite 4, ⟨63900000000, 0, 0⟩, "", "c2"⟩] }) }

/-- Calls that start with a write on the fresh proxy and replace the whole
snapshot on the way. -/
def replaceCalls : List Call :=
  [.createAccount ⟨"a2", "Cash", .finite 0⟩,
    .replaceAll { Accounts := [sampleTwin], Categories := [sampleCategory] },
    .createOperation sampleOperation, .deleteAccount "a9"]

/-! ## YAML export and import (`export_visitor.go`, `importers/yaml_importer.go`) -/

/-- The functions of the Go standard library that the YAML code calls on numbers
and dates, and Go's table of printable characters beyond Latin-1. They are not
code of the repository and are left open: `formatFloat2` is the verb `%.2f`,
`formatRFC3339` is `Time.Format(time.RFC3339)`, `parseFloat` is
`strconv.ParseFloat(s, 64)` and `parseRFC3339` is `time.Parse(time.RFC3339, s)`,
each with the value it returns next to its error, `isPrintWide` is
`strconv.IsPrint` on the characters above U+00FF. -/
structure TextLib where
  formatFloat2 : Float64 → String
  formatRFC3339 : Time → String
  parseFloat : String → Float64 × Option Error
  parseRFC3339 : String → Time × Option Error
  isPrintWide : Char → Bool

/-- The double quote, the backslash and the single quote. -/
def dquote : Char := Char.ofNat 34
def backslash : Char := Char.ofNat 92
def squote : Char := Char.ofNat 39

/-- Go's `strconv.IsPrint`: ASCII and Latin-1 by range, the rest by table. -/
def isPrint (lib : TextLib) (c : Char) : Bool :=
  let n := c.toNat
  if n ≤ 255 then
    (32 ≤ n && n < 127) || (161 ≤ n && n ≤ 255 && n != 173)
  else lib.isPrintWide c

/-- The digits of `n` in base 16, `width` of them, most significant first. -/
def hexDigits : Nat → Nat → List Char
  | 0, _ => []
  | width + 1, n => hexDigits width (n / 16) ++ [hexDigit (n % 16)]

/-- Go's `appendEscapedRune` for the quote `"` (verb `%q` without flags): what
`strconv.Quote` writes for one character of a valid UTF-8 string. -/
def quoteRune (lib : TextLib) (c : Char) : List Char :=
  let n := c.toNat
  if c = dquote ∨ c = backslash then [backslash, c]
  else if isPrint lib c then [c]
  else if n = 7 then [backslash, 'a']
  else if n = 8 then [backslash, 'b']
  else if n = 12 then [backslash, 'f']
  else if n = 10 then [backslash, 'n']
  else if n = 13 then [backslash, 'r']
  else if n = 9 then [backslash, 't']
  else if n = 11 then [backslash, 'v']
  else if n < 32 ∨ n = 127 then [backslash, 'x'] ++ hexDigits 2 n
  else if n < 65536 then [backslash, 'u'] ++ hexDigits 4 n
  else [backslash, 'U'] ++ hexDigits 8 n

/-- Go's `strconv.Quote`, the verb `%q` on a string. -/
def Quote (lib : TextLib) (s : String) : String :=
  ⟨[dquote] ++ s.data.flatMap (quoteRune lib) ++ [dquote]⟩

/-- The newline character. -/
def newline : Char := Char.ofNat 10

/-- One `fmt.Fprintf(buf, "<indent><key>: %s\n", value)` of `renderYAML`. -/
def yamlLine (indent key value : String) : String :=
  indent ++ key ++ ": " ++ value ++ String.singleton newline

/-- Method `FileExportVisitor.renderYAML`, on the entities the visitor has
collected. -/
def renderYAML (lib : TextLib) (accounts : List BankAccount) (categories : List Category)
    (operations : List Operation) : String :=
  "accounts:" ++ String.singleton newline ++
  String.join (accounts.map (fun account =>
    yamlLine "  - " "id" account.ID ++
    yamlLine "    " "name" (Quote lib account.Name) ++
    yamlLine "    " "balance" (lib.formatFloat2 account.Balance))) ++
  "categories:" ++ String.singleton newline ++
  String.join (categories.map (fun category =>
    yamlLine "  - " "id" category.ID ++
    yamlLine "    " "name" (Quote lib category.Name) ++
    yamlLine "    " "type" category.Typ)) ++
  "operations:" ++ String.singleton newline ++
  String.join (operations.map (fun operation =>
    yamlLine "  - " "id" operation.ID ++
    yamlLine "    " "type" operation.Typ ++
    yamlLine "    " "bank_account_id" operation.BankAccountID ++
    yamlLine "    " "category_id" operation.CategoryID ++
    yamlLine "    " "amount" (lib.formatFloat2 operation.Amount) ++
    yamlLine "    " "date" (lib.formatRFC3339 operation.Date) ++
    (if operation.Description ≠ "" then
      yamlLine "    " "description" (Quote lib operation.Description)
    else "")))

/-- Go's `strings.Split(s, sep)` for a separator of one character. -/
def splitOnChar (sep : Char) : List Char → List (List Char)
  | [] => [[]]
  | c :: cs =>
    if c = sep then [] :: splitOnChar sep cs
    else
      match splitOnChar sep cs with
      | [] => [[c]]
      | l :: ls => (c :: l) :: ls

/-- Go's `strings.SplitN(s, sep, 2)` for a separator of one character: the text
before the first separator and the text after it, or `none` when the separator
does not occur (the result then has one part). -/
def splitFirst (sep : Char) : List Char → Option (List Char × List Char)
  | [] => none
  | c :: cs =>
    if c = sep then some ([], cs)
    else (splitFirst sep cs).map (fun p => (c :: p.1, p.2))

/-- Go `splitKeyValue`. -/
def splitKeyValue (line : String) : String × String :=
  match splitFirst ':' line.data with
  | none => (TrimSpace line, "")
  | some (key, value) => (TrimSpace ⟨key⟩, TrimSpace ⟨value⟩)

/-- Go `unquote`: one pair of enclosing double or single quotes is taken off, and
nothing inside is unescaped. The source tests the first and the last byte and a
length of two bytes; on valid UTF-8 that is the first and the last character
and a length of two characters, the quotes being ASCII. -/
def unquote (value : String) : String :=
  let v := (TrimSpace value).data
  if 2 ≤ v.length ∧
      ((v.head? = some dquote ∧ v.getLast? = some dquote) ∨
       (v.head? = some squote ∧ v.getLast? = some squote)) then
    ⟨(v.drop 1).dropLast⟩
  else ⟨v⟩

/-- The variables of `YAMLImporter.Import` that its loop updates: `section`,
`current` (`none` is the nil map) and `data`. -/
structure ImportState where
  sectionName : String := ""
  current : Option (GoMap String) := none
  data : StorageData := {}

/-- The map read `current[key]`: the empty string when the key is absent. -/
def field (current : GoMap String) (key : String) : String :=
  (current.lookup key).getD ""

/-- The closure `flush` of `Import`. -/
def flush (lib : TextLib) (st : ImportState) : ImportState :=
  match st.current with
  | none => st
  | some current =>
    if st.sectionName = "" then st
    else if st.sectionName = "accounts" then
      { st with
        current := none
        data := { st.data with
          Accounts := st.data.Accounts ++
            [{ ID := field current "id"
               Name := unquote (field current "name")
               Balance := (lib.parseFloat (field current "balance")).1 }] } }
    else if st.sectionName = "categories" then
      { st with
        current := none
        data := { st.data with
          Categories := st.data.Categories ++
            [{ ID := field current "id"
               Name := unquote (field current "name")
               Typ := field current "type" }] } }
    else if st.sectionName = "operations" then
      { st with
        current := none
        data := { st.data with
          Operations := st.data.Operations ++
            [{ ID := field current "id"
               Typ := field current "type"
               BankAccountID := field current "bank_account_id"
               CategoryID := field current "category_id"
               Amount := (lib.parseFloat (field current "amount")).1
               Date := (lib.parseRFC3339 (field current "date")).1
               Description := unquote (field current "description") }] } }
    else { st with current := none }

/-- The body of the loop of `Import` over the lines. -/
def importLine (lib : TextLib) (st : ImportState) (line : List Char) : ImportState :=
  let trimmed := (TrimSpace ⟨line⟩).data
  if trimmed = [] then st
  else if trimmed.head? ≠ some '-' ∧ trimmed.getLast? = some ':' then
    { flush lib st with sectionName := ⟨trimmed.dropLast⟩ }
  else if trimmed.head? = some '-' then
    let remainder := TrimSpace ⟨trimmed.drop 1⟩
    if remainder ≠ "" then
      { flush lib st with
        current := some (GoMap.assign [] (splitKeyValue remainder).1
          (splitKeyValue remainder).2) }
    else { flush lib st with current := some [] }
  else
    match st.current with
    | none => st
    | some current =>
      { st with
        current := some (current.assign (splitKeyValue ⟨trimmed⟩).1
          (splitKeyValue ⟨trimmed⟩).2) }

/-- Method `YAMLImporter.Import`; `content` is what `os.ReadFile(path)`
returns. -/
def YAMLImport (lib : TextLib) (path : String) (content : Except Error String) :
    Except Error StorageData :=
  match content with
  | .error err => .error (.wrap ("read file " ++ path) err)
  | .ok raw =>
    .ok (flush lib ((splitOnChar newline raw.data).foldl (importLine lib) {})).data

/-- A category name with a double quote in it: `a"b`. -/
def quotedName : String := ⟨['a', dquote, 'b']⟩

/-- A source of random bytes that delivers sixteen zero bytes at every call. -/
def zeroSource : RandSource :=
  { reads := fun _ => .ok (List.replicate 16 0) }

/-- The sample file with its operation stored under the UUID that `newUUID` makes
from sixteen zero bytes. -/
def uuidDisk : Disk :=
  { file := some (.document
      { sampleData with
        Operations :=
          [{ sampleOperation with ID := "00000000-0000-4000-8000-000000000000" }] }) }

/-! ## The proxy in step with the file -/

/-- The cache of a proxy over the file store is loaded and in step with the
snapshot `d` that the file holds: no I/O fault is in force, `d` has unique IDs
and can be encoded, the lazy load has run without error, and the maps mirror
`d`. -/
def InStep (p : ProxyRepository Disk) (d : StorageData) : Prop :=
  p.base.openErr = none ∧ p.base.createErr = none ∧ p.base.writeErr = none ∧
    p.base.persisted = some d ∧ UniqueIDs d ∧ encodeError d = none ∧
    p.loadOnce = true ∧ p.loadErr = none ∧ p.Mirrors d

/-- Reference: the effects on the account `id`, in the order of the list: the
amount of each income operation on `id` and the negated amount of each expense
operation on `id`. -/
def effectsOn (id : String) (operations : List Operation) : List Float64 :=
  (operations.filter (fun op => decide (op.BankAccountID = id ∧
    (op.Typ = OperationTypeIncome ∨ op.Typ = OperationTypeExpense)))).map Operation.effect

/-- Reference: a finite amount as an exact number (zero for a non-finite one). -/
def Float64.toRat : Float64 → ℚ
  | .finite q => q
  | _ => 0

/-- Reference: the sum of the amounts in exact arithmetic. -/
def exactTotal (amounts : List Float64) : ℚ :=
  (amounts.map Float64.toRat).sum

/-- A file in which two accounts share the ID `a1`. -/
def twinAccountDisk : Disk :=
  { file := some (.document { sampleData with Accounts := [sampleAccount, sampleTwin] }) }

/-- A file in which two operations share the ID `o1`: the first is on the account
`a1`, the second on the account `a2`. -/
def twinOperationDisk : Disk :=
  { file := some (.document
      { Accounts := [sampleAccount, ⟨"a2", "Cash", .finite 3⟩]
        Categories := [sampleCategory]
        Operations := [sampleOperation, { sampleOperation with BankAccountID := "a2" }] }) }

/-- A file with one account and four operations on it: incomes of 1, of `2 ^ 53`
and of 1, and an expense of `2 ^ 53` before the last income. -/
def roundingDisk : Disk :=
  { file := some (.document
      { Accounts := [sampleAccount]
        Categories := [sampleCategory, ⟨"c2", "expense", "Rent"⟩]
        Operations :=
          [⟨"o1", "income", "a1", .finite 1, ⟨63900000000, 0, 0⟩, "", "c1"⟩,
           ⟨"o2", "income", "a1", .finite 9007199254740992, ⟨63900000000, 0, 0⟩, "", "c1"⟩,
           ⟨"o3", "expense", "a1", .finite 9007199254740992, ⟨63900000000, 0, 0⟩, "", "c2"⟩,
           ⟨"o4", "income", "a1", .finite 1, ⟨63900000000, 0, 0⟩, "", "c1"⟩] }) }

/-! ## Properties -/

section SliceLoops

variable {α : Type} [HasID α]

theorem indexOfID_eq_none (l : List α) (id : String) :
    indexOfID l id = none ↔ id ∉ ids l := by
  induction l with
  | nil => simp [indexOfID, ids]
  | cons x xs ih =>
    by_cases hx : HasID.ID x = id
    · simp [indexOfID, ids, hx]
    · have hx' : ¬ id = HasID.ID x := fun h => hx h.symm
      simpa [indexOfID, ids, hx, hx'] using ih

theorem firstByID_eq_none (l : List α) (id : String) :
    firstByID l id = none ↔ id ∉ ids l := by
  induction l with
  | nil => simp [firstByID, ids]
  | cons x xs ih =>
    by_cases hx : HasID.ID x = id
    · simp [firstByID, ids, hx]
    · have hx' : ¬ id = HasID.ID x := fun h => hx h.symm
      simpa [firstByID, ids, hx, hx'] using ih

/-- The loop of `Get*` returns `a` exactly when `a` is the first element of the
slice whose ID is `id`. -/
theorem firstByID_eq_some (l : List α) (id : String) (a : α) :
    firstByID l id = some a ↔
      ∃ pre post, l = pre ++ a :: post ∧ HasID.ID a = id ∧ id ∉ ids pre := by
  induction l with
  | nil => simp [firstByID]
  | cons x xs ih =>
    by_cases hx : HasID.ID x = id
    · simp only [firstByID, hx, if_true, Option.some.injEq]
      constructor
      · rintro rfl
        exact ⟨[], xs, rfl, hx, by simp [ids]⟩
      · rintro ⟨pre, post, hl, _, hpre⟩
        cases pre with
        | nil => simpa using (List.cons.inj hl).1
        | cons y ys =>
          have hy : x = y := (List.cons.inj hl).1
          subst hy
          exact absurd hx.symm (by simpa [ids] using fun h => hpre (by simp [ids, h]))
    · simp only [firstByID, hx, if_false, ih]
      constructor
      · rintro ⟨pre, post, hl, ha, hpre⟩
        refine ⟨x :: pre, post, by simp [hl], ha, ?_⟩
        have hx' : ¬ id = HasID.ID x := fun h => hx h.symm
        simpa [ids, hx'] using hpre
      · rintro ⟨pre, post, hl, ha, hpre⟩
        cases pre with
        | nil =>
          have hy : x = a := (List.cons.inj hl).1
          exact absurd (hy ▸ ha) hx
        | cons y ys =>
          refine ⟨ys, post, (List.cons.inj hl).2, ha, ?_⟩
          intro hmem
          exact hpre (by simp [ids] at hmem ⊢; exact Or.inr hmem)

/-- The two outcomes of a `Get*` loop over the slice `l`. -/
theorem firstByID_outcome (l : List α) (id kind : String) :
    ((match firstByID l id with
      | some a => Except.ok a
      | none => Except.error (notFound kind id)) = Except.error (notFound kind id) ↔
        id ∉ ids l) ∧
    ∀ a : α, (match firstByID l id with
      | some a => Except.ok a
      | none => Except.error (notFound kind id)) = Except.ok a ↔
        ∃ pre post, l = pre ++ a :: post ∧ HasID.ID a = id ∧ id ∉ ids pre := by
  constructor
  · rw [← firstByID_eq_none]
    cases firstByID l id <;> simp
  · intro a
    rw [← firstByID_eq_some]
    cases firstByID l id <;> simp

theorem indexOfID_lt (l : List α) (id : String) (i : Nat) (h : indexOfID l id = some i) :
    i < l.length := by
  induction l generalizing i with
  | nil => simp [indexOfID] at h
  | cons x xs ih =>
    by_cases hx : HasID.ID x = id
    · simp [indexOfID, hx] at h
      subst h
      simp
    · simp only [indexOfID, hx, if_false, Option.map_eq_some'] at h
      obtain ⟨j, hj, rfl⟩ := h
      simpa using ih j hj

theorem mem_ids_of_indexOfID (l : List α) (id : String) (i : Nat)
    (h : indexOfID l id = some i) : id ∈ ids l := by
  by_contra hc
  rw [(indexOfID_eq_none l id).2 hc] at h
  cases h

/-- Overwriting the element found under an ID by one with the same ID keeps the
list of IDs. -/
theorem ids_set (l : List α) (a : α) (i : Nat) (h : indexOfID l (HasID.ID a) = some i) :
    ids (l.set i a) = ids l := by
  induction l generalizing i with
  | nil => simp [indexOfID] at h
  | cons x xs ih =>
    by_cases hx : HasID.ID x = HasID.ID a
    · simp [indexOfID, hx] at h
      subst h
      simp [ids, hx]
    · simp only [indexOfID, hx, if_false, Option.map_eq_some'] at h
      obtain ⟨j, hj, rfl⟩ := h
      have := ih j hj
      simp only [ids] at this ⊢
      simp [this]

theorem removeAt_sublist {β : Type} (l : List β) (i : Nat) : (removeAt l i).Sublist l := by
  unfold removeAt
  rw [← List.eraseIdx_eq_take_drop_succ]
  exact List.eraseIdx_sublist l i

theorem ids_removeAt_nodup (l : List α) (i : Nat) (h : (ids l).Nodup) :
    (ids (removeAt l i)).Nodup :=
  List.Nodup.sublist ((removeAt_sublist l i).map _) h

theorem ids_append_nodup (l : List α) (a : α) (h : (ids l).Nodup) (ha : HasID.ID a ∉ ids l) :
    (ids (l ++ [a])).Nodup := by
  simp only [ids, List.map_append, List.map_cons, List.map_nil] at ha ⊢
  rw [List.nodup_append]
  refine ⟨h, List.nodup_singleton _, ?_⟩
  intro x hx hx'
  simp only [List.mem_singleton] at hx'
  subst hx'
  exact ha hx

end SliceLoops

section Codec

theorem bankAccount_roundtrip (a : BankAccount) : BankAccount.ofJson a.json = .ok a := by
  cases a
  simp +decide [BankAccount.ofJson, BankAccount.json, Json.get, Json.string, Json.float]

theorem category_roundtrip (c : Category) : Category.ofJson c.json = .ok c := by
  cases c
  simp +decide [Category.ofJson, Category.json, Json.get, Json.string]

theorem operation_roundtrip (o : Operation) : Operation.ofJson o.json = .ok o := by
  obtain ⟨id, typ, acc, amount, date, description, category⟩ := o
  by_cases h : description = ""
  · subst h
    simp +decide [Operation.ofJson, Operation.json, Json.get, Json.string, Json.float, Json.time]
  · simp +decide [Operation.ofJson, Operation.json, Json.get, Json.string, Json.float, Json.time, h]

theorem decodeAll_map {α : Type} (f : Json → Except Error α) (g : α → Json)
    (h : ∀ a, f (g a) = .ok a) (l : List α) : decodeAll f (l.map g) = .ok l := by
  induction l with
  | nil => rfl
  | cons a l ih => simp [decodeAll, h, ih]

/-- Decoding what `json.Marshal` writes for a snapshot gives the snapshot back. -/
theorem storageData_roundtrip (d : StorageData) : StorageData.ofJson d.json = .ok d := by
  cases d
  simp +decide [StorageData.ofJson, StorageData.json, Json.get, Json.slice, decodeAll_map,
    bankAccount_roundtrip, category_roundtrip, operation_roundtrip]

/-- The bytes of a snapshot that `json.Marshal` accepts decode to that
snapshot. -/
theorem jsonEncode_eq (d : StorageData) :
    jsonEncode d = match encodeError d with
      | some e => .error e
      | none => .ok (.document d) := by
  unfold jsonEncode
  rw [storageData_roundtrip]

end Codec

section StoreSteps

theorem withData_of_fn_error (r : Disk) (d : StorageData)
    (fn : StorageData → Except Error StorageData) (e : Error)
    (hl : FileRepository.loadUnsafe r = .ok d) (hf : fn d = .error e) :
    FileRepository.withData r fn = (some e, r) := by
  simp [FileRepository.withData, hl, hf]

theorem withData_of_fn_ok (r : Disk) (d d' : StorageData)
    (fn : StorageData → Except Error StorageData)
    (hl : FileRepository.loadUnsafe r = .ok d) (hf : fn d = .ok d') :
    FileRepository.withData r fn = FileRepository.saveUnsafe r d' := by
  simp [FileRepository.withData, hl, hf]

theorem withData_of_load_error (r : Disk) (e : Error)
    (fn : StorageData → Except Error StorageData)
    (hl : FileRepository.loadUnsafe r = .error e) :
    FileRepository.withData r fn = (some e, r) := by
  simp [FileRepository.withData, hl]

theorem store_getAccount (r : Disk) (d : StorageData) (id : String)
    (hl : FileRepository.loadUnsafe r = .ok d) :
    (FileRepository.GetAccount r id).1 =
      match firstByID d.Accounts id with
      | some a => .ok a
      | none => .error (notFound "account" id) := by
  simp only [FileRepository.GetAccount, FileRepository.load, hl]
  cases firstByID d.Accounts id <;> rfl

theorem store_getCategory (r : Disk) (d : StorageData) (id : String)
    (hl : FileRepository.loadUnsafe r = .ok d) :
    (FileRepository.GetCategory r id).1 =
      match firstByID d.Categories id with
      | some a => .ok a
      | none => .error (notFound "category" id) := by
  simp only [FileRepository.GetCategory, FileRepository.load, hl]
  cases firstByID d.Categories id <;> rfl

theorem store_getOperation (r : Disk) (d : StorageData) (id : String)
    (hl : FileRepository.loadUnsafe r = .ok d) :
    (FileRepository.GetOperation r id).1 =
      match firstByID d.Operations id with
      | some a => .ok a
      | none => .error (notFound "operation" id) := by
  simp only [FileRepository.GetOperation, FileRepository.load, hl]
  cases firstByID d.Operations id <;> rfl

/-- Each `Create*`, `Update*` and `Delete*` of the file store is `withData` run
on its `mutation`. -/
theorem store_call_cud (r : Disk) (c : Call) (h : c.isCUD = true) :
    FileRepository.repo.call r c =
      (.done (FileRepository.withData r (FileRepository.mutation c)).1,
        (FileRepository.withData r (FileRepository.mutation c)).2) := by
  cases c <;> first | rfl | simp [Call.isCUD, Call.isWrite] at h

theorem persisted_of_loadUnsafe (r : Disk) (d : StorageData)
    (h : FileRepository.loadUnsafe r = .ok d) : r.persisted = some d := by
  unfold FileRepository.loadUnsafe at h
  unfold Disk.persisted
  cases ho : r.openErr <;> rw [ho] at h <;> simp only at h
  · cases hf : r.file with
    | none => rw [hf] at h; simpa using h
    | some bytes =>
      rw [hf] at h
      cases bytes <;> simp_all
  · cases h

theorem uniqueIDs_empty : UniqueIDs {} := by
  simp [UniqueIDs, ids]

/-- What the file can hold after `saveUnsafe`: the new snapshot, nothing, or
what it held before. -/
theorem saveUnsafe_persisted (r : Disk) (d₁ x : StorageData)
    (h : (FileRepository.saveUnsafe r d₁).2.persisted = some x) :
    x = d₁ ∨ x = {} ∨ r.persisted = some x := by
  unfold FileRepository.saveUnsafe at h
  cases hc : r.createErr with
  | some e => rw [hc] at h; exact Or.inr (Or.inr h)
  | none =>
    rw [hc] at h
    simp only at h
    cases he : jsonEncode d₁ with
    | error e =>
      rw [he] at h
      simp [Disk.persisted] at h
      exact Or.inr (Or.inl h.symm)
    | ok bytes =>
      rw [he] at h
      have hb : bytes = .document d₁ := by
        rw [jsonEncode_eq] at he
        cases hx : encodeError d₁ <;> rw [hx] at he <;> simp at he
        exact he.symm
      cases hw : r.writeErr with
      | none =>
        rw [hw] at h
        simp [Disk.persisted, hb] at h
        exact Or.inl h.symm
      | some ew =>
        obtain ⟨e, w⟩ := ew
        rw [hw] at h
        cases w <;> simp [Disk.persisted, ShortWrite.leaves] at h
        · exact Or.inr (Or.inl h.symm)
        · exact Or.inl h.symm

theorem saveUnsafe_ok (r : Disk) (d₁ : StorageData)
    (h : (FileRepository.saveUnsafe r d₁).1 = none) :
    (FileRepository.saveUnsafe r d₁).2.persisted = some d₁ := by
  unfold FileRepository.saveUnsafe at h ⊢
  cases hc : r.createErr with
  | some e => rw [hc] at h; simp at h
  | none =>
    rw [hc] at h
    simp only at h ⊢
    cases he : jsonEncode d₁ with
    | error e => rw [he] at h; simp at h
    | ok bytes =>
      rw [he] at h
      have hb : bytes = .document d₁ := by
        rw [jsonEncode_eq] at he
        cases hx : encodeError d₁ <;> rw [hx] at he <;> simp at he
        exact he.symm
      cases hw : r.writeErr with
      | none => simp [Disk.persisted, hb]
      | some ew =>
        obtain ⟨e, w⟩ := ew
        rw [hw] at h
        simp at h

/-- A mutation that keeps IDs fresh turns a snapshot with unique IDs into one
with unique IDs. -/
theorem mutation_uniqueIDs (c : Call) (d d₁ : StorageData) (hu : UniqueIDs d)
    (hf : c.freshAt d = true) (hm : FileRepository.mutation c d = .ok d₁) :
    UniqueIDs d₁ := by
  obtain ⟨ha, hc, ho⟩ := hu
  cases c <;> simp only [FileRepository.mutation, Call.freshAt, decide_eq_true_eq] at hm hf
  case createAccount a =>
    cases hm
    exact ⟨ids_append_nodup _ a ha hf, hc, ho⟩
  case createCategory a =>
    cases hm
    exact ⟨ha, ids_append_nodup _ a hc hf, ho⟩
  case createOperation a =>
    cases hm
    exact ⟨ha, hc, ids_append_nodup _ a ho hf⟩
  case updateAccount a =>
    cases hi : indexOfID d.Accounts a.ID <;> rw [hi] at hm <;> cases hm
    exact ⟨(ids_set (α := BankAccount) _ a _ hi).symm ▸ ha, hc, ho⟩
  case updateCategory a =>
    cases hi : indexOfID d.Categories a.ID <;> rw [hi] at hm <;> cases hm
    exact ⟨ha, (ids_set (α := Category) _ a _ hi).symm ▸ hc, ho⟩
  case updateOperation a =>
    cases hi : indexOfID d.Operations a.ID <;> rw [hi] at hm <;> cases hm
    exact ⟨ha, hc, (ids_set (α := Operation) _ a _ hi).symm ▸ ho⟩
  case deleteAccount id =>
    cases hi : indexOfID d.Accounts id <;> rw [hi] at hm <;> cases hm
    exact ⟨ids_removeAt_nodup _ _ ha, hc, ho⟩
  case deleteCategory id =>
    cases hi : indexOfID d.Categories id <;> rw [hi] at hm <;> cases hm
    exact ⟨ha, ids_removeAt_nodup _ _ hc, ho⟩
  case deleteOperation id =>
    cases hi : indexOfID d.Operations id <;> rw [hi] at hm <;> cases hm
    exact ⟨ha, hc, ids_removeAt_nodup _ _ ho⟩
  case replaceAll x =>
    cases hm
    exact hf
  all_goals
    cases hm
    exact ⟨ha, hc, ho⟩

theorem encodeError_eq_none (d : StorageData) :
    encodeError d = none ↔
      (∀ a ∈ d.Accounts, a.encodeError = none) ∧ (∀ o ∈ d.Operations, o.encodeError = none) := by
  unfold encodeError
  cases h : d.Accounts.findSome? BankAccount.encodeError with
  | none =>
    simp only [List.findSome?_eq_none_iff] at h ⊢
    exact ⟨fun h' => ⟨h, h'⟩, fun h' => h'.2⟩
  | some e =>
    simp only [false_iff, not_and, reduceCtorEq]
    intro h'
    rw [List.findSome?_eq_none_iff.2 h'] at h
    cases h

/-- A mutation that brings encodable values turns an encodable snapshot into an
encodable one. -/
theorem mutation_encodes (c : Call) (d d₁ : StorageData) (he : encodeError d = none)
    (hc : c.encodes = true) (hm : FileRepository.mutation c d = .ok d₁) :
    encodeError d₁ = none := by
  rw [encodeError_eq_none] at he ⊢
  obtain ⟨ha, ho⟩ := he
  cases c <;> simp only [FileRepository.mutation, Call.encodes, Option.isNone_iff_eq_none] at hm hc
  case createAccount a =>
    cases hm
    refine ⟨fun x hx => ?_, ho⟩
    rcases List.mem_append.1 hx with h | h
    · exact ha x h
    · simp at h; exact h ▸ hc
  case createCategory a =>
    cases hm
    exact ⟨ha, ho⟩
  case createOperation a =>
    cases hm
    refine ⟨ha, fun x hx => ?_⟩
    rcases List.mem_append.1 hx with h | h
    · exact ho x h
    · simp at h; exact h ▸ hc
  case updateAccount a =>
    cases hi : indexOfID d.Accounts a.ID <;> rw [hi] at hm <;> cases hm
    refine ⟨fun x hx => ?_, ho⟩
    rcases List.mem_or_eq_of_mem_set hx with h | h
    · exact ha x h
    · exact h ▸ hc
  case updateCategory a =>
    cases hi : indexOfID d.Categories a.ID <;> rw [hi] at hm <;> cases hm
    exact ⟨ha, ho⟩
  case updateOperation a =>
    cases hi : indexOfID d.Operations a.ID <;> rw [hi] at hm <;> cases hm
    refine ⟨ha, fun x hx => ?_⟩
    rcases List.mem_or_eq_of_mem_set hx with h | h
    · exact ho x h
    · exact h ▸ hc
  case deleteAccount id =>
    cases hi : indexOfID d.Accounts id <;> rw [hi] at hm <;> cases hm
    exact ⟨fun x hx => ha x ((removeAt_sublist _ _).subset hx), ho⟩
  case deleteCategory id =>
    cases hi : indexOfID d.Categories id <;> rw [hi] at hm <;> cases hm
    exact ⟨ha, ho⟩
  case deleteOperation id =>
    cases hi : indexOfID d.Operations id <;> rw [hi] at hm <;> cases hm
    exact ⟨ha, fun x hx => ho x ((removeAt_sublist _ _).subset hx)⟩
  case replaceAll x =>
    cases hm
    exact (encodeError_eq_none _).1 hc
  all_goals
    cases hm
    exact ⟨ha, ho⟩

theorem loadUnsafe_of_persisted (r : Disk) (d : StorageData) (ho : r.openErr = none)
    (h : r.persisted = some d) : FileRepository.loadUnsafe r = .ok d := by
  unfold Disk.persisted at h
  unfold FileRepository.loadUnsafe
  rw [ho]
  cases hf : r.file with
  | none => rw [hf] at h; simpa using h
  | some bytes =>
    rw [hf] at h
    cases bytes <;> simp_all

theorem saveUnsafe_of_sound (r : Disk) (d₁ : StorageData) (hc : r.createErr = none)
    (hw : r.writeErr = none) (he : encodeError d₁ = none) :
    FileRepository.saveUnsafe r d₁ = (none, { r with file := some (.document d₁) }) := by
  simp [FileRepository.saveUnsafe, hc, hw, jsonEncode_eq, he]

/-- On a sound disk a write of the file store either fails in its mutation and
leaves the disk as it is, or stores the mutated snapshot. -/
theorem store_write_of_sound (r : Disk) (d : StorageData) (c : Call)
    (ho : r.openErr = none) (hc : r.createErr = none) (hw : r.writeErr = none)
    (hp : r.persisted = some d) (he : encodeError d = none)
    (hwr : c.isWrite = true) (hen : c.encodes = true) :
    FileRepository.repo.call r c =
      match FileRepository.mutation c d with
      | .error e => (.done (some e), r)
      | .ok d₁ => (.done none, { r with file := some (.document d₁) }) := by
  have hl := loadUnsafe_of_persisted r d ho hp
  by_cases hcud : c.isCUD = true
  · rw [store_call_cud r c hcud]
    cases hm : FileRepository.mutation c d with
    | error e => rw [withData_of_fn_error r d _ e hl hm]
    | ok d₁ =>
      rw [withData_of_fn_ok r d d₁ _ hl hm,
        saveUnsafe_of_sound r d₁ hc hw (mutation_encodes c d d₁ he hen hm)]
  · cases c <;> simp [Call.isCUD, Call.isWrite] at hcud hwr
    rename_i x
    simp only [Call.encodes, Option.isNone_iff_eq_none] at hen
    simp only [Repository.call, FileRepository.repo, FileRepository.ReplaceAll,
      FileRepository.mutation]
    rw [saveUnsafe_of_sound r x hc hw hen]

end StoreSteps

section Maps

variable {V : Type} [HasID V]

theorem GoMap.keysAreIDs_nil : GoMap.KeysAreIDs ([] : GoMap V) := by
  intro e he
  cases he

theorem GoMap.assign_keysAreIDs (m : GoMap V) (v : V) (h : m.KeysAreIDs) :
    (m.assign (HasID.ID v) v).KeysAreIDs := by
  unfold GoMap.assign
  split
  · intro e he
    obtain ⟨e', he', rfl⟩ := List.mem_map.1 he
    split
    · rfl
    · exact h e' he'
  · intro e he
    rcases List.mem_append.1 he with he | he
    · exact h e he
    · simp at he
      subst he
      rfl

theorem GoMap.delete_keysAreIDs (m : GoMap V) (k : String) (h : m.KeysAreIDs) :
    (m.delete k).KeysAreIDs := by
  intro e he
  exact h e (List.mem_of_mem_filter he)

theorem GoMap.assignAll_keysAreIDs (l : List V) (m : GoMap V) (h : m.KeysAreIDs) :
    (m.assignAll l).KeysAreIDs := by
  induction l generalizing m with
  | nil => exact h
  | cons x xs ih => exact ih _ (GoMap.assign_keysAreIDs m x h)

theorem GoMap.lookup_eq_none (m : GoMap V) (id : String) (h : m.KeysAreIDs) :
    m.lookup id = none ↔ id ∉ ids m.values := by
  induction m with
  | nil => simp [GoMap.lookup, GoMap.values, ids]
  | cons e m ih =>
    have he : e.1 = HasID.ID e.2 := h e (List.mem_cons_self _ _)
    have hm : GoMap.KeysAreIDs m := fun x hx => h x (List.mem_cons_of_mem _ hx)
    have ih' := ih hm
    by_cases hk : e.1 = id
    · have : HasID.ID e.2 = id := he ▸ hk
      simp [GoMap.lookup, GoMap.values, ids, List.find?, hk, this]
    · have hk' : ¬ id = HasID.ID e.2 := fun h' => hk (he.trans h'.symm)
      have hb : (e.1 == id) = false := by simpa using hk
      simp only [GoMap.lookup, GoMap.values, ids] at ih' ⊢
      rw [List.find?_cons, hb]
      simp only [List.map_cons, List.mem_cons, not_or]
      rw [ih']
      exact ⟨fun h' => ⟨hk', h'⟩, fun h' => h'.2⟩

theorem GoMap.lookup_eq_some (m : GoMap V) (id : String) (a : V) (h : m.KeysAreIDs)
    (hl : m.lookup id = some a) : HasID.ID a = id ∧ a ∈ m.values := by
  induction m with
  | nil => simp [GoMap.lookup] at hl
  | cons e m ih =>
    have he : e.1 = HasID.ID e.2 := h e (List.mem_cons_self _ _)
    have hm : GoMap.KeysAreIDs m := fun x hx => h x (List.mem_cons_of_mem _ hx)
    by_cases hk : e.1 = id
    · simp [GoMap.lookup, List.find?, hk] at hl
      subst hl
      exact ⟨he ▸ hk, by simp [GoMap.values]⟩
    · have hb : (e.1 == id) = false := by simpa using hk
      simp only [GoMap.lookup] at hl
      rw [List.find?_cons, hb] at hl
      have := ih hm hl
      exact ⟨this.1, by simp only [GoMap.values, List.map_cons] at this ⊢; exact List.mem_cons_of_mem _ this.2⟩

/-- The two outcomes of a `Get*` on a map whose entries sit under their IDs. -/
theorem GoMap.get_outcome (m : GoMap V) (id kind : String) (h : m.KeysAreIDs) :
    ((match m.lookup id with
      | none => Except.error (notFound kind id)
      | some a => Except.ok a) = Except.error (notFound kind id) ↔ id ∉ ids m.values) ∧
    (∀ a : V, (match m.lookup id with
      | none => Except.error (notFound kind id)
      | some a => Except.ok a) = Except.ok a → HasID.ID a = id ∧ a ∈ m.values) ∧
    (id ∈ ids m.values → ∃ a : V, (match m.lookup id with
      | none => Except.error (notFound kind id)
      | some a => Except.ok a) = Except.ok a) := by
  have hn := GoMap.lookup_eq_none m id h
  cases hl : m.lookup id with
  | none =>
    rw [hl] at hn
    simp only [true_iff] at hn
    exact ⟨by simp [hn], by simp, fun hmem => absurd hmem hn⟩
  | some a =>
    rw [hl] at hn
    have hn' : id ∈ ids m.values := by
      by_contra hc
      have := hn.2 hc
      cases this
    refine ⟨by simp [hn'], ?_, fun _ => ⟨a, rfl⟩⟩
    intro a' ha'
    have : a = a' := by simpa using ha'
    subst this
    exact GoMap.lookup_eq_some m id a h hl

end Maps

section Mirror

variable {α : Type} [HasID α]

theorem any_entries (l : List α) (k : String) :
    (entries l).any (fun e => e.1 == k) = true ↔ k ∈ ids l := by
  simp only [entries, ids, List.any_eq_true, List.mem_map, beq_iff_eq]
  constructor
  · rintro ⟨e, ⟨x, hx, rfl⟩, he⟩
    exact ⟨x, hx, he⟩
  · rintro ⟨x, hx, he⟩
    exact ⟨_, ⟨x, hx, rfl⟩, he⟩

theorem values_entries (l : List α) : GoMap.values (entries l) = l := by
  induction l with
  | nil => rfl
  | cons x xs ih =>
    simp only [GoMap.values, entries, List.map_cons] at ih ⊢
    rw [ih]

/-- Assigning under an ID the list does not hold appends. -/
theorem assign_fresh (l : List α) (a : α) (h : HasID.ID a ∉ ids l) :
    GoMap.assign (entries l) (HasID.ID a) a = entries (l ++ [a]) := by
  have : ¬ ((entries l).any (fun e => e.1 == HasID.ID a) = true) := by
    rw [any_entries]
    exact h
  unfold GoMap.assign
  rw [if_neg this]
  simp [entries]

theorem map_entries_absent (l : List α) (k : String) (v : String × α) (h : k ∉ ids l) :
    (entries l).map (fun e => if e.1 = k then v else e) = entries l := by
  induction l with
  | nil => rfl
  | cons x xs ih =>
    have hx : ¬ HasID.ID x = k := fun h' => h (by simp [ids, h'.symm])
    have hxs : k ∉ ids xs := fun h' => h (by simp only [ids] at h' ⊢; simp [h'])
    have := ih hxs
    simp only [entries] at this ⊢
    simp [hx, this]

theorem map_entries_found (l : List α) (a : α) (i : Nat) (hn : (ids l).Nodup)
    (hi : indexOfID l (HasID.ID a) = some i) :
    (entries l).map (fun e => if e.1 = HasID.ID a then (HasID.ID a, a) else e) =
      entries (l.set i a) := by
  induction l generalizing i with
  | nil => simp [indexOfID] at hi
  | cons x xs ih =>
    have hn' : HasID.ID x ∉ ids xs ∧ (ids xs).Nodup := by
      simpa [ids] using hn
    by_cases hx : HasID.ID x = HasID.ID a
    · simp [indexOfID, hx] at hi
      subst hi
      have habs : HasID.ID a ∉ ids xs := hx ▸ hn'.1
      have := map_entries_absent xs (HasID.ID a) (HasID.ID a, a) habs
      simp only [entries] at this ⊢
      simp [hx, this]
    · simp only [indexOfID, hx, if_false, Option.map_eq_some'] at hi
      obtain ⟨j, hj, rfl⟩ := hi
      have := ih j hn'.2 hj
      simp only [entries] at this ⊢
      simp [hx, this]

/-- Assigning under an ID the list holds overwrites the element found there. -/
theorem assign_found (l : List α) (a : α) (i : Nat) (hn : (ids l).Nodup)
    (hi : indexOfID l (HasID.ID a) = some i) :
    GoMap.assign (entries l) (HasID.ID a) a = entries (l.set i a) := by
  have : (entries l).any (fun e => e.1 == HasID.ID a) = true :=
    (any_entries l _).2 (mem_ids_of_indexOfID l _ i hi)
  simp only [GoMap.assign, this, if_true]
  exact map_entries_found l a i hn hi

theorem delete_absent (l : List α) (k : String) (h : k ∉ ids l) :
    GoMap.delete (entries l) k = entries l := by
  simp only [GoMap.delete, entries, ids, List.mem_map, not_exists, not_and] at h ⊢
  rw [List.filter_eq_self]
  intro e he
  obtain ⟨x, hx, rfl⟩ := List.mem_map.1 he
  simpa using h x hx

/-- Deleting an ID the list holds removes the element found there. -/
theorem delete_found (l : List α) (k : String) (i : Nat) (hn : (ids l).Nodup)
    (hi : indexOfID l k = some i) :
    GoMap.delete (entries l) k = entries (removeAt l i) := by
  induction l generalizing i with
  | nil => simp [indexOfID] at hi
  | cons x xs ih =>
    have hn' : HasID.ID x ∉ ids xs ∧ (ids xs).Nodup := by
      simpa [ids] using hn
    by_cases hx : HasID.ID x = k
    · simp [indexOfID, hx] at hi
      subst hi
      have habs : k ∉ ids xs := hx ▸ hn'.1
      have := delete_absent xs k habs
      simp only [GoMap.delete, entries] at this ⊢
      simp [removeAt, hx, this]
    · simp only [indexOfID, hx, if_false, Option.map_eq_some'] at hi
      obtain ⟨j, hj, rfl⟩ := hi
      have := ih j hn'.2 hj
      simp only [GoMap.delete, entries, removeAt] at this ⊢
      simp [hx, this]

theorem not_mem_ids_removeAt (l : List α) (k : String) (i : Nat) (hn : (ids l).Nodup)
    (hi : indexOfID l k = some i) : k ∉ ids (removeAt l i) := by
  induction l generalizing i with
  | nil => simp [indexOfID] at hi
  | cons x xs ih =>
    have hn' : HasID.ID x ∉ ids xs ∧ (ids xs).Nodup := by
      simpa [ids] using hn
    by_cases hx : HasID.ID x = k
    · simp [indexOfID, hx] at hi
      subst hi
      simpa [removeAt] using hx ▸ hn'.1
    · simp only [indexOfID, hx, if_false, Option.map_eq_some'] at hi
      obtain ⟨j, hj, rfl⟩ := hi
      have := ih j hn'.2 hj
      have hx' : ¬ k = HasID.ID x := fun h => hx h.symm
      simp only [removeAt, ids, List.take_succ_cons, List.drop_succ_cons, List.cons_append,
        List.map_cons, List.mem_cons, not_or] at this ⊢
      exact ⟨hx', this⟩

/-- Assigning an element the list already holds changes nothing. -/
theorem assign_present (l : List α) (a : α) (hn : (ids l).Nodup) (ha : a ∈ l) :
    GoMap.assign (entries l) (HasID.ID a) a = entries l := by
  have hany : (entries l).any (fun e => e.1 == HasID.ID a) = true :=
    (any_entries l _).2 (List.mem_map.2 ⟨a, ha, rfl⟩)
  simp only [GoMap.assign, hany, if_true]
  conv_rhs => rw [← List.map_id (entries l)]
  apply List.map_congr_left
  intro e he
  obtain ⟨x, hx, rfl⟩ := List.mem_map.1 he
  by_cases hxa : HasID.ID x = HasID.ID a
  · have : x = a := List.inj_on_of_nodup_map hn hx ha hxa
    subst this
    simp
  · simp [hxa]

/-- The loop that fills a map from a slice with unique IDs yields the slice's
entries in order. -/
theorem assignAll_entries (l₀ l : List α) (hn : (ids (l₀ ++ l)).Nodup) :
    GoMap.assignAll (entries l₀) l = entries (l₀ ++ l) := by
  induction l generalizing l₀ with
  | nil => simp [GoMap.assignAll]
  | cons x xs ih =>
    have hx : HasID.ID x ∉ ids l₀ := by
      simp only [ids, List.map_append, List.map_cons] at hn ⊢
      rw [List.nodup_append] at hn
      intro hmem
      exact hn.2.2 hmem (List.mem_cons_self _ _)
    have hn' : (ids ((l₀ ++ [x]) ++ xs)).Nodup := by
      simpa using hn
    have := ih (l₀ ++ [x]) hn'
    simp only [GoMap.assignAll, List.foldl_cons] at this ⊢
    rw [assign_fresh l₀ x hx, this]
    simp

theorem assignAll_nil_entries (l : List α) (hn : (ids l).Nodup) :
    GoMap.assignAll [] l = entries l := by
  have := assignAll_entries [] l (by simpa using hn)
  simpa [entries] using this

end Mirror

section ProxyFrame

variable {σ : Type}

/-- Every proxy method in one formula: a write delegates to the store, then
passes the load guard, then updates the maps; a read passes the load guard and
answers from the maps. -/
theorem proxy_call_shape (b : Repository σ) (p : ProxyRepository σ) (c : Call) :
    (ProxyRepository.repo b).call p c =
      if c.isWrite then
        match (b.call p.base c).1.err with
        | some e => (.done (some e), { p with base := (b.call p.base c).2 })
        | none =>
          match ProxyRepository.ensureLoaded b { p with base := (b.call p.base c).2 } with
          | (some e, p') => (.done (some e), p')
          | (none, p') => (.done none, p'.cacheWrite c)
      else
        match ProxyRepository.ensureLoaded b p with
        | (some e, p') => (c.fail e, p')
        | (none, p') => (p'.answer c, p') := by
  cases c <;>
    simp only [Repository.call, ProxyRepository.repo, ProxyRepository.CreateAccount,
      ProxyRepository.UpdateAccount, ProxyRepository.DeleteAccount,
      ProxyRepository.CreateCategory, ProxyRepository.UpdateCategory,
      ProxyRepository.DeleteCategory, ProxyRepository.CreateOperation,
      ProxyRepository.UpdateOperation, ProxyRepository.DeleteOperation,
      ProxyRepository.ReplaceAll, ProxyRepository.ListAccounts, ProxyRepository.GetAccount,
      ProxyRepository.ListCategories, ProxyRepository.GetCategory,
      ProxyRepository.ListOperations, ProxyRepository.GetOperation,
      Call.isWrite, Reply.err, Call.fail, ProxyRepository.answer,
      ProxyRepository.cacheWrite, if_true, if_false] <;>
    (repeat' split) <;> simp_all

theorem ensureLoaded_of_loadOnce (b : Repository σ) (p : ProxyRepository σ)
    (h : p.loadOnce = true) : ProxyRepository.ensureLoaded b p = (p.loadErr, p) := by
  simp [ProxyRepository.ensureLoaded, h]

theorem loadBody_loadOnce (b : Repository σ) (p : ProxyRepository σ) :
    (ProxyRepository.loadBody b p).loadOnce = p.loadOnce := by
  unfold ProxyRepository.loadBody
  split
  · rfl
  · split
    · rfl
    · split <;> rfl

theorem ensureLoaded_loadOnce (b : Repository σ) (p : ProxyRepository σ) :
    (ProxyRepository.ensureLoaded b p).2.loadOnce = true := by
  unfold ProxyRepository.ensureLoaded
  split
  · assumption
  · simp [loadBody_loadOnce]

/-- On a proxy whose load guard has run, a list call answers from
`loadErr` and the maps alone. -/
theorem list_reply_of_loadOnce (b : Repository σ) (p : ProxyRepository σ) (q : Call)
    (hq : q.isList = true) (h : p.loadOnce = true) :
    ((ProxyRepository.repo b).call p q).1 =
      match q, p.loadErr with
      | .listAccounts, none => .accounts (.ok p.accounts.values)
      | .listCategories, none => .categories (.ok p.categories.values)
      | .listOperations, none => .operations (.ok p.operations.values)
      | .listAccounts, some e => .accounts (.error e)
      | .listCategories, some e => .categories (.error e)
      | .listOperations, some e => .operations (.error e)
      | _, _ => .done none := by
  cases q <;> simp [Call.isList] at hq <;>
    cases hl : p.loadErr <;>
    simp [Repository.call, ProxyRepository.repo, ProxyRepository.ListAccounts,
      ProxyRepository.ListCategories, ProxyRepository.ListOperations,
      ensureLoaded_of_loadOnce b p h, hl]

/-- A proxy write whose delegation to the wrapped store fails returns the
store's error and touches nothing but the store's own state. -/
theorem proxy_write_of_base_error (b : Repository σ) (p : ProxyRepository σ) (c : Call)
    (e : Error) (hw : c.isWrite = true) (hfail : (b.call p.base c).1.err = some e) :
    (ProxyRepository.repo b).call p c =
      (.done (some e), { p with base := (b.call p.base c).2 }) := by
  cases c <;> simp [Call.isWrite] at hw <;>
    simp only [Repository.call, Reply.err] at hfail <;>
    simp only [Repository.call, ProxyRepository.repo, ProxyRepository.CreateAccount,
      ProxyRepository.UpdateAccount, ProxyRepository.DeleteAccount,
      ProxyRepository.CreateCategory, ProxyRepository.UpdateCategory,
      ProxyRepository.DeleteCategory, ProxyRepository.CreateOperation,
      ProxyRepository.UpdateOperation, ProxyRepository.DeleteOperation,
      ProxyRepository.ReplaceAll] <;>
    split <;> simp_all

theorem cacheWrite_base (p : ProxyRepository σ) (c : Call) :
    (p.cacheWrite c).base = p.base ∧ (p.cacheWrite c).loadOnce = p.loadOnce ∧
      (p.cacheWrite c).loadErr = p.loadErr := by
  cases c <;> exact ⟨rfl, rfl, rfl⟩

theorem loadBody_cacheInv (b : Repository σ) (p : ProxyRepository σ) (h : p.CacheInv) :
    (ProxyRepository.loadBody b p).CacheInv := by
  unfold ProxyRepository.loadBody
  split
  · exact h
  · split
    · exact h
    · split
      · exact h
      · exact ⟨GoMap.assignAll_keysAreIDs _ _ GoMap.keysAreIDs_nil,
          GoMap.assignAll_keysAreIDs _ _ GoMap.keysAreIDs_nil,
          GoMap.assignAll_keysAreIDs _ _ GoMap.keysAreIDs_nil⟩

theorem ensureLoaded_cacheInv (b : Repository σ) (p : ProxyRepository σ) (h : p.CacheInv) :
    (ProxyRepository.ensureLoaded b p).2.CacheInv := by
  unfold ProxyRepository.ensureLoaded
  split
  · exact h
  · exact loadBody_cacheInv b _ h

theorem cacheWrite_cacheInv (p : ProxyRepository σ) (c : Call) (h : p.CacheInv) :
    (p.cacheWrite c).CacheInv := by
  obtain ⟨ha, hc, ho⟩ := h
  cases c <;> simp only [ProxyRepository.cacheWrite] <;>
    first
    | exact ⟨ha, hc, ho⟩
    | exact ⟨GoMap.assign_keysAreIDs (V := BankAccount) _ _ ha, hc, ho⟩
    | exact ⟨GoMap.delete_keysAreIDs _ _ ha, hc, ho⟩
    | exact ⟨ha, GoMap.assign_keysAreIDs (V := Category) _ _ hc, ho⟩
    | exact ⟨ha, GoMap.delete_keysAreIDs _ _ hc, ho⟩
    | exact ⟨ha, hc, GoMap.assign_keysAreIDs (V := Operation) _ _ ho⟩
    | exact ⟨ha, hc, GoMap.delete_keysAreIDs _ _ ho⟩
    | exact ⟨GoMap.assignAll_keysAreIDs _ _ GoMap.keysAreIDs_nil,
        GoMap.assignAll_keysAreIDs _ _ GoMap.keysAreIDs_nil,
        GoMap.assignAll_keysAreIDs _ _ GoMap.keysAreIDs_nil⟩

/-- Every proxy call keeps each cached entity under its own ID. -/
theorem call_cacheInv (b : Repository σ) (p : ProxyRepository σ) (c : Call)
    (h : p.CacheInv) : ((ProxyRepository.repo b).call p c).2.CacheInv := by
  rw [proxy_call_shape]
  split
  · split
    · exact h
    · have h' := ensureLoaded_cacheInv b { p with base := (b.call p.base c).2 } h
      split <;> rename_i heq <;> rw [heq] at h'
      · exact h'
      · exact cacheWrite_cacheInv _ c h'
  · have h' := ensureLoaded_cacheInv b p h
    split <;> rename_i heq <;> rw [heq] at h' <;> exact h'

theorem run_cacheInv (b : Repository σ) (calls : List Call) (p : ProxyRepository σ)
    (h : p.CacheInv) : ((ProxyRepository.repo b).run p calls).CacheInv := by
  induction calls generalizing p with
  | nil => exact h
  | cons c cs ih => exact ih _ (call_cacheInv b p c h)

theorem new_cacheInv (s : σ) : (NewProxyRepository s).CacheInv :=
  ⟨GoMap.keysAreIDs_nil, GoMap.keysAreIDs_nil, GoMap.keysAreIDs_nil⟩

theorem proxy_getAccount_outcome (b : Repository σ) (p : ProxyRepository σ) (id : String)
    (l : List BankAccount) (h : p.CacheInv)
    (hl : (ProxyRepository.ListAccounts b p).1 = .ok l) :
    ((ProxyRepository.GetAccount b p id).1 = .error (notFound "account" id) ↔ id ∉ ids l) ∧
    (∀ a, (ProxyRepository.GetAccount b p id).1 = .ok a → a.ID = id ∧ a ∈ l) ∧
    (id ∈ ids l → ∃ a, (ProxyRepository.GetAccount b p id).1 = .ok a) := by
  have hinv := ensureLoaded_cacheInv b p h
  unfold ProxyRepository.ListAccounts at hl
  unfold ProxyRepository.GetAccount
  rcases he : ProxyRepository.ensureLoaded b p with ⟨_ | e, p'⟩
  · rw [he] at hl hinv
    simp only [Except.ok.injEq] at hl
    subst hl
    have := GoMap.get_outcome p'.accounts id "account" hinv.1
    cases hk : p'.accounts.lookup id <;> simp only [hk] at this ⊢ <;> exact this
  · rw [he] at hl
    cases hl

theorem proxy_getCategory_outcome (b : Repository σ) (p : ProxyRepository σ) (id : String)
    (l : List Category) (h : p.CacheInv)
    (hl : (ProxyRepository.ListCategories b p).1 = .ok l) :
    ((ProxyRepository.GetCategory b p id).1 = .error (notFound "category" id) ↔ id ∉ ids l) ∧
    (∀ a, (ProxyRepository.GetCategory b p id).1 = .ok a → a.ID = id ∧ a ∈ l) ∧
    (id ∈ ids l → ∃ a, (ProxyRepository.GetCategory b p id).1 = .ok a) := by
  have hinv := ensureLoaded_cacheInv b p h
  unfold ProxyRepository.ListCategories at hl
  unfold ProxyRepository.GetCategory
  rcases he : ProxyRepository.ensureLoaded b p with ⟨_ | e, p'⟩
  · rw [he] at hl hinv
    simp only [Except.ok.injEq] at hl
    subst hl
    have := GoMap.get_outcome p'.categories id "category" hinv.2.1
    cases hk : p'.categories.lookup id <;> simp only [hk] at this ⊢ <;> exact this
  · rw [he] at hl
    cases hl

theorem proxy_getOperation_outcome (b : Repository σ) (p : ProxyRepository σ) (id : String)
    (l : List Operation) (h : p.CacheInv)
    (hl : (ProxyRepository.ListOperations b p).1 = .ok l) :
    ((ProxyRepository.GetOperation b p id).1 = .error (notFound "operation" id) ↔
      id ∉ ids l) ∧
    (∀ a, (ProxyRepository.GetOperation b p id).1 = .ok a → a.ID = id ∧ a ∈ l) ∧
    (id ∈ ids l → ∃ a, (ProxyRepository.GetOperation b p id).1 = .ok a) := by
  have hinv := ensureLoaded_cacheInv b p h
  unfold ProxyRepository.ListOperations at hl
  unfold ProxyRepository.GetOperation
  rcases he : ProxyRepository.ensureLoaded b p with ⟨_ | e, p'⟩
  · rw [he] at hl hinv
    simp only [Except.ok.injEq] at hl
    subst hl
    have := GoMap.get_outcome p'.operations id "operation" hinv.2.2
    cases hk : p'.operations.lookup id <;> simp only [hk] at this ⊢ <;> exact this
  · rw [he] at hl
    cases hl

end ProxyFrame

section CacheMirror

variable {σ : Type}

/-- If the maps mirror `d`, then after the map statements of a write they mirror
the snapshot the store's mutation makes of `d`. -/
theorem cacheWrite_mirror (p : ProxyRepository σ) (d d₁ : StorageData) (c : Call)
    (hu : UniqueIDs d) (hf : c.freshAt d = true)
    (hm : FileRepository.mutation c d = .ok d₁) (h : p.Mirrors d) :
    (p.cacheWrite c).Mirrors d₁ := by
  obtain ⟨hA, hC, hO⟩ := h
  cases c <;>
    simp only [FileRepository.mutation, Call.freshAt, decide_eq_true_eq] at hm hf <;>
    simp only [ProxyRepository.cacheWrite, ProxyRepository.Mirrors]
  case createAccount a =>
    cases hm
    exact ⟨by rw [hA]; exact assign_fresh d.Accounts a hf, hC, hO⟩
  case updateAccount a =>
    cases hi : indexOfID d.Accounts a.ID <;> rw [hi] at hm <;> cases hm
    exact ⟨by rw [hA]; exact assign_found d.Accounts a _ hu.1 hi, hC, hO⟩
  case deleteAccount id =>
    cases hi : indexOfID d.Accounts id <;> rw [hi] at hm <;> cases hm
    exact ⟨by rw [hA]; exact delete_found d.Accounts id _ hu.1 hi, hC, hO⟩
  case createCategory a =>
    cases hm
    exact ⟨hA, by rw [hC]; exact assign_fresh d.Categories a hf, hO⟩
  case updateCategory a =>
    cases hi : indexOfID d.Categories a.ID <;> rw [hi] at hm <;> cases hm
    exact ⟨hA, by rw [hC]; exact assign_found d.Categories a _ hu.2.1 hi, hO⟩
  case deleteCategory id =>
    cases hi : indexOfID d.Categories id <;> rw [hi] at hm <;> cases hm
    exact ⟨hA, by rw [hC]; exact delete_found d.Categories id _ hu.2.1 hi, hO⟩
  case createOperation a =>
    cases hm
    exact ⟨hA, hC, by rw [hO]; exact assign_fresh d.Operations a hf⟩
  case updateOperation a =>
    cases hi : indexOfID d.Operations a.ID <;> rw [hi] at hm <;> cases hm
    exact ⟨hA, hC, by rw [hO]; exact assign_found d.Operations a _ hu.2.2 hi⟩
  case deleteOperation id =>
    cases hi : indexOfID d.Operations id <;> rw [hi] at hm <;> cases hm
    exact ⟨hA, hC, by rw [hO]; exact delete_found d.Operations id _ hu.2.2 hi⟩
  case replaceAll x =>
    cases hm
    exact ⟨assignAll_nil_entries _ hf.1, assignAll_nil_entries _ hf.2.1,
      assignAll_nil_entries _ hf.2.2⟩
  all_goals
    cases hm
    exact ⟨hA, hC, hO⟩

/-- If the maps already mirror the snapshot the store's mutation made (the load
ran after the store was written), the map statements of the write change
nothing. -/
theorem cacheWrite_idem (p : ProxyRepository σ) (d d₁ : StorageData) (c : Call)
    (hu : UniqueIDs d) (hf : c.freshAt d = true)
    (hm : FileRepository.mutation c d = .ok d₁) (h : p.Mirrors d₁) :
    (p.cacheWrite c).Mirrors d₁ := by
  have hu₁ := mutation_uniqueIDs c d d₁ hu hf hm
  obtain ⟨hA, hC, hO⟩ := h
  cases c <;>
    simp only [FileRepository.mutation, Call.freshAt, decide_eq_true_eq] at hm hf <;>
    simp only [ProxyRepository.cacheWrite, ProxyRepository.Mirrors]
  case createAccount a =>
    cases hm
    exact ⟨by rw [hA]; exact assign_present _ a hu₁.1 (by simp), hC, hO⟩
  case updateAccount a =>
    cases hi : indexOfID d.Accounts a.ID <;> rw [hi] at hm <;> cases hm
    have hmem := List.mem_set d.Accounts _ (indexOfID_lt _ _ _ hi) a
    exact ⟨(by rw [hA]; exact assign_present _ a hu₁.1 hmem), hC, hO⟩
  case deleteAccount id =>
    cases hi : indexOfID d.Accounts id <;> rw [hi] at hm <;> cases hm
    exact ⟨by rw [hA]; exact delete_absent _ id (not_mem_ids_removeAt _ id _ hu.1 hi), hC, hO⟩
  case createCategory a =>
    cases hm
    exact ⟨hA, by rw [hC]; exact assign_present _ a hu₁.2.1 (by simp), hO⟩
  case updateCategory a =>
    cases hi : indexOfID d.Categories a.ID <;> rw [hi] at hm <;> cases hm
    have hmem := List.mem_set d.Categories _ (indexOfID_lt _ _ _ hi) a
    exact ⟨hA, (by rw [hC]; exact assign_present _ a hu₁.2.1 hmem), hO⟩
  case deleteCategory id =>
    cases hi : indexOfID d.Categories id <;> rw [hi] at hm <;> cases hm
    have habs := not_mem_ids_removeAt _ id _ hu.2.1 hi
    exact ⟨hA, (by rw [hC]; exact delete_absent _ id habs), hO⟩
  case createOperation a =>
    cases hm
    exact ⟨hA, hC, by rw [hO]; exact assign_present _ a hu₁.2.2 (by simp)⟩
  case updateOperation a =>
    cases hi : indexOfID d.Operations a.ID <;> rw [hi] at hm <;> cases hm
    have hmem := List.mem_set d.Operations _ (indexOfID_lt _ _ _ hi) a
    exact ⟨hA, hC, (by rw [hO]; exact assign_present _ a hu₁.2.2 hmem)⟩
  case deleteOperation id =>
    cases hi : indexOfID d.Operations id <;> rw [hi] at hm <;> cases hm
    have habs := not_mem_ids_removeAt _ id _ hu.2.2 hi
    exact ⟨hA, hC, (by rw [hO]; exact delete_absent _ id habs)⟩
  case replaceAll x =>
    cases hm
    exact ⟨assignAll_nil_entries _ hf.1, assignAll_nil_entries _ hf.2.1,
      assignAll_nil_entries _ hf.2.2⟩
  all_goals
    cases hm
    exact ⟨hA, hC, hO⟩

/-- The first pass of the load guard over a file that loads with unique IDs
fills the three maps with the entries of the snapshot. -/
theorem ensureLoaded_store_fresh (p : ProxyRepository Disk) (d : StorageData)
    (hlo : p.loadOnce = false) (hl : FileRepository.loadUnsafe p.base = .ok d)
    (hu : UniqueIDs d) :
    ProxyRepository.ensureLoaded FileRepository.repo p =
      (p.loadErr, { p with
        loadOnce := true
        accounts := entries d.Accounts
        categories := entries d.Categories
        operations := entries d.Operations }) := by
  simp [ProxyRepository.ensureLoaded, hlo, ProxyRepository.loadBody, FileRepository.repo,
    FileRepository.ListAccounts, FileRepository.ListCategories, FileRepository.ListOperations,
    FileRepository.load, hl, assignAll_nil_entries _ hu.1, assignAll_nil_entries _ hu.2.1,
    assignAll_nil_entries _ hu.2.2]

/-- One admissible write on a proxy over a sound disk: the store ends up as if
the write had been made on it directly, it stays sound, and the cache stays in
step with it. -/
theorem synced_step (p : ProxyRepository Disk) (c : Call) (hs : p.base.Sound)
    (hy : Synced p) (hw : c.isWrite = true)
    (hf : c.freshAt (p.base.persisted.getD {}) = true) (he : c.encodes = true) :
    ((ProxyRepository.repo FileRepository.repo).call p c).2.base =
      (FileRepository.repo.call p.base c).2 ∧
    ((ProxyRepository.repo FileRepository.repo).call p c).2.base.Sound ∧
    Synced ((ProxyRepository.repo FileRepository.repo).call p c).2 := by
  obtain ⟨ho, hc, hwr, d, hp, hu, hen⟩ := hs
  rw [hp] at hf
  simp only [Option.getD_some] at hf
  have hstore := store_write_of_sound p.base d c ho hc hwr hp hen hw he
  rw [proxy_call_shape]
  simp only [hw, if_true]
  rw [hstore]
  cases hm : FileRepository.mutation c d with
  | error e =>
    simp only [Reply.err]
    exact ⟨trivial, ⟨ho, hc, hwr, d, hp, hu, hen⟩, hy⟩
  | ok d₁ =>
    simp only [Reply.err]
    have hu₁ := mutation_uniqueIDs c d d₁ hu hf hm
    have hen₁ := mutation_encodes c d d₁ hen he hm
    have hs₁ : Disk.Sound { p.base with file := some (.document d₁) } :=
      ⟨ho, hc, hwr, d₁, rfl, hu₁, hen₁⟩
    rcases hy with ⟨hlo, hle⟩ | ⟨hlo, hle, d', hp', hmir⟩
    · rw [ensureLoaded_store_fresh
        { p with base := { p.base with file := some (.document d₁) } } d₁ hlo
        (loadUnsafe_of_persisted _ d₁ ho rfl) hu₁]
      simp only [hle]
      refine ⟨(cacheWrite_base _ c).1, ?_, ?_⟩
      · rw [(cacheWrite_base _ c).1]
        exact hs₁
      · refine Or.inr ⟨(cacheWrite_base _ c).2.1, ?_, d₁, ?_, ?_⟩
        · rw [(cacheWrite_base _ c).2.2]
        · rw [(cacheWrite_base _ c).1]
          rfl
        · exact cacheWrite_idem _ d d₁ c hu hf hm ⟨rfl, rfl, rfl⟩
    · have hd : d' = d := by
        rw [hp] at hp'
        exact (Option.some.inj hp').symm
      subst hd
      rw [ensureLoaded_of_loadOnce FileRepository.repo
        { p with base := { p.base with file := some (.document d₁) } } hlo]
      simp only [hle]
      refine ⟨(cacheWrite_base _ c).1, ?_, ?_⟩
      · rw [(cacheWrite_base _ c).1]
        exact hs₁
      · refine Or.inr ⟨?_, ?_, d₁, ?_, ?_⟩
        · rw [(cacheWrite_base _ c).2.1]
          exact hlo
        · rw [(cacheWrite_base _ c).2.2]
        · rw [(cacheWrite_base _ c).1]
          rfl
        · exact cacheWrite_mirror _ d' d₁ c hu hf hm hmir

/-- Along an admissible run from a synced proxy over a sound disk, the store
under the proxy goes through the states of a store written directly, and the
cache stays in step with it. -/
theorem synced_run (calls : List Call) (p : ProxyRepository Disk) (hs : p.base.Sound)
    (hy : Synced p) (hws : ∀ c ∈ calls, c.isWrite = true)
    (ha : admissible p.base calls = true) :
    ((ProxyRepository.repo FileRepository.repo).run p calls).base =
      FileRepository.repo.run p.base calls ∧
    ((ProxyRepository.repo FileRepository.repo).run p calls).base.Sound ∧
    Synced ((ProxyRepository.repo FileRepository.repo).run p calls) := by
  induction calls generalizing p with
  | nil => exact ⟨rfl, hs, hy⟩
  | cons c cs ih =>
    simp only [admissible, Bool.and_eq_true] at ha
    obtain ⟨⟨hf, he⟩, hrest⟩ := ha
    have hw := hws c (List.mem_cons_self _ _)
    obtain ⟨hb, hs', hy'⟩ := synced_step p c hs hy hw hf he
    have := ih _ hs' hy' (fun x hx => hws x (List.mem_cons_of_mem _ hx))
      (by rw [hb]; exact hrest)
    rw [hb] at this
    exact this

/-- On a synced proxy over a sound disk each `List*` returns the persisted
collection, in the iteration order of the model. -/
theorem synced_lists (p : ProxyRepository Disk) (hs : p.base.Sound) (hy : Synced p) :
    ∃ d, p.base.persisted = some d ∧
      (ProxyRepository.ListAccounts FileRepository.repo p).1 = .ok d.Accounts ∧
      (ProxyRepository.ListCategories FileRepository.repo p).1 = .ok d.Categories ∧
      (ProxyRepository.ListOperations FileRepository.repo p).1 = .ok d.Operations ∧
      (FileRepository.ListAccounts p.base).1 = .ok d.Accounts ∧
      (FileRepository.ListCategories p.base).1 = .ok d.Categories ∧
      (FileRepository.ListOperations p.base).1 = .ok d.Operations := by
  obtain ⟨ho, hc, hwr, d, hp, hu, hen⟩ := hs
  have hl := loadUnsafe_of_persisted p.base d ho hp
  refine ⟨d, hp, ?_, ?_, ?_, ?_, ?_, ?_⟩
  iterate 3
    rcases hy with ⟨hlo, hle⟩ | ⟨hlo, hle, d', hp', hA, hC, hO⟩
    · simp [ProxyRepository.ListAccounts, ProxyRepository.ListCategories,
        ProxyRepository.ListOperations, ensureLoaded_store_fresh p d hlo hl hu, hle,
        values_entries]
    · have hd : d' = d := by
        rw [hp] at hp'
        exact (Option.some.inj hp').symm
      subst hd
      simp [ProxyRepository.ListAccounts, ProxyRepository.ListCategories,
        ProxyRepository.ListOperations, ensureLoaded_of_loadOnce _ p hlo, hle, hA, hC, hO,
        values_entries]
  all_goals
    simp [FileRepository.ListAccounts, FileRepository.ListCategories,
      FileRepository.ListOperations, FileRepository.load, hl]

end CacheMirror

section Journal

variable {σ : Type}

theorem traced_call_journal (b : Repository σ) (s : σ × List Call) (c : Call) :
    (b.traced.call s c).2.2 = s.2 ++ [c] := by
  cases c <;> rfl

/-- The lazy load over a journalled store calls `ListAccounts`, then
`ListCategories`, then `ListOperations`, stopping at the first failure. -/
theorem ensureLoaded_traced (b : Repository σ) (p : ProxyRepository (σ × List Call))
    (h : p.loadOnce = false) :
    (ProxyRepository.ensureLoaded b.traced p).2.loadOnce = true ∧
    ((ProxyRepository.ensureLoaded b.traced p).2.base.2 = p.base.2 ++ [.listAccounts] ∨
     (ProxyRepository.ensureLoaded b.traced p).2.base.2 =
        p.base.2 ++ [.listAccounts, .listCategories] ∨
     (ProxyRepository.ensureLoaded b.traced p).2.base.2 =
        p.base.2 ++ [.listAccounts, .listCategories, .listOperations]) := by
  refine ⟨ensureLoaded_loadOnce _ _, ?_⟩
  simp only [ProxyRepository.ensureLoaded, h, Bool.false_eq_true, if_false,
    ProxyRepository.loadBody, Repository.traced]
  rcases b.ListAccounts p.base.1 with ⟨ra, sa⟩
  cases ra with
  | error e => exact Or.inl rfl
  | ok la =>
    simp only
    rcases b.ListCategories sa with ⟨rc, sc⟩
    cases rc with
    | error e => exact Or.inr (Or.inl (by simp))
    | ok lc =>
      simp only
      rcases b.ListOperations sc with ⟨ro, so⟩
      cases ro with
      | error e => exact Or.inr (Or.inr (by simp))
      | ok lo => exact Or.inr (Or.inr (by simp))

/-- The store state and the load guard after a proxy call. -/
theorem call_base_loadOnce (b : Repository σ) (p : ProxyRepository σ) (c : Call) :
    ((ProxyRepository.repo b).call p c).2.base =
      (if c.isWrite then
        match (b.call p.base c).1.err with
        | some _ => (b.call p.base c).2
        | none =>
          (ProxyRepository.ensureLoaded b { p with base := (b.call p.base c).2 }).2.base
      else (ProxyRepository.ensureLoaded b p).2.base) ∧
    ((ProxyRepository.repo b).call p c).2.loadOnce =
      (if c.isWrite then
        match (b.call p.base c).1.err with
        | some _ => p.loadOnce
        | none =>
          (ProxyRepository.ensureLoaded b { p with base := (b.call p.base c).2 }).2.loadOnce
      else (ProxyRepository.ensureLoaded b p).2.loadOnce) := by
  rw [proxy_call_shape]
  by_cases hw : c.isWrite = true
  · simp only [hw, if_true]
    cases (b.call p.base c).1.err with
    | some e => exact ⟨rfl, rfl⟩
    | none =>
      simp only
      rcases ProxyRepository.ensureLoaded b { p with base := (b.call p.base c).2 } with
        ⟨_ | e, p'⟩
      · exact ⟨(cacheWrite_base p' c).1, (cacheWrite_base p' c).2.1⟩
      · exact ⟨rfl, rfl⟩
  · simp only [hw, if_false, Bool.false_eq_true]
    rcases ProxyRepository.ensureLoaded b p with ⟨_ | e, p'⟩ <;> exact ⟨rfl, rfl⟩

/-- What one proxy call adds to the journal of the store. -/
theorem journal_step (b : Repository σ) (p : ProxyRepository (σ × List Call)) (c : Call) :
    ∃ new, ((ProxyRepository.repo b.traced).call p c).2.base.2 = p.base.2 ++ new ∧
      (p.loadOnce = true →
        ((ProxyRepository.repo b.traced).call p c).2.loadOnce = true ∧
        (∀ q ∈ new, q.isList = false) ∧
        (c.isWrite = false → ((ProxyRepository.repo b.traced).call p c).2.base = p.base)) ∧
      (p.loadOnce = false →
        (((ProxyRepository.repo b.traced).call p c).2.loadOnce = false ∧
          ∀ q ∈ new, q.isList = false) ∨
        (((ProxyRepository.repo b.traced).call p c).2.loadOnce = true ∧
          new.count .listAccounts = 1 ∧ new.count .listCategories ≤ 1 ∧
          new.count .listOperations ≤ 1)) := by
  obtain ⟨hb, hl⟩ := call_base_loadOnce b.traced p c
  rw [hb, hl]
  by_cases hw : c.isWrite = true
  · have hcl : ∀ q ∈ [c], q.isList = false := by
      intro q hq
      simp only [List.mem_singleton] at hq
      subst hq
      cases q <;> simp_all [Call.isWrite, Call.isList]
    have hcA : c ≠ .listAccounts := by rintro rfl; simp [Call.isWrite] at hw
    have hcC : c ≠ .listCategories := by rintro rfl; simp [Call.isWrite] at hw
    have hcO : c ≠ .listOperations := by rintro rfl; simp [Call.isWrite] at hw
    have hwf : c.isWrite = false → False := fun h => by rw [hw] at h; cases h
    simp only [hw, if_true]
    have hj := traced_call_journal b p.base c
    cases (b.traced.call p.base c).1.err with
    | some e =>
      exact ⟨[c], hj, fun h => ⟨h, hcl, fun h' => by cases h'⟩, fun h => Or.inl ⟨h, hcl⟩⟩
    | none =>
      simp only
      rcases Bool.eq_false_or_eq_true p.loadOnce with hlo | hlo
      · rw [ensureLoaded_of_loadOnce b.traced
          { p with base := (b.traced.call p.base c).2 } hlo]
        exact ⟨[c], hj, fun h => ⟨h, hcl, fun h' => by cases h'⟩,
          fun h => by rw [hlo] at h; cases h⟩
      · obtain ⟨h1, h2⟩ := ensureLoaded_traced b
          { p with base := (b.traced.call p.base c).2 } hlo
        have hno : p.loadOnce = true → False := fun h => by rw [hlo] at h; cases h
        simp only [hj] at h2
        rcases h2 with h2 | h2 | h2
        · refine ⟨[c, .listAccounts], ?_, fun h => (hno h).elim, fun _ => Or.inr ⟨h1, ?_⟩⟩
          · rw [h2]; simp
          · simp [List.count_cons, hcA, hcC, hcO]
        · refine ⟨[c, .listAccounts, .listCategories], ?_, fun h => (hno h).elim,
            fun _ => Or.inr ⟨h1, ?_⟩⟩
          · rw [h2]; simp
          · simp [List.count_cons, hcA, hcC, hcO]
        · refine ⟨[c, .listAccounts, .listCategories, .listOperations], ?_,
            fun h => (hno h).elim, fun _ => Or.inr ⟨h1, ?_⟩⟩
          · rw [h2]; simp
          · simp [List.count_cons, hcA, hcC, hcO]
  · have hw' : c.isWrite = false := by simpa using hw
    simp only [hw', if_false, Bool.false_eq_true]
    rcases Bool.eq_false_or_eq_true p.loadOnce with hlo | hlo
    · rw [ensureLoaded_of_loadOnce b.traced _ hlo]
      exact ⟨[], (by simp), fun h => ⟨h, (by simp), fun _ => rfl⟩,
        fun h => by rw [hlo] at h; cases h⟩
    · obtain ⟨h1, h2⟩ := ensureLoaded_traced b p hlo
      have hno : p.loadOnce = true → False := fun h => by rw [hlo] at h; cases h
      rcases h2 with h2 | h2 | h2
      · exact ⟨_, h2, fun h => (hno h).elim, fun _ => Or.inr ⟨h1, (by simp [List.count_cons])⟩⟩
      · exact ⟨_, h2, fun h => (hno h).elim, fun _ => Or.inr ⟨h1, (by simp [List.count_cons])⟩⟩
      · exact ⟨_, h2, fun h => (hno h).elim, fun _ => Or.inr ⟨h1, (by simp [List.count_cons])⟩⟩

theorem count_eq_zero_of_no_list (l : List Call) (x : Call) (hx : x.isList = true)
    (h : ∀ q ∈ l, q.isList = false) : l.count x = 0 := by
  apply List.count_eq_zero_of_not_mem
  intro hmem
  rw [h x hmem] at hx
  cases hx

/-- Along any run from a fresh proxy the journal holds no `List*` call while the
load guard has not run, and at most one of each kind ever. -/
theorem journal_inv (b : Repository σ) (calls : List Call)
    (p : ProxyRepository (σ × List Call))
    (h₀ : p.loadOnce = false → ∀ q ∈ p.base.2, q.isList = false)
    (h₁ : p.base.2.count .listAccounts ≤ 1 ∧ p.base.2.count .listCategories ≤ 1 ∧
      p.base.2.count .listOperations ≤ 1) :
    (((ProxyRepository.repo b.traced).run p calls).loadOnce = false →
      ∀ q ∈ ((ProxyRepository.repo b.traced).run p calls).base.2, q.isList = false) ∧
    ((ProxyRepository.repo b.traced).run p calls).base.2.count .listAccounts ≤ 1 ∧
    ((ProxyRepository.repo b.traced).run p calls).base.2.count .listCategories ≤ 1 ∧
    ((ProxyRepository.repo b.traced).run p calls).base.2.count .listOperations ≤ 1 := by
  induction calls generalizing p with
  | nil => exact ⟨h₀, h₁⟩
  | cons c cs ih =>
    obtain ⟨new, hj, ht, hf⟩ := journal_step b p c
    apply ih
    · intro hlo q hq
      rw [hj] at hq
      rcases Bool.eq_false_or_eq_true p.loadOnce with hp | hp
      · rw [(ht hp).1] at hlo
        cases hlo
      · rcases hf hp with ⟨_, hn⟩ | ⟨hl', _⟩
        · rcases List.mem_append.1 hq with hq | hq
          · exact h₀ hp q hq
          · exact hn q hq
        · rw [hl'] at hlo
          cases hlo
    · rw [hj]
      simp only [List.count_append]
      rcases Bool.eq_false_or_eq_true p.loadOnce with hp | hp
      · have hn := (ht hp).2.1
        rw [count_eq_zero_of_no_list new .listAccounts rfl hn,
          count_eq_zero_of_no_list new .listCategories rfl hn,
          count_eq_zero_of_no_list new .listOperations rfl hn]
        exact h₁
      · have hz := h₀ hp
        rw [count_eq_zero_of_no_list _ .listAccounts rfl hz,
          count_eq_zero_of_no_list _ .listCategories rfl hz,
          count_eq_zero_of_no_list _ .listOperations rfl hz]
        rcases hf hp with ⟨_, hn⟩ | ⟨_, hA, hC, hO⟩
        · rw [count_eq_zero_of_no_list new .listAccounts rfl hn,
            count_eq_zero_of_no_list new .listCategories rfl hn,
            count_eq_zero_of_no_list new .listOperations rfl hn]
          simp
        · omega

end Journal


section ReplaceAllCache

variable {σ : Type}

theorem ensureLoaded_fst (b : Repository σ) (p : ProxyRepository σ) :
    (ProxyRepository.ensureLoaded b p).1 = (ProxyRepository.ensureLoaded b p).2.loadErr := by
  unfold ProxyRepository.ensureLoaded
  split <;> rfl

theorem lookup_entries {α : Type} [HasID α] (l : List α) (id : String) :
    GoMap.lookup (entries l) id = firstByID l id := by
  induction l with
  | nil => rfl
  | cons x xs ih =>
    unfold GoMap.lookup at ih ⊢
    unfold entries at ih ⊢
    rw [List.map_cons, List.find?_cons]
    by_cases hx : HasID.ID x = id
    · subst hx
      simp [firstByID]
    · have hb : (HasID.ID x == id) = false := by simpa using hx
      simp only [hb, firstByID, hx, if_false]
      exact ih

theorem firstByID_of_mem {α : Type} [HasID α] (l : List α) (a : α) (hn : (ids l).Nodup)
    (ha : a ∈ l) : firstByID l (HasID.ID a) = some a := by
  induction l with
  | nil => cases ha
  | cons x xs ih =>
    have hn' : HasID.ID x ∉ ids xs ∧ (ids xs).Nodup := by
      simpa [ids] using hn
    rcases List.mem_cons.1 ha with h | h
    · subst h
      simp [firstByID]
    · have hne : ¬ HasID.ID x = HasID.ID a := by
        intro heq
        exact hn'.1 (heq ▸ List.mem_map.2 ⟨a, h, rfl⟩)
      simp [firstByID, hne, ih hn'.2 h]

/-- After a `ReplaceAll` that returned nil the load guard has passed without
error and the three maps were rebuilt from the snapshot. -/
theorem replaceAll_ok (b : Repository σ) (p : ProxyRepository σ) (s : StorageData)
    (hok : (ProxyRepository.ReplaceAll b p s).1 = none) :
    (ProxyRepository.ReplaceAll b p s).2.loadOnce = true ∧
    (ProxyRepository.ReplaceAll b p s).2.loadErr = none ∧
    (ProxyRepository.ReplaceAll b p s).2.accounts = GoMap.assignAll [] s.Accounts ∧
    (ProxyRepository.ReplaceAll b p s).2.categories = GoMap.assignAll [] s.Categories ∧
    (ProxyRepository.ReplaceAll b p s).2.operations = GoMap.assignAll [] s.Operations := by
  revert hok
  unfold ProxyRepository.ReplaceAll
  rcases b.ReplaceAll p.base s with ⟨_ | e, st⟩
  · simp only
    have h₁ := ensureLoaded_loadOnce b { p with base := st }
    have h₂ := ensureLoaded_fst b { p with base := st }
    revert h₁ h₂
    rcases ProxyRepository.ensureLoaded b { p with base := st } with ⟨_ | e, q⟩
    · intro h₁ h₂ _
      exact ⟨h₁, h₂.symm, rfl, rfl, rfl⟩
    · intro _ _ hok
      cases hok
  · intro hok
    cases hok

/-- Reads on a proxy whose load guard has passed without error answer from the
maps. -/
theorem reads_of_loaded (b : Repository σ) (p : ProxyRepository σ)
    (hl : p.loadOnce = true) (he : p.loadErr = none) (id : String) :
    (ProxyRepository.ListAccounts b p).1 = .ok p.accounts.values ∧
    (ProxyRepository.ListCategories b p).1 = .ok p.categories.values ∧
    (ProxyRepository.ListOperations b p).1 = .ok p.operations.values ∧
    (ProxyRepository.GetAccount b p id).1 =
      (match p.accounts.lookup id with
       | none => .error (notFound "account" id)
       | some a => .ok a) ∧
    (ProxyRepository.GetCategory b p id).1 =
      (match p.categories.lookup id with
       | none => .error (notFound "category" id)
       | some a => .ok a) ∧
    (ProxyRepository.GetOperation b p id).1 =
      (match p.operations.lookup id with
       | none => .error (notFound "operation" id)
       | some a => .ok a) := by
  have hg := ensureLoaded_of_loadOnce b p hl
  rw [he] at hg
  refine ⟨?_, ?_, ?_, ?_, ?_, ?_⟩
  · simp only [ProxyRepository.ListAccounts, hg]
  · simp only [ProxyRepository.ListCategories, hg]
  · simp only [ProxyRepository.ListOperations, hg]
  · simp only [ProxyRepository.GetAccount, hg]
    cases p.accounts.lookup id <;> rfl
  · simp only [ProxyRepository.GetCategory, hg]
    cases p.categories.lookup id <;> rfl
  · simp only [ProxyRepository.GetOperation, hg]
    cases p.operations.lookup id <;> rfl

end ReplaceAllCache


section LoadErrors

variable {σ : Type}

theorem fail_err (c : Call) (e : Error) : (c.fail e).err = some e := by
  cases c <;> rfl

/-- The error the load guard returns the first time it runs: the error of the
first failing `List*` call of the store, wrapped with the name of the step. -/
theorem ensureLoaded_error_wrapped (b : Repository σ) (p : ProxyRepository σ)
    (h : p.loadOnce = false) :
    (∀ e, (b.ListAccounts p.base).1 = .error e →
      (ProxyRepository.ensureLoaded b p).1 = some (.wrap "load accounts" e)) ∧
    (∀ la e, (b.ListAccounts p.base).1 = .ok la →
      (b.ListCategories (b.ListAccounts p.base).2).1 = .error e →
      (ProxyRepository.ensureLoaded b p).1 = some (.wrap "load categories" e)) ∧
    (∀ la lc e, (b.ListAccounts p.base).1 = .ok la →
      (b.ListCategories (b.ListAccounts p.base).2).1 = .ok lc →
      (b.ListOperations (b.ListCategories (b.ListAccounts p.base).2).2).1 = .error e →
      (ProxyRepository.ensureLoaded b p).1 = some (.wrap "load operations" e)) := by
  simp only [ProxyRepository.ensureLoaded, h, Bool.false_eq_true, if_false,
    ProxyRepository.loadBody]
  rcases b.ListAccounts p.base with ⟨ra, sa⟩
  cases ra with
  | error ea =>
    refine ⟨?_, ?_, ?_⟩
    · intro e he
      cases he
      rfl
    · intro la e he
      cases he
    · intro la lc e he
      cases he
  | ok la =>
    simp only
    rcases b.ListCategories sa with ⟨rc, sc⟩
    cases rc with
    | error ec =>
      refine ⟨?_, ?_, ?_⟩
      · intro e he
        cases he
      · intro la' e _ he
        cases he
        rfl
      · intro la' lc e _ he
        cases he
    | ok lc =>
      simp only
      rcases b.ListOperations sc with ⟨ro, so⟩
      cases ro with
      | error eo =>
        refine ⟨?_, ?_, ?_⟩
        · intro e he
          cases he
        · intro la' e _ he
          cases he
        · intro la' lc' e _ _ he
          cases he
          rfl
      | ok lo =>
        refine ⟨?_, ?_, ?_⟩
        · intro e he
          cases he
        · intro la' e _ he
          cases he
        · intro la' lc' e _ _ he
          cases he

/-- A call that reaches the load guard and finds it failing returns the guard's
error. -/
theorem call_err_of_guard (b : Repository σ) (p : ProxyRepository σ) (c : Call) (e : Error)
    (hr : c.isWrite = true → (b.call p.base c).1.err = none)
    (hg : (ProxyRepository.ensureLoaded b
      { p with base := ProxyRepository.guardState b p c }).1 = some e) :
    ((ProxyRepository.repo b).call p c).1.err = some e := by
  rw [proxy_call_shape]
  unfold ProxyRepository.guardState at hg
  by_cases hw : c.isWrite = true
  · simp only [hw, if_true] at hg ⊢
    rw [hr hw]
    simp only
    revert hg
    rcases ProxyRepository.ensureLoaded b { p with base := (b.call p.base c).2 } with
      ⟨_ | e', p'⟩
    · intro hg
      cases hg
    · intro hg
      simp only [Option.some.injEq] at hg
      subst hg
      rfl
  · have hw' : c.isWrite = false := by simpa using hw
    simp only [hw', if_false, Bool.false_eq_true] at hg ⊢
    revert hg
    rcases ProxyRepository.ensureLoaded b p with ⟨_ | e', p'⟩
    · intro hg
      cases hg
    · intro hg
      simp only [Option.some.injEq] at hg
      subst hg
      exact fail_err c e'

end LoadErrors


section Reference

variable {α : Type} [HasID α]

theorem set_eq_refReplaceFirst (l : List α) (e : α) (i : Nat)
    (h : indexOfID l (HasID.ID e) = some i) : l.set i e = refReplaceFirst l e := by
  induction l generalizing i with
  | nil => simp [indexOfID] at h
  | cons x xs ih =>
    by_cases hx : HasID.ID x = HasID.ID e
    · simp [indexOfID, hx] at h
      subst h
      simp [refReplaceFirst, hx]
    · simp only [indexOfID, hx, if_false, Option.map_eq_some'] at h
      obtain ⟨j, hj, rfl⟩ := h
      simp [refReplaceFirst, hx, ih j hj]

theorem removeAt_eq_refRemoveFirst (l : List α) (id : String) (i : Nat)
    (h : indexOfID l id = some i) : removeAt l i = refRemoveFirst l id := by
  induction l generalizing i with
  | nil => simp [indexOfID] at h
  | cons x xs ih =>
    by_cases hx : HasID.ID x = id
    · simp [indexOfID, hx] at h
      subst h
      simp [refRemoveFirst, hx, removeAt]
    · simp only [indexOfID, hx, if_false, Option.map_eq_some'] at h
      obtain ⟨j, hj, rfl⟩ := h
      have := ih j hj
      simp only [removeAt] at this
      simp [refRemoveFirst, hx, removeAt, this]

theorem refReplaceFirst_length (l : List α) (e : α) :
    (refReplaceFirst l e).length = l.length := by
  induction l with
  | nil => rfl
  | cons x xs ih =>
    by_cases hx : HasID.ID x = HasID.ID e
    · simp [refReplaceFirst, hx]
    · simp [refReplaceFirst, hx, ih]

theorem refRemoveFirst_sublist (l : List α) (id : String) :
    (refRemoveFirst l id).Sublist l := by
  induction l with
  | nil => exact List.Sublist.refl _
  | cons x xs ih =>
    by_cases hx : HasID.ID x = id
    · simp [refRemoveFirst, hx]
    · simp only [refRemoveFirst, hx, if_false]
      exact ih.cons₂ x

/-- What a successful mutation of the file store computes is the reference
operation. -/
theorem mutation_eq_reference (c : Call) (d d₁ : StorageData)
    (hm : FileRepository.mutation c d = .ok d₁) (hc : c.isCUD = true) :
    d₁ = referenceAfter c d := by
  cases c <;> simp only [FileRepository.mutation, referenceAfter, refAppend] at hm ⊢
  case createAccount a => cases hm; rfl
  case createCategory a => cases hm; rfl
  case createOperation a => cases hm; rfl
  case updateAccount a =>
    cases hi : indexOfID d.Accounts a.ID <;> rw [hi] at hm <;> cases hm
    rw [set_eq_refReplaceFirst d.Accounts a _ hi]
  case updateCategory a =>
    cases hi : indexOfID d.Categories a.ID <;> rw [hi] at hm <;> cases hm
    rw [set_eq_refReplaceFirst d.Categories a _ hi]
  case updateOperation a =>
    cases hi : indexOfID d.Operations a.ID <;> rw [hi] at hm <;> cases hm
    rw [set_eq_refReplaceFirst d.Operations a _ hi]
  case deleteAccount id =>
    cases hi : indexOfID d.Accounts id <;> rw [hi] at hm <;> cases hm
    rw [removeAt_eq_refRemoveFirst d.Accounts id _ hi]
  case deleteCategory id =>
    cases hi : indexOfID d.Categories id <;> rw [hi] at hm <;> cases hm
    rw [removeAt_eq_refRemoveFirst d.Categories id _ hi]
  case deleteOperation id =>
    cases hi : indexOfID d.Operations id <;> rw [hi] at hm <;> cases hm
    rw [removeAt_eq_refRemoveFirst d.Operations id _ hi]
  all_goals simp [Call.isCUD, Call.isWrite] at hc

theorem saveUnsafe_openErr (r : Disk) (d : StorageData) :
    (FileRepository.saveUnsafe r d).2.openErr = r.openErr := by
  unfold FileRepository.saveUnsafe
  cases r.createErr with
  | some e => rfl
  | none =>
    simp only
    cases jsonEncode d with
    | error e => rfl
    | ok bytes =>
      simp only
      cases r.writeErr with
      | none => rfl
      | some ew => rfl

theorem openErr_of_loadUnsafe (r : Disk) (d : StorageData)
    (h : FileRepository.loadUnsafe r = .ok d) : r.openErr = none := by
  unfold FileRepository.loadUnsafe at h
  cases ho : r.openErr with
  | none => rfl
  | some e => rw [ho] at h; cases h

end Reference

section UUID

set_option maxRecDepth 100000 in
/-- The bit operations of `newUUID` and `hex.Encode` on a byte, in arithmetic. -/
theorem byte_facts : ∀ x, x < 256 →
    (x >>> 4) = x / 16 ∧ (x &&& 15) = x % 16 ∧ ((x &&& 15 ||| 64) >>> 4) = 4 ∧
    ((x &&& 15 ||| 64) &&& 15) = x % 16 ∧ ((x &&& 63 ||| 128) >>> 4) = 8 + (x / 16) % 4 ∧
    ((x &&& 63 ||| 128) &&& 15) = x % 16 := by
  decide

theorem hexDigit_mem : ∀ n, n < 16 → hexDigit n ∈ hextable := by
  decide

theorem hexDigit_div_mem (x : Nat) (h : x < 256) : hexDigit (x / 16) ∈ hextable :=
  hexDigit_mem _ (by omega)

theorem hexDigit_mod_mem (x : Nat) : hexDigit (x % 16) ∈ hextable :=
  hexDigit_mem _ (by omega)

theorem hexDigit_variant : ∀ n, n < 4 → hexDigit (8 + n) ∈ ['8', '9', 'a', 'b'] := by
  decide

theorem list16 (P : List Nat → Prop)
    (hP : ∀ b0 b1 b2 b3 b4 b5 b6 b7 b8 b9 b10 b11 b12 b13 b14 b15 : Nat,
      P [b0, b1, b2, b3, b4, b5, b6, b7, b8, b9, b10, b11, b12, b13, b14, b15])
    (b : List Nat) (h : b.length = 16) : P b := by
  match b, h with
  | [b0, b1, b2, b3, b4, b5, b6, b7, b8, b9, b10, b11, b12, b13, b14, b15], _ => exact hP ..

/-- The UUID string written out digit by digit. -/
theorem uuid_explicit (b0 b1 b2 b3 b4 b5 b6 b7 b8 b9 b10 b11 b12 b13 b14 b15 : Nat)
    (hb : ∀ x ∈ [b0, b1, b2, b3, b4, b5, b6, b7, b8, b9, b10, b11, b12, b13, b14, b15],
      x < 256) :
    (uuidFromBytes
      [b0, b1, b2, b3, b4, b5, b6, b7, b8, b9, b10, b11, b12, b13, b14, b15]).data =
    [hexDigit (b0 / 16), hexDigit (b0 % 16), hexDigit (b1 / 16), hexDigit (b1 % 16),
      hexDigit (b2 / 16), hexDigit (b2 % 16), hexDigit (b3 / 16), hexDigit (b3 % 16), '-',
      hexDigit (b4 / 16), hexDigit (b4 % 16), hexDigit (b5 / 16), hexDigit (b5 % 16), '-',
      '4', hexDigit (b6 % 16), hexDigit (b7 / 16), hexDigit (b7 % 16), '-',
      hexDigit (8 + (b8 / 16) % 4), hexDigit (b8 % 16), hexDigit (b9 / 16),
      hexDigit (b9 % 16), '-',
      hexDigit (b10 / 16), hexDigit (b10 % 16), hexDigit (b11 / 16), hexDigit (b11 % 16),
      hexDigit (b12 / 16), hexDigit (b12 % 16), hexDigit (b13 / 16), hexDigit (b13 % 16),
      hexDigit (b14 / 16), hexDigit (b14 % 16), hexDigit (b15 / 16),
      hexDigit (b15 % 16)] := by
  simp only [List.mem_cons, List.mem_singleton, forall_eq_or_imp, forall_eq,
    List.not_mem_nil, false_imp_iff, implies_true, and_true] at hb
  obtain ⟨h0, h1, h2, h3, h4, h5, h6, h7, h8, h9, h10, h11, h12, h13, h14, h15⟩ := hb
  have hv : hexDigit 4 = '4' := by decide
  simp [uuidFromBytes, hexEncode, (byte_facts b0 h0).1, (byte_facts b0 h0).2.1,
    (byte_facts b1 h1).1, (byte_facts b1 h1).2.1, (byte_facts b2 h2).1, (byte_facts b2 h2).2.1,
    (byte_facts b3 h3).1, (byte_facts b3 h3).2.1, (byte_facts b4 h4).1, (byte_facts b4 h4).2.1,
    (byte_facts b5 h5).1, (byte_facts b5 h5).2.1, (byte_facts b7 h7).1, (byte_facts b7 h7).2.1,
    (byte_facts b9 h9).1, (byte_facts b9 h9).2.1, (byte_facts b10 h10).1,
    (byte_facts b10 h10).2.1, (byte_facts b11 h11).1, (byte_facts b11 h11).2.1,
    (byte_facts b12 h12).1, (byte_facts b12 h12).2.1, (byte_facts b13 h13).1,
    (byte_facts b13 h13).2.1, (byte_facts b14 h14).1, (byte_facts b14 h14).2.1,
    (byte_facts b15 h15).1, (byte_facts b15 h15).2.1, (byte_facts b6 h6).2.2.1,
    (byte_facts b6 h6).2.2.2.1, (byte_facts b8 h8).2.2.2.2.1, (byte_facts b8 h8).2.2.2.2.2, hv]

end UUID


section FacadeOverProxy

/-- An admissible write on a synced proxy over a sound disk returns what the
store returned. -/
theorem synced_step_reply (p : ProxyRepository Disk) (c : Call) (hs : p.base.Sound)
    (hy : Synced p) (hw : c.isWrite = true)
    (hf : c.freshAt (p.base.persisted.getD {}) = true) (he : c.encodes = true) :
    ((ProxyRepository.repo FileRepository.repo).call p c).1 =
      .done (FileRepository.repo.call p.base c).1.err := by
  obtain ⟨_, _, hy'⟩ := synced_step p c hs hy hw hf he
  rw [proxy_call_shape] at hy' ⊢
  simp only [hw, if_true] at hy' ⊢
  cases hr : (FileRepository.repo.call p.base c).1.err with
  | some e => rfl
  | none =>
    rw [hr] at hy'
    simp only at hy' ⊢
    have hfst := ensureLoaded_fst FileRepository.repo
      { p with base := (FileRepository.repo.call p.base c).2 }
    revert hy' hfst
    rcases ProxyRepository.ensureLoaded FileRepository.repo
      { p with base := (FileRepository.repo.call p.base c).2 } with ⟨_ | e, q⟩
    · intro _ _
      rfl
    · intro hy' hfst
      simp only at hy' hfst
      rcases hy' with ⟨_, hle⟩ | ⟨_, hle, _⟩ <;> rw [← hfst] at hle <;> cases hle

/-- The proxy's `GetCategory` on a synced proxy over a sound disk answers from the
persisted snapshot and leaves the file as it is. -/
theorem proxy_getCategory_synced (p : ProxyRepository Disk) (d : StorageData) (id : String)
    (hs : p.base.Sound) (hy : Synced p) (hp : p.base.persisted = some d) :
    (ProxyRepository.GetCategory FileRepository.repo p id).1 =
      (match firstByID d.Categories id with
       | none => .error (notFound "category" id)
       | some c => .ok c) ∧
    (ProxyRepository.GetCategory FileRepository.repo p id).2.base = p.base ∧
    Synced (ProxyRepository.GetCategory FileRepository.repo p id).2 := by
  obtain ⟨ho, _, _, d', hp', hu, _⟩ := hs
  have hd : d' = d := by
    rw [hp] at hp'
    exact (Option.some.inj hp').symm
  subst hd
  have hl := loadUnsafe_of_persisted p.base d' ho hp
  unfold ProxyRepository.GetCategory
  rcases hy with ⟨hlo, hle⟩ | ⟨hlo, hle, d₂, hp₂, hA, hC, hO⟩
  · rw [ensureLoaded_store_fresh p d' hlo hl hu, hle]
    simp only [lookup_entries]
    cases firstByID d'.Categories id <;>
      exact ⟨rfl, rfl, Or.inr ⟨rfl, rfl, d', hp, rfl, rfl, rfl⟩⟩
  · rw [ensureLoaded_of_loadOnce _ p hlo, hle]
    have hd : d₂ = d' := by
      rw [hp] at hp₂
      exact (Option.some.inj hp₂).symm
    subst hd
    simp only [hC, lookup_entries]
    cases firstByID d₂.Categories id <;>
      exact ⟨rfl, rfl, Or.inr ⟨hlo, hle, d₂, hp, hA, hC, hO⟩⟩

theorem indexOfID_of_firstByID {α : Type} [HasID α] (l : List α) (id : String) (c : α)
    (h : firstByID l id = some c) : HasID.ID c = id ∧ ∃ i, indexOfID l id = some i := by
  obtain ⟨pre, post, _, hc, _⟩ := (firstByID_eq_some l id c).1 h
  refine ⟨hc, ?_⟩
  cases hi : indexOfID l id with
  | some i => exact ⟨i, rfl⟩
  | none =>
    have := (firstByID_eq_none l id).2 ((indexOfID_eq_none l id).1 hi)
    rw [this] at h
    cases h

end FacadeOverProxy

section FloatLaws

theorem float_neg_neg (x : Float64) : x.neg.neg = x := by
  cases x <;> simp [Float64.neg]

/-- Rounding is symmetric: the nearest `float64` of `-q` is the negated nearest
`float64` of `q`. -/
theorem ofRat_neg (q : ℚ) : Float64.ofRat (-q) = (Float64.ofRat q).neg := by
  unfold Float64.ofRat
  rw [Rat.neg_num, Rat.neg_den, Int.natAbs_neg]
  rcases lt_trichotomy q.num 0 with h | h | h
  · have h₁ : ¬ q.num = 0 := by omega
    have h₂ : ¬ 0 < q.num := by omega
    have h₃ : ¬ -q.num = 0 := by omega
    have h₄ : 0 < -q.num := by omega
    rw [if_neg h₁, if_neg h₂, if_neg h₃, if_pos h₄, float_neg_neg]
  · have h₃ : -q.num = 0 := by omega
    rw [if_pos h, if_pos h₃]
    simp [Float64.neg]
  · have h₁ : ¬ q.num = 0 := by omega
    have h₃ : ¬ -q.num = 0 := by omega
    have h₄ : ¬ 0 < -q.num := by omega
    rw [if_neg h₁, if_pos h, if_neg h₃, if_neg h₄]

theorem isFloat_neg (x : Float64) (h : x.IsFloat) : x.neg.IsFloat := by
  cases x with
  | finite q =>
    unfold Float64.IsFloat at h
    simp only [Float64.neg, Float64.IsFloat]
    rw [ofRat_neg, h]
    rfl
  | posInf => trivial
  | negInf => trivial
  | nan => trivial

/-- Multiplying a `float64` by `1.0` is exact. -/
theorem float_one_mul (x : Float64) (h : x.IsFloat) : (Float64.finite 1).mul x = x := by
  cases x with
  | finite q =>
    unfold Float64.IsFloat at h
    simp only [Float64.mul, one_mul]
    exact h
  | posInf => simp [Float64.mul, Float64.scaleInf]
  | negInf => simp [Float64.mul, Float64.scaleInf, Float64.neg]
  | nan => simp [Float64.mul]

/-- Multiplying a `float64` by `-1.0` is exact: it negates the value. -/
theorem float_neg_one_mul (x : Float64) (h : x.IsFloat) :
    (Float64.finite (-1)).mul x = x.neg := by
  cases x with
  | finite q =>
    unfold Float64.IsFloat at h
    simp only [Float64.mul, neg_mul, one_mul]
    rw [ofRat_neg, h]
  | posInf =>
    simp [Float64.mul, Float64.scaleInf, Float64.neg]
  | negInf =>
    simp [Float64.mul, Float64.scaleInf, Float64.neg]
    norm_num
  | nan => simp [Float64.mul, Float64.neg]

theorem float_add_comm (x y : Float64) : x.add y = y.add x := by
  cases x <;> cases y <;> simp [Float64.add, add_comm]

/-- When the sum of a `float64` balance and an amount needs no rounding, taking
the amount away again gives back the balance. -/
theorem float_add_sub_cancel (x y : ℚ) (hx : Float64.ofRat x = .finite x)
    (hxy : Float64.ofRat (x + y) = .finite (x + y)) :
    ((Float64.finite x).add (.finite y)).sub (.finite y) = .finite x := by
  simp only [Float64.add, Float64.sub, Float64.neg, hxy]
  rw [add_neg_cancel_right, hx]

end FloatLaws

section MapLaws

variable {V : Type}

theorem GoMap.lookup_assign_self (m : GoMap V) (k : String) (v : V) :
    (m.assign k v).lookup k = some v := by
  unfold GoMap.assign GoMap.lookup
  by_cases h : m.any (fun e => e.1 == k) = true
  · rw [if_pos h]
    induction m with
    | nil => simp at h
    | cons e es ih =>
      rw [List.map_cons, List.find?_cons]
      by_cases he : e.1 = k
      · simp [he]
      · have hany : es.any (fun e => e.1 == k) = true := by
          simpa [he] using h
        simp only [he, if_false]
        have hb : (e.1 == k) = false := by simpa using he
        rw [hb]
        exact ih hany
  · rw [if_neg h]
    have hnone : m.find? (fun e => e.1 == k) = none := by
      rw [List.find?_eq_none]
      intro x hx hxk
      exact h (List.any_eq_true.2 ⟨x, hx, hxk⟩)
    simp [List.find?_append, hnone]

theorem GoMap.find_map_assign (m : GoMap V) (k k' : String) (v : V) (hne : k' ≠ k) :
    (m.map (fun e => if e.1 = k then (k, v) else e)).find? (fun e => e.1 == k') =
      m.find? (fun e => e.1 == k') := by
  have hb : (k == k') = false := by simpa using (Ne.symm hne)
  induction m with
  | nil => rfl
  | cons e es ih =>
    rw [List.map_cons, List.find?_cons, List.find?_cons, ih]
    by_cases he : e.1 = k
    · have hb' : (e.1 == k') = false := by
        rw [he]
        exact hb
      simp only [he, if_true, hb, hb']
    · simp only [he, if_false]

theorem GoMap.lookup_assign_ne (m : GoMap V) (k k' : String) (v : V) (hne : k' ≠ k) :
    (m.assign k v).lookup k' = m.lookup k' := by
  unfold GoMap.assign GoMap.lookup
  have hb : (k == k') = false := by simpa using (Ne.symm hne)
  split
  · rw [GoMap.find_map_assign m k k' v hne]
  · rw [List.find?_append]
    simp [List.find?_cons, hb]

theorem GoMap.lookup_delete_self (m : GoMap V) (k : String) : (m.delete k).lookup k = none := by
  unfold GoMap.delete GoMap.lookup
  rw [Option.map_eq_none', List.find?_eq_none]
  intro x hx
  have := (List.mem_filter.1 hx).2
  simpa using this

theorem GoMap.lookup_delete_ne (m : GoMap V) (k k' : String) (hne : k' ≠ k) :
    (m.delete k).lookup k' = m.lookup k' := by
  unfold GoMap.delete GoMap.lookup
  congr 1
  induction m with
  | nil => rfl
  | cons e es ih =>
    by_cases he : e.1 = k
    · have hb' : (e.1 == k') = false := by
        rw [he]
        simpa using (Ne.symm hne)
      have hf : (e.1 != k) = false := by simpa using he
      rw [List.filter_cons, hf, List.find?_cons, hb']
      exact ih
    · have hb : (e.1 != k) = true := by simpa using he
      rw [List.filter_cons, hb, if_pos rfl, List.find?_cons, List.find?_cons, ih]

theorem GoMap.lookup_none_iff (m : GoMap V) (k : String) :
    m.lookup k = none ↔ ∀ e ∈ m, e.1 ≠ k := by
  unfold GoMap.lookup
  rw [Option.map_eq_none', List.find?_eq_none]
  constructor
  · intro h e he hk
    exact h e he (by simpa using hk)
  · intro h e he hk
    exact h e he (by simpa using hk)

/-- Assigning under a key the map does not hold and deleting the key again gives
back the map. -/
theorem GoMap.delete_assign_fresh (m : GoMap V) (k : String) (v : V)
    (h : m.lookup k = none) : (m.assign k v).delete k = m := by
  have hall := (GoMap.lookup_none_iff m k).1 h
  have hany : ¬ m.any (fun e => e.1 == k) = true := by
    intro ha
    obtain ⟨x, hx, hxk⟩ := List.any_eq_true.1 ha
    exact hall x hx (by simpa using hxk)
  unfold GoMap.assign GoMap.delete
  rw [if_neg hany, List.filter_append]
  have h₁ : m.filter (fun e => e.1 != k) = m := by
    rw [List.filter_eq_self]
    intro e he
    simpa using hall e he
  rw [h₁]
  simp

/-- Assigning to a key the value it already has leaves a map (each key held
once) as it is. -/
theorem GoMap.assign_same (m : GoMap V) (k : String) (v : V) (hu : m.KeysUnique)
    (h : m.lookup k = some v) : m.assign k v = m := by
  unfold GoMap.assign
  have hany : m.any (fun e => e.1 == k) = true := by
    unfold GoMap.lookup at h
    cases hf : m.find? (fun e => e.1 == k) with
    | none => rw [hf] at h; cases h
    | some x =>
      have hpx := List.find?_some hf
      exact List.any_eq_true.2 ⟨x, List.mem_of_find?_eq_some hf, hpx⟩
  rw [if_pos hany]
  clear hany
  induction m with
  | nil => rfl
  | cons e es ih =>
    have hu' : e.1 ∉ es.map Prod.fst ∧ (es.map Prod.fst).Nodup := by
      simpa [GoMap.KeysUnique] using hu
    rw [List.map_cons]
    unfold GoMap.lookup at h ih
    rw [List.find?_cons] at h
    by_cases he : e.1 = k
    · have hb : (e.1 == k) = true := by simpa using he
      rw [hb] at h
      simp only [Option.map_some', Option.some.injEq] at h
      have hev : (k, v) = e := by
        rw [← he, ← h]
      simp only [he, if_true, hev]
      congr 1
      have : ∀ x ∈ es, (if x.1 = k then e else x) = x := by
        intro x hx
        have hxk : x.1 ≠ k := by
          intro hxk
          exact hu'.1 (List.mem_map.2 ⟨x, hx, by rw [hxk, he]⟩)
        simp [hxk]
      calc es.map (fun x => if x.1 = k then e else x) = es.map id :=
            List.map_congr_left this
        _ = es := List.map_id es
    · have hb : (e.1 == k) = false := by simpa using he
      rw [hb] at h
      simp only [he, if_false]
      congr 1
      exact ih hu'.2 h

/-- Two assignments under one key: the second value stays, as if the first
assignment had not been made. -/
theorem GoMap.assign_assign (m : GoMap V) (k : String) (v w : V) :
    (m.assign k v).assign k w = m.assign k w := by
  unfold GoMap.assign
  by_cases h : m.any (fun e => e.1 == k) = true
  · have h' : (m.map (fun e => if e.1 = k then (k, v) else e)).any (fun e => e.1 == k) =
        true := by
      obtain ⟨x, hx, hxk⟩ := List.any_eq_true.1 h
      refine List.any_eq_true.2 ⟨(k, v), List.mem_map.2 ⟨x, hx, ?_⟩, by simp⟩
      have : x.1 = k := by simpa using hxk
      simp [this]
    simp only [h, if_true]
    rw [if_pos h', List.map_map]
    apply List.map_congr_left
    intro e _
    by_cases he : e.1 = k <;> simp [he]
  · have h' : (m ++ [(k, v)]).any (fun e => e.1 == k) = true := by
      simp
    simp only [h, Bool.false_eq_true, if_false]
    rw [if_pos h', List.map_append]
    have hm : m.map (fun e => if e.1 = k then (k, w) else e) = m := by
      have : ∀ x ∈ m, (if x.1 = k then (k, w) else x) = x := by
        intro x hx
        have hxk : x.1 ≠ k := by
          intro hxk
          exact h (List.any_eq_true.2 ⟨x, hx, by simpa using hxk⟩)
        simp [hxk]
      calc m.map (fun x => if x.1 = k then (k, w) else x) = m.map id :=
            List.map_congr_left this
        _ = m := List.map_id m
    rw [hm]
    simp

end MapLaws

section LoadedProxy

variable {σ : Type}

theorem loaded_of_ensureLoaded (b : Repository σ) (p q : ProxyRepository σ)
    (h : ProxyRepository.ensureLoaded b p = (none, q)) : q.Loaded := by
  have h₁ := ensureLoaded_loadOnce b p
  have h₂ := ensureLoaded_fst b p
  rw [h] at h₁ h₂
  exact ⟨h₁, h₂.symm⟩

theorem ensureLoaded_of_loaded (b : Repository σ) (p : ProxyRepository σ) (h : p.Loaded) :
    ProxyRepository.ensureLoaded b p = (none, p) := by
  rw [ensureLoaded_of_loadOnce b p h.1, h.2]

theorem loaded_getAccount (b : Repository σ) (p : ProxyRepository σ) (h : p.Loaded)
    (id : String) :
    ProxyRepository.GetAccount b p id =
      (match p.accounts.lookup id with
       | none => .error (notFound "account" id)
       | some a => .ok a, p) := by
  simp only [ProxyRepository.GetAccount, ensureLoaded_of_loaded b p h]
  cases p.accounts.lookup id <;> rfl

theorem loaded_getCategory (b : Repository σ) (p : ProxyRepository σ) (h : p.Loaded)
    (id : String) :
    ProxyRepository.GetCategory b p id =
      (match p.categories.lookup id with
       | none => .error (notFound "category" id)
       | some a => .ok a, p) := by
  simp only [ProxyRepository.GetCategory, ensureLoaded_of_loaded b p h]
  cases p.categories.lookup id <;> rfl

theorem loaded_getOperation (b : Repository σ) (p : ProxyRepository σ) (h : p.Loaded)
    (id : String) :
    ProxyRepository.GetOperation b p id =
      (match p.operations.lookup id with
       | none => .error (notFound "operation" id)
       | some a => .ok a, p) := by
  simp only [ProxyRepository.GetOperation, ensureLoaded_of_loaded b p h]
  cases p.operations.lookup id <;> rfl

theorem loaded_listOperations (b : Repository σ) (p : ProxyRepository σ) (h : p.Loaded) :
    ProxyRepository.ListOperations b p = (.ok p.operations.values, p) := by
  simp only [ProxyRepository.ListOperations, ensureLoaded_of_loaded b p h]

theorem loaded_listAccounts (b : Repository σ) (p : ProxyRepository σ) (h : p.Loaded) :
    ProxyRepository.ListAccounts b p = (.ok p.accounts.values, p) := by
  simp only [ProxyRepository.ListAccounts, ensureLoaded_of_loaded b p h]

theorem loaded_listCategories (b : Repository σ) (p : ProxyRepository σ) (h : p.Loaded) :
    ProxyRepository.ListCategories b p = (.ok p.categories.values, p) := by
  simp only [ProxyRepository.ListCategories, ensureLoaded_of_loaded b p h]

/-- A write on a loaded proxy that returns nil has been accepted by the store
and has updated the maps; nothing else of the proxy changes. -/
theorem loaded_updateAccount (b : Repository σ) (p q : ProxyRepository σ) (h : p.Loaded)
    (a : BankAccount) (hok : ProxyRepository.UpdateAccount b p a = (none, q)) :
    (b.UpdateAccount p.base a).1 = none ∧ q.Loaded ∧
      q.accounts = p.accounts.assign a.ID a ∧ q.categories = p.categories ∧
      q.operations = p.operations := by
  unfold ProxyRepository.UpdateAccount at hok
  rcases hb : b.UpdateAccount p.base a with ⟨_ | e, s⟩
  · rw [hb] at hok
    simp only [ensureLoaded_of_loaded b { p with base := s } h, Prod.mk.injEq, true_and]
      at hok
    subst hok
    exact ⟨rfl, h, rfl, rfl, rfl⟩
  · rw [hb] at hok
    simp at hok

theorem loaded_deleteAccount (b : Repository σ) (p q : ProxyRepository σ) (h : p.Loaded)
    (id : String) (hok : ProxyRepository.DeleteAccount b p id = (none, q)) :
    (b.DeleteAccount p.base id).1 = none ∧ q.Loaded ∧
      q.accounts = p.accounts.delete id ∧ q.categories = p.categories ∧
      q.operations = p.operations := by
  unfold ProxyRepository.DeleteAccount at hok
  rcases hb : b.DeleteAccount p.base id with ⟨_ | e, s⟩
  · rw [hb] at hok
    simp only [ensureLoaded_of_loaded b { p with base := s } h, Prod.mk.injEq, true_and]
      at hok
    subst hok
    exact ⟨rfl, h, rfl, rfl, rfl⟩
  · rw [hb] at hok
    simp at hok

theorem loaded_createOperation (b : Repository σ) (p q : ProxyRepository σ) (h : p.Loaded)
    (a : Operation) (hok : ProxyRepository.CreateOperation b p a = (none, q)) :
    (b.CreateOperation p.base a).1 = none ∧ q.Loaded ∧
      q.accounts = p.accounts ∧ q.categories = p.categories ∧
      q.operations = p.operations.assign a.ID a := by
  unfold ProxyRepository.CreateOperation at hok
  rcases hb : b.CreateOperation p.base a with ⟨_ | e, s⟩
  · rw [hb] at hok
    simp only [ensureLoaded_of_loaded b { p with base := s } h, Prod.mk.injEq, true_and]
      at hok
    subst hok
    exact ⟨rfl, h, rfl, rfl, rfl⟩
  · rw [hb] at hok
    simp at hok

theorem loaded_updateOperation (b : Repository σ) (p q : ProxyRepository σ) (h : p.Loaded)
    (a : Operation) (hok : ProxyRepository.UpdateOperation b p a = (none, q)) :
    (b.UpdateOperation p.base a).1 = none ∧ q.Loaded ∧
      q.accounts = p.accounts ∧ q.categories = p.categories ∧
      q.operations = p.operations.assign a.ID a := by
  unfold ProxyRepository.UpdateOperation at hok
  rcases hb : b.UpdateOperation p.base a with ⟨_ | e, s⟩
  · rw [hb] at hok
    simp only [ensureLoaded_of_loaded b { p with base := s } h, Prod.mk.injEq, true_and]
      at hok
    subst hok
    exact ⟨rfl, h, rfl, rfl, rfl⟩
  · rw [hb] at hok
    simp at hok

theorem loaded_deleteOperation (b : Repository σ) (p q : ProxyRepository σ) (h : p.Loaded)
    (id : String) (hok : ProxyRepository.DeleteOperation b p id = (none, q)) :
    (b.DeleteOperation p.base id).1 = none ∧ q.Loaded ∧
      q.accounts = p.accounts ∧ q.categories = p.categories ∧
      q.operations = p.operations.delete id := by
  unfold ProxyRepository.DeleteOperation at hok
  rcases hb : b.DeleteOperation p.base id with ⟨_ | e, s⟩
  · rw [hb] at hok
    simp only [ensureLoaded_of_loaded b { p with base := s } h, Prod.mk.injEq, true_and]
      at hok
    subst hok
    exact ⟨rfl, h, rfl, rfl, rfl⟩
  · rw [hb] at hok
    simp at hok

end LoadedProxy

section FacadeOverCache

variable {σ γ : Type}

/-- What a successful `CreateOperation` of the factory returns. -/
theorem createOperation_ok (f : DomainFactory γ) (g : γ) (opType : OperationType)
    (accountID categoryID : String) (amount : Float64) (date : Time) (description : String)
    (op : Operation)
    (h : (f.CreateOperation g opType accountID categoryID amount date description).1 =
      .ok op) :
    (f.idGen.NewID g).1 = .ok op.ID ∧
    op = { ID := op.ID, Typ := opType, BankAccountID := accountID, CategoryID := categoryID,
           Amount := amount, Date := date, Description := TrimSpace description } ∧
    (opType = OperationTypeIncome ∨ opType = OperationTypeExpense) ∧
    amount.le (.finite 0) = false ∧ date.IsZero = false := by
  unfold DomainFactory.CreateOperation at h
  split at h
  · cases h
  · rename_i ht
    split at h
    · cases h
    · split at h
      · cases h
      · split at h
        · cases h
        · rename_i ha
          split at h
          · cases h
          · rename_i hd
            rcases hn : f.idGen.NewID g with ⟨_ | id, g'⟩
            · rw [hn] at h
              cases h
            · rw [hn] at h
              simp only [Except.ok.injEq] at h
              subst h
              refine ⟨rfl, rfl, ?_, by simpa using ha, by simpa using hd⟩
              by_contra hc
              exact ht ⟨fun h => hc (Or.inl h), fun h => hc (Or.inr h)⟩

/-- Reads on a proxy whose load guard passes answer from the maps the guard
leaves. -/
theorem reads_via_guard (b : Repository σ) (p p₁ : ProxyRepository σ)
    (he : ProxyRepository.ensureLoaded b p = (none, p₁)) :
    (∀ id, (ProxyRepository.GetAccount b p id).1 =
      (match p₁.accounts.lookup id with
       | none => .error (notFound "account" id)
       | some a => .ok a)) ∧
    (∀ id, (ProxyRepository.GetCategory b p id).1 =
      (match p₁.categories.lookup id with
       | none => .error (notFound "category" id)
       | some a => .ok a)) ∧
    (∀ id, (ProxyRepository.GetOperation b p id).1 =
      (match p₁.operations.lookup id with
       | none => .error (notFound "operation" id)
       | some a => .ok a)) ∧
    (ProxyRepository.ListAccounts b p).1 = .ok p₁.accounts.values ∧
    (ProxyRepository.ListCategories b p).1 = .ok p₁.categories.values ∧
    (ProxyRepository.ListOperations b p).1 = .ok p₁.operations.values := by
  refine ⟨fun id => ?_, fun id => ?_, fun id => ?_, ?_, ?_, ?_⟩
  · simp only [ProxyRepository.GetAccount, he]
    cases p₁.accounts.lookup id <;> rfl
  · simp only [ProxyRepository.GetCategory, he]
    cases p₁.categories.lookup id <;> rfl
  · simp only [ProxyRepository.GetOperation, he]
    cases p₁.operations.lookup id <;> rfl
  · simp only [ProxyRepository.ListAccounts, he]
  · simp only [ProxyRepository.ListCategories, he]
  · simp only [ProxyRepository.ListOperations, he]

theorem reads_of_loaded_state (b : Repository σ) (p : ProxyRepository σ) (h : p.Loaded) :
    (∀ id, (ProxyRepository.GetAccount b p id).1 =
      (match p.accounts.lookup id with
       | none => .error (notFound "account" id)
       | some a => .ok a)) ∧
    (∀ id, (ProxyRepository.GetCategory b p id).1 =
      (match p.categories.lookup id with
       | none => .error (notFound "category" id)
       | some a => .ok a)) ∧
    (∀ id, (ProxyRepository.GetOperation b p id).1 =
      (match p.operations.lookup id with
       | none => .error (notFound "operation" id)
       | some a => .ok a)) ∧
    (ProxyRepository.ListAccounts b p).1 = .ok p.accounts.values ∧
    (ProxyRepository.ListCategories b p).1 = .ok p.categories.values ∧
    (ProxyRepository.ListOperations b p).1 = .ok p.operations.values :=
  reads_via_guard b p p (ensureLoaded_of_loaded b p h)

end FacadeOverCache


section WellFormedCache

variable {σ γ : Type}

theorem GoMap.keysUnique_nil {V : Type} : GoMap.KeysUnique ([] : GoMap V) :=
  List.nodup_nil

theorem GoMap.assign_keysUnique {V : Type} (m : GoMap V) (k : String) (v : V)
    (h : m.KeysUnique) : (m.assign k v).KeysUnique := by
  unfold GoMap.assign GoMap.KeysUnique at *
  split
  · have : (m.map (fun e => if e.1 = k then (k, v) else e)).map Prod.fst = m.map Prod.fst := by
      rw [List.map_map]
      apply List.map_congr_left
      intro e _
      by_cases he : e.1 = k <;> simp [he]
    rw [this]
    exact h
  · rename_i hany
    rw [List.map_append, List.map_singleton]
    refine List.Nodup.append h (List.nodup_singleton _) ?_
    intro x hx hk
    have hxk : x = k := by simpa using hk
    subst hxk
    obtain ⟨e, he, hek⟩ := List.mem_map.1 hx
    exact hany (List.any_eq_true.2 ⟨e, he, by simpa using hek⟩)

theorem GoMap.delete_keysUnique {V : Type} (m : GoMap V) (k : String) (h : m.KeysUnique) :
    (m.delete k).KeysUnique := by
  unfold GoMap.delete GoMap.KeysUnique at *
  exact (List.filter_sublist m).map Prod.fst |>.nodup h

theorem GoMap.assignAll_keysUnique {V : Type} [HasID V] (l : List V) (m : GoMap V)
    (h : m.KeysUnique) : (m.assignAll l).KeysUnique := by
  induction l generalizing m with
  | nil => exact h
  | cons x xs ih => exact ih _ (GoMap.assign_keysUnique m _ x h)

theorem loadBody_wellFormed (b : Repository σ) (p : ProxyRepository σ) (h : p.WellFormed) :
    (ProxyRepository.loadBody b p).WellFormed := by
  refine ⟨loadBody_cacheInv b p h.1, ?_⟩
  obtain ⟨_, ha, hc, ho⟩ := h
  unfold ProxyRepository.loadBody
  split
  · exact ⟨ha, hc, ho⟩
  · split
    · exact ⟨ha, hc, ho⟩
    · split
      · exact ⟨ha, hc, ho⟩
      · exact ⟨GoMap.assignAll_keysUnique _ _ GoMap.keysUnique_nil,
          GoMap.assignAll_keysUnique _ _ GoMap.keysUnique_nil,
          GoMap.assignAll_keysUnique _ _ GoMap.keysUnique_nil⟩

theorem ensureLoaded_wellFormed (b : Repository σ) (p : ProxyRepository σ)
    (h : p.WellFormed) : (ProxyRepository.ensureLoaded b p).2.WellFormed := by
  unfold ProxyRepository.ensureLoaded
  split
  · exact h
  · exact loadBody_wellFormed b _ h

theorem new_wellFormed (s : σ) : (NewProxyRepository s).WellFormed :=
  ⟨new_cacheInv s, GoMap.keysUnique_nil, GoMap.keysUnique_nil, GoMap.keysUnique_nil⟩

end WellFormedCache


section Sums

theorem amountsOf_cons (typ : OperationType) (id : String) (op : Operation)
    (rest : List Operation) :
    amountsOf typ id (op :: rest) =
      if op.BankAccountID = id ∧ op.Typ = typ then op.Amount :: amountsOf typ id rest
      else amountsOf typ id rest := by
  unfold amountsOf
  rw [List.filter_cons]
  by_cases h : op.BankAccountID = id ∧ op.Typ = typ
  · rw [if_pos h, if_pos (by simpa using h), List.map_cons]
  · rw [if_neg h, if_neg (by simpa using h)]

theorem GoMap.values_delete {V : Type} [HasID V] (m : GoMap V) (k : String)
    (h : m.KeysAreIDs) :
    (m.delete k).values = m.values.filter (fun a => HasID.ID a != k) := by
  unfold GoMap.delete GoMap.values
  induction m with
  | nil => rfl
  | cons e es ih =>
    have he : e.1 = HasID.ID e.2 := h e (List.mem_cons_self _ _)
    have hes : GoMap.KeysAreIDs es := fun x hx => h x (List.mem_cons_of_mem _ hx)
    rw [List.filter_cons, List.map_cons, List.filter_cons, ← he]
    cases (e.1 != k)
    · simpa using ih hes
    · simpa using ih hes

end Sums

section Periods

theorem before_iff (frm til : Time) : til.Before frm = true ↔ ¬ Time.le frm til := by
  unfold Time.Before Time.le
  simp only [Bool.or_eq_true, Bool.and_eq_true, decide_eq_true_eq]
  constructor
  · rintro (h | ⟨h₁, h₂⟩) <;> omega
  · intro h
    omega

theorem inPeriod_iff (date frm til : Time) :
    AnalyticsFacade.inPeriod date frm til = true ↔ Time.le frm date ∧ Time.le date til := by
  unfold AnalyticsFacade.inPeriod Time.Equal Time.After Time.Before Time.le
  simp only [Bool.or_eq_true, Bool.and_eq_true, decide_eq_true_eq]
  constructor
  · rintro ⟨h₁, h₂⟩
    constructor <;> omega
  · rintro ⟨h₁, h₂⟩
    constructor <;> omega

theorem inRange_cons (frm til : Time) (op : Operation) (rest : List Operation) :
    inRange frm til (op :: rest) =
      if AnalyticsFacade.inPeriod op.Date frm til = true then op :: inRange frm til rest
      else inRange frm til rest := by
  unfold inRange
  rw [List.filter_cons]
  by_cases h : AnalyticsFacade.inPeriod op.Date frm til = true
  · rw [if_pos h, if_pos (by simpa using (inPeriod_iff _ _ _).1 h)]
  · rw [if_neg h, if_neg]
    intro hd
    exact h ((inPeriod_iff _ _ _).2 (by simpa using hd))

theorem amountsOfType_cons (typ : OperationType) (op : Operation) (rest : List Operation) :
    amountsOfType typ (op :: rest) =
      if op.Typ = typ then op.Amount :: amountsOfType typ rest else amountsOfType typ rest := by
  unfold amountsOfType
  rw [List.filter_cons]
  by_cases h : op.Typ = typ
  · rw [if_pos h, if_pos (by simpa using h), List.map_cons]
  · rw [if_neg h, if_neg (by simpa using h)]

/-- The loop of `Difference` adds, in the order of the list, the in-period income
amounts to `income` and the in-period expense amounts to `expense`. -/
theorem difference_loop (frm til : Time) (ops : List Operation) (sums : Float64 × Float64) :
    ops.foldl (AnalyticsFacade.differenceStep frm til) sums =
      ((amountsOfType OperationTypeIncome (inRange frm til ops)).foldl Float64.add sums.1,
       (amountsOfType OperationTypeExpense (inRange frm til ops)).foldl Float64.add sums.2) := by
  induction ops generalizing sums with
  | nil => rfl
  | cons op rest ih =>
    rw [List.foldl_cons, ih, inRange_cons]
    unfold AnalyticsFacade.differenceStep
    by_cases hp : AnalyticsFacade.inPeriod op.Date frm til = true
    · rw [if_pos hp, amountsOfType_cons, amountsOfType_cons]
      simp only [hp, Bool.not_true, Bool.false_eq_true, if_false]
      by_cases hi : op.Typ = OperationTypeIncome
      · have hne : ¬ op.Typ = OperationTypeExpense := by
          rw [hi]
          decide
        rw [if_pos hi, if_pos hi, if_neg hne]
        rfl
      · by_cases he : op.Typ = OperationTypeExpense
        · rw [if_neg hi, if_pos he, if_neg hi, if_pos he]
          rfl
        · rw [if_neg hi, if_neg he, if_neg hi, if_neg he]
    · rw [if_neg hp]
      have hf : AnalyticsFacade.inPeriod op.Date frm til = false := by
        simpa using hp
      simp only [hf, Bool.not_false, if_true]

end Periods

section Grouping

/-- What an entry holds after the amounts of the operations `l` were added to
it. -/
theorem addToEntry_loop (l : List Operation) (e : CategoryTotals) :
    l.foldl AnalyticsFacade.addToEntry e =
      ⟨(amountsOfType OperationTypeIncome l).foldl Float64.add e.Income,
       (amountsOfType OperationTypeExpense l).foldl Float64.add e.Expense⟩ := by
  induction l generalizing e with
  | nil => rfl
  | cons op rest ih =>
    rw [List.foldl_cons, ih, amountsOfType_cons, amountsOfType_cons]
    unfold AnalyticsFacade.addToEntry
    by_cases hi : op.Typ = OperationTypeIncome
    · have hne : ¬ op.Typ = OperationTypeExpense := by
        rw [hi]
        decide
      rw [if_pos hi, if_pos hi, if_neg hne]
      rfl
    · by_cases he : op.Typ = OperationTypeExpense
      · rw [if_neg hi, if_pos he, if_neg hi, if_pos he]
        rfl
      · rw [if_neg hi, if_neg he, if_neg hi, if_neg he]

/-- The entry the loop of `GroupByCategory` leaves under the name `n`: the entry
it found there, with the amounts of the in-period operations whose category
(looked up by `category_id`) has the name `n` added in the order of the list; no
entry when there was none and no such operation. -/
theorem group_loop (categoryMap : GoMap Category) (frm til : Time) (n : String)
    (ops : List Operation) (totals : GoMap CategoryTotals) :
    (ops.foldl (AnalyticsFacade.groupStep categoryMap frm til) totals).lookup n =
      if ops.filter (fun op => AnalyticsFacade.inPeriod op.Date frm til &&
          ((categoryMap.lookup op.CategoryID).map (fun c => c.Name == n)).getD false) = []
      then totals.lookup n
      else some ((ops.filter (fun op => AnalyticsFacade.inPeriod op.Date frm til &&
          ((categoryMap.lookup op.CategoryID).map (fun c => c.Name == n)).getD false)).foldl
        AnalyticsFacade.addToEntry ((totals.lookup n).getD ⟨.finite 0, .finite 0⟩)) := by
  induction ops generalizing totals with
  | nil => simp
  | cons op rest ih =>
    rw [List.foldl_cons, ih, List.filter_cons]
    unfold AnalyticsFacade.groupStep
    by_cases hp : AnalyticsFacade.inPeriod op.Date frm til = true
    · simp only [hp, Bool.not_true, Bool.false_eq_true, if_false, Bool.true_and]
      cases hc : categoryMap.lookup op.CategoryID with
      | none => simp
      | some c =>
        simp only [Option.map_some', Option.getD_some]
        by_cases hn : c.Name = n
        · have hb : (c.Name == n) = true := by simpa using hn
          simp only [hb, if_true, hn, GoMap.lookup_assign_self, Option.getD_some,
            List.foldl_cons]
          generalize List.filter (fun op => AnalyticsFacade.inPeriod op.Date frm til &&
            ((categoryMap.lookup op.CategoryID).map (fun c => c.Name == n)).getD false)
            rest = R
          cases R <;> simp
        · have hb : (c.Name == n) = false := by simpa using hn
          simp only [hb, Bool.false_eq_true, if_false]
          rw [GoMap.lookup_assign_ne _ _ _ _ (Ne.symm hn)]
    · have hf : AnalyticsFacade.inPeriod op.Date frm til = false := by simpa using hp
      simp only [hf, Bool.not_false, if_true, Bool.false_and, Bool.false_eq_true, if_false]

end Grouping

section SyncedReads

/-- On a synced proxy over a sound disk each `Get*` returns what the store's
`Get*` returns. -/
theorem synced_gets (p : ProxyRepository Disk) (hs : p.base.Sound) (hy : Synced p)
    (id : String) :
    (ProxyRepository.GetAccount FileRepository.repo p id).1 =
      (FileRepository.GetAccount p.base id).1 ∧
    (ProxyRepository.GetCategory FileRepository.repo p id).1 =
      (FileRepository.GetCategory p.base id).1 ∧
    (ProxyRepository.GetOperation FileRepository.repo p id).1 =
      (FileRepository.GetOperation p.base id).1 := by
  obtain ⟨ho, _, _, d, hp, hu, _⟩ := hs
  have hl := loadUnsafe_of_persisted p.base d ho hp
  rw [store_getAccount p.base d id hl, store_getCategory p.base d id hl,
    store_getOperation p.base d id hl]
  rcases hy with ⟨hlo, hle⟩ | ⟨hlo, hle, d', hp', hA, hC, hO⟩
  · simp only [ProxyRepository.GetAccount, ProxyRepository.GetCategory,
      ProxyRepository.GetOperation, ensureLoaded_store_fresh p d hlo hl hu, hle,
      lookup_entries]
    refine ⟨?_, ?_, ?_⟩
    · cases firstByID d.Accounts id <;> rfl
    · cases firstByID d.Categories id <;> rfl
    · cases firstByID d.Operations id <;> rfl
  · have hd : d' = d := by
      rw [hp] at hp'
      exact (Option.some.inj hp').symm
    subst hd
    simp only [ProxyRepository.GetAccount, ProxyRepository.GetCategory,
      ProxyRepository.GetOperation, ensureLoaded_of_loadOnce _ p hlo, hle, hA, hC, hO,
      lookup_entries]
    refine ⟨?_, ?_, ?_⟩
    · cases firstByID d'.Accounts id <;> rfl
    · cases firstByID d'.Categories id <;> rfl
    · cases firstByID d'.Operations id <;> rfl

end SyncedReads

section ReachableCache

variable {σ : Type}

theorem cacheWrite_wellFormed (p : ProxyRepository σ) (c : Call) (h : p.WellFormed) :
    (p.cacheWrite c).WellFormed := by
  refine ⟨cacheWrite_cacheInv p c h.1, ?_⟩
  obtain ⟨_, ha, hc, ho⟩ := h
  cases c <;> simp only [ProxyRepository.cacheWrite] <;>
    first
    | exact ⟨ha, hc, ho⟩
    | exact ⟨GoMap.assign_keysUnique _ _ _ ha, hc, ho⟩
    | exact ⟨GoMap.delete_keysUnique _ _ ha, hc, ho⟩
    | exact ⟨ha, GoMap.assign_keysUnique _ _ _ hc, ho⟩
    | exact ⟨ha, GoMap.delete_keysUnique _ _ hc, ho⟩
    | exact ⟨ha, hc, GoMap.assign_keysUnique _ _ _ ho⟩
    | exact ⟨ha, hc, GoMap.delete_keysUnique _ _ ho⟩
    | exact ⟨GoMap.assignAll_keysUnique _ _ GoMap.keysUnique_nil,
        GoMap.assignAll_keysUnique _ _ GoMap.keysUnique_nil,
        GoMap.assignAll_keysUnique _ _ GoMap.keysUnique_nil⟩

/-- Every proxy call, of any kind and whatever it returns, keeps the three maps
well formed. -/
theorem call_wellFormed (b : Repository σ) (p : ProxyRepository σ) (c : Call)
    (h : p.WellFormed) : ((ProxyRepository.repo b).call p c).2.WellFormed := by
  rw [proxy_call_shape]
  split
  · split
    · exact h
    · have h' := ensureLoaded_wellFormed b { p with base := (b.call p.base c).2 } h
      split <;> rename_i heq <;> rw [heq] at h'
      · exact h'
      · exact cacheWrite_wellFormed _ c h'
  · have h' := ensureLoaded_wellFormed b p h
    split <;> rename_i heq <;> rw [heq] at h' <;> exact h'

theorem run_wellFormed (b : Repository σ) (calls : List Call) (p : ProxyRepository σ)
    (h : p.WellFormed) : ((ProxyRepository.repo b).run p calls).WellFormed := by
  induction calls generalizing p with
  | nil => exact h
  | cons c cs ih => exact ih _ (call_wellFormed b p c h)

/-- The values of a map that holds every key once and every entity under its ID
have distinct IDs. -/
theorem ids_values_nodup {V : Type} [HasID V] (m : GoMap V) (hk : m.KeysAreIDs)
    (hu : m.KeysUnique) : (ids m.values).Nodup := by
  have : ids m.values = m.map Prod.fst := by
    unfold ids GoMap.values
    rw [List.map_map]
    apply List.map_congr_left
    intro e he
    exact (hk e he).symm
  rw [this]
  exact hu

end ReachableCache

section FileSteps

/-- A save that returns nil met no fault, encoded the snapshot, and left the
file holding it. -/
theorem saveUnsafe_none (r : Disk) (d₁ : StorageData)
    (h : (FileRepository.saveUnsafe r d₁).1 = none) :
    encodeError d₁ = none ∧
      FileRepository.saveUnsafe r d₁ = (none, { r with file := some (.document d₁) }) := by
  unfold FileRepository.saveUnsafe at h ⊢
  cases hc : r.createErr with
  | some e => rw [hc] at h; simp at h
  | none =>
    rw [hc] at h
    simp only at h ⊢
    rw [jsonEncode_eq] at h ⊢
    cases he : encodeError d₁ with
    | some e => rw [he] at h; simp at h
    | none =>
      rw [he] at h
      simp only at h ⊢
      cases hw : r.writeErr with
      | some ew => rw [hw] at h; simp at h
      | none => exact ⟨trivial, rfl⟩

/-- A proxy whose cache is in step with a sound disk passes the load guard
without touching the file, and is then loaded and in step. -/
theorem inStep_of_synced (p : ProxyRepository Disk) (d : StorageData) (hs : p.base.Sound)
    (hy : Synced p) (hp : p.base.persisted = some d) :
    ∃ p₁, ProxyRepository.ensureLoaded FileRepository.repo p = (none, p₁) ∧
      p₁.base = p.base ∧ InStep p₁ d := by
  obtain ⟨ho, hc, hw, d', hp', hu, hen⟩ := hs
  have hd : d' = d := by
    rw [hp] at hp'
    exact (Option.some.inj hp').symm
  subst hd
  have hl := loadUnsafe_of_persisted p.base d' ho hp
  rcases hy with ⟨hlo, hle⟩ | ⟨hlo, hle, d₂, hp₂, hm⟩
  · refine ⟨{ p with
        loadOnce := true
        accounts := entries d'.Accounts
        categories := entries d'.Categories
        operations := entries d'.Operations }, ?_, rfl, ho, hc, hw, hp, hu, hen, rfl, hle,
      rfl, rfl, rfl⟩
    rw [ensureLoaded_store_fresh p d' hlo hl hu, hle]
  · have hd : d₂ = d' := by
      rw [hp] at hp₂
      exact (Option.some.inj hp₂).symm
    subst hd
    refine ⟨p, ?_, rfl, ho, hc, hw, hp, hu, hen, hlo, hle, hm⟩
    rw [ensureLoaded_of_loadOnce _ p hlo, hle]

theorem inStep_ensureLoaded (p : ProxyRepository Disk) (d : StorageData) (h : InStep p d) :
    ProxyRepository.ensureLoaded FileRepository.repo p = (none, p) := by
  obtain ⟨_, _, _, _, _, _, hlo, hle, _⟩ := h
  rw [ensureLoaded_of_loadOnce _ p hlo, hle]

theorem inStep_sound (p : ProxyRepository Disk) (d : StorageData) (h : InStep p d) :
    p.base.Sound ∧ Synced p ∧ p.base.persisted = some d := by
  obtain ⟨ho, hc, hw, hp, hu, hen, hlo, hle, hm⟩ := h
  exact ⟨⟨ho, hc, hw, d, hp, hu, hen⟩, Or.inr ⟨hlo, hle, d, hp, hm⟩, hp⟩

/-- In step, `GetAccount` answers from the snapshot of the file and changes
nothing. -/
theorem inStep_getAccount (p : ProxyRepository Disk) (d : StorageData) (h : InStep p d)
    (id : String) :
    (ProxyRepository.repo FileRepository.repo).GetAccount p id =
      ((match firstByID d.Accounts id with
        | some a => .ok a
        | none => .error (notFound "account" id)), p) := by
  have hl := inStep_ensureLoaded p d h
  obtain ⟨_, _, _, _, _, _, _, _, hA, _, _⟩ := h
  show ProxyRepository.GetAccount FileRepository.repo p id = _
  unfold ProxyRepository.GetAccount
  rw [hl]
  simp only [hA, lookup_entries]
  cases firstByID d.Accounts id <;> rfl

theorem inStep_getCategory (p : ProxyRepository Disk) (d : StorageData) (h : InStep p d)
    (id : String) :
    (ProxyRepository.repo FileRepository.repo).GetCategory p id =
      ((match firstByID d.Categories id with
        | some a => .ok a
        | none => .error (notFound "category" id)), p) := by
  have hl := inStep_ensureLoaded p d h
  obtain ⟨_, _, _, _, _, _, _, _, _, hC, _⟩ := h
  show ProxyRepository.GetCategory FileRepository.repo p id = _
  unfold ProxyRepository.GetCategory
  rw [hl]
  simp only [hC, lookup_entries]
  cases firstByID d.Categories id <;> rfl

theorem inStep_getOperation (p : ProxyRepository Disk) (d : StorageData) (h : InStep p d)
    (id : String) :
    (ProxyRepository.repo FileRepository.repo).GetOperation p id =
      ((match firstByID d.Operations id with
        | some a => .ok a
        | none => .error (notFound "operation" id)), p) := by
  have hl := inStep_ensureLoaded p d h
  obtain ⟨_, _, _, _, _, _, _, _, _, _, hO⟩ := h
  show ProxyRepository.GetOperation FileRepository.repo p id = _
  unfold ProxyRepository.GetOperation
  rw [hl]
  simp only [hO, lookup_entries]
  cases firstByID d.Operations id <;> rfl

/-- In step, `ListOperations` returns the operations of the file, in the
iteration order of the model, and changes nothing. -/
theorem inStep_listOperations (p : ProxyRepository Disk) (d : StorageData) (h : InStep p d) :
    (ProxyRepository.repo FileRepository.repo).ListOperations p = (.ok d.Operations, p) := by
  have hl := inStep_ensureLoaded p d h
  obtain ⟨_, _, _, _, _, _, _, _, _, _, hO⟩ := h
  show ProxyRepository.ListOperations FileRepository.repo p = _
  unfold ProxyRepository.ListOperations
  rw [hl]
  simp only [hO, values_entries]

/-- A read made before the load returns what it returns once the load guard has
passed. -/
theorem reads_after_guard {σ : Type} (b : Repository σ) (p p₁ : ProxyRepository σ)
    (h : ProxyRepository.ensureLoaded b p = (none, p₁))
    (h₁ : ProxyRepository.ensureLoaded b p₁ = (none, p₁)) :
    (∀ id, (ProxyRepository.repo b).GetAccount p id =
      (ProxyRepository.repo b).GetAccount p₁ id) ∧
    (∀ id, (ProxyRepository.repo b).GetCategory p id =
      (ProxyRepository.repo b).GetCategory p₁ id) ∧
    (∀ id, (ProxyRepository.repo b).GetOperation p id =
      (ProxyRepository.repo b).GetOperation p₁ id) ∧
    (ProxyRepository.repo b).ListOperations p = (ProxyRepository.repo b).ListOperations p₁ := by
  refine ⟨fun id => ?_, fun id => ?_, fun id => ?_, ?_⟩
  · show ProxyRepository.GetAccount b p id = ProxyRepository.GetAccount b p₁ id
    simp only [ProxyRepository.GetAccount, h, h₁]
  · show ProxyRepository.GetCategory b p id = ProxyRepository.GetCategory b p₁ id
    simp only [ProxyRepository.GetCategory, h, h₁]
  · show ProxyRepository.GetOperation b p id = ProxyRepository.GetOperation b p₁ id
    simp only [ProxyRepository.GetOperation, h, h₁]
  · show ProxyRepository.ListOperations b p = ProxyRepository.ListOperations b p₁
    simp only [ProxyRepository.ListOperations, h, h₁]

/-- In step, a `Create*`, `Update*` or `Delete*` that keeps IDs unique and returns
nil has written the mutated snapshot to the file, and the proxy is in step with
it. -/
theorem inStep_write (p q : ProxyRepository Disk) (d : StorageData) (c : Call)
    (h : InStep p d) (hc : c.isCUD = true) (hf : c.freshAt d = true)
    (hok : (ProxyRepository.repo FileRepository.repo).call p c = (.done none, q)) :
    InStep q (referenceAfter c d) := by
  obtain ⟨ho, hcr, hwr, hp, hu, hen, hlo, hle, hm⟩ := h
  have hw : c.isWrite = true := by
    cases c <;> simp [Call.isCUD, Call.isWrite] at hc ⊢
  have hl := loadUnsafe_of_persisted p.base d ho hp
  rw [proxy_call_shape, if_pos hw, store_call_cud p.base c hc] at hok
  cases hmu : FileRepository.mutation c d with
  | error e =>
    rw [withData_of_fn_error p.base d _ e hl hmu] at hok
    simp [Reply.err] at hok
  | ok d₁ =>
    rw [withData_of_fn_ok p.base d d₁ _ hl hmu] at hok
    cases hsv : (FileRepository.saveUnsafe p.base d₁).1 with
    | some e =>
      simp only [Reply.err, hsv] at hok
      simp at hok
    | none =>
      obtain ⟨hen₁, hsave⟩ := saveUnsafe_none p.base d₁ hsv
      rw [hsave] at hok
      simp only [Reply.err] at hok
      have hq := ensureLoaded_of_loadOnce FileRepository.repo
        ({ p with base := { p.base with file := some (.document d₁) } } :
          ProxyRepository Disk) hlo
      rw [hq] at hok
      simp only [hle, Prod.mk.injEq, true_and] at hok
      have hd₁ := mutation_eq_reference c d d₁ hmu hc
      subst hd₁
      rw [← hok]
      refine ⟨(congrArg Disk.openErr (cacheWrite_base _ c).1).trans ho,
        (congrArg Disk.createErr (cacheWrite_base _ c).1).trans hcr,
        (congrArg Disk.writeErr (cacheWrite_base _ c).1).trans hwr,
        (congrArg Disk.persisted (cacheWrite_base _ c).1).trans rfl,
        mutation_uniqueIDs c d _ hu hf hmu, hen₁,
        (cacheWrite_base _ c).2.1.trans hlo, (cacheWrite_base _ c).2.2.trans rfl,
        cacheWrite_mirror _ d _ c hu hf hmu hm⟩

end FileSteps

section FileFacades

variable {γ : Type}

theorem inStep_updateAccount (p q : ProxyRepository Disk) (d : StorageData) (a : BankAccount)
    (h : InStep p d)
    (hok : (ProxyRepository.repo FileRepository.repo).UpdateAccount p a = (none, q)) :
    InStep q { d with Accounts := refReplaceFirst d.Accounts a } :=
  inStep_write p q d (.updateAccount a) h rfl rfl (by simp [Repository.call, hok])

theorem inStep_deleteAccount (p q : ProxyRepository Disk) (d : StorageData) (id : String)
    (h : InStep p d)
    (hok : (ProxyRepository.repo FileRepository.repo).DeleteAccount p id = (none, q)) :
    InStep q { d with Accounts := refRemoveFirst d.Accounts id } :=
  inStep_write p q d (.deleteAccount id) h rfl rfl (by simp [Repository.call, hok])

theorem inStep_createOperation (p q : ProxyRepository Disk) (d : StorageData) (op : Operation)
    (h : InStep p d) (hf : op.ID ∉ ids d.Operations)
    (hok : (ProxyRepository.repo FileRepository.repo).CreateOperation p op = (none, q)) :
    InStep q { d with Operations := refAppend d.Operations op } :=
  inStep_write p q d (.createOperation op) h rfl (by simp [Call.freshAt, hf])
    (by simp [Repository.call, hok])

theorem inStep_updateOperation (p q : ProxyRepository Disk) (d : StorageData) (op : Operation)
    (h : InStep p d)
    (hok : (ProxyRepository.repo FileRepository.repo).UpdateOperation p op = (none, q)) :
    InStep q { d with Operations := refReplaceFirst d.Operations op } :=
  inStep_write p q d (.updateOperation op) h rfl rfl (by simp [Repository.call, hok])

theorem inStep_deleteOperation (p q : ProxyRepository Disk) (d : StorageData) (id : String)
    (h : InStep p d)
    (hok : (ProxyRepository.repo FileRepository.repo).DeleteOperation p id = (none, q)) :
    InStep q { d with Operations := refRemoveFirst d.Operations id } :=
  inStep_write p q d (.deleteOperation id) h rfl rfl (by simp [Repository.call, hok])

/-- The balance `applyOperationEffect` writes, for an amount that is a `float64`:
the effect of the operation added when it is applied, subtracted when it is
taken back (the factors `1.0` and `-1.0` multiply exactly). -/
theorem balance_of_effect (balance : Float64) (op : Operation) (apply : Bool)
    (hfl : op.Amount.IsFloat) :
    (if op.Typ = OperationTypeIncome then
        balance.add ((if apply then Float64.finite 1 else Float64.finite (-1)).mul op.Amount)
      else
        balance.sub ((if apply then Float64.finite 1 else Float64.finite (-1)).mul op.Amount)) =
      if apply then balance.add op.effect else balance.sub op.effect := by
  unfold Operation.effect
  cases apply <;> by_cases h : op.Typ = OperationTypeIncome <;>
    simp [h, float_one_mul _ hfl, float_neg_one_mul _ hfl, Float64.sub, float_neg_neg]

/-- In step, `ensureCategoryMatchesOperation` only reads. -/
theorem ensureCategory_inStep (p : ProxyRepository Disk) (d : StorageData) (h : InStep p d)
    (categoryID : String) (opType : OperationType) :
    (OperationFacade.ensureCategoryMatchesOperation (ProxyRepository.repo FileRepository.repo)
      p categoryID opType).2 = p := by
  unfold OperationFacade.ensureCategoryMatchesOperation
  rw [inStep_getCategory p d h]
  cases firstByID d.Categories categoryID with
  | none => rfl
  | some c =>
    simp only
    split
    · split <;> rfl
    · split
      · split <;> rfl
      · rfl

/-- In step, an `applyOperationEffect` that returns nil has replaced the account
of the operation in the file by the account with the effect added to (or taken
from) its balance. -/
theorem applyEffect_inStep (p q : ProxyRepository Disk) (d : StorageData) (op : Operation)
    (apply : Bool) (h : InStep p d) (hfl : op.Amount.IsFloat)
    (hok : OperationFacade.applyOperationEffect (ProxyRepository.repo FileRepository.repo)
      p op apply = (none, q)) :
    ∃ acc, firstByID d.Accounts op.BankAccountID = some acc ∧
      InStep q { d with
        Accounts := refReplaceFirst d.Accounts
          { acc with
            Balance :=
              if apply then acc.Balance.add op.effect else acc.Balance.sub op.effect } } := by
  unfold OperationFacade.applyOperationEffect at hok
  rw [inStep_getAccount p d h] at hok
  cases hk : firstByID d.Accounts op.BankAccountID with
  | none =>
    rw [hk] at hok
    simp at hok
  | some acc =>
    rw [hk] at hok
    simp only at hok
    refine ⟨acc, rfl, ?_⟩
    rw [← balance_of_effect acc.Balance op apply hfl]
    by_cases hi : op.Typ = OperationTypeIncome
    · rw [if_pos hi] at hok ⊢
      exact inStep_updateAccount p q d _ h hok
    · rw [if_neg hi] at hok ⊢
      by_cases he : op.Typ = OperationTypeExpense
      · rw [if_pos he] at hok
        exact inStep_updateAccount p q d _ h hok
      · rw [if_neg he] at hok
        simp at hok

/-- In step, an `AddOperation` that returns an operation under an unused ID has
appended it to the operations of the file and replaced the account by the
account with the effect added to its balance. -/
theorem addOperation_inStep (f : DomainFactory γ) (p q : ProxyRepository Disk)
    (d : StorageData) (g g' : γ) (opType : OperationType) (accountID categoryID : String)
    (amount : Float64) (date : Time) (description : String) (op : Operation)
    (h : InStep p d) (hfl : amount.IsFloat)
    (hok : OperationFacade.AddOperation (ProxyRepository.repo FileRepository.repo) f p g
      opType accountID categoryID amount date description = (.ok op, q, g'))
    (hfresh : op.ID ∉ ids d.Operations) :
    ∃ acc, firstByID d.Accounts accountID = some acc ∧
      op = ⟨op.ID, opType, accountID, amount, date, TrimSpace description, categoryID⟩ ∧
      (opType = OperationTypeIncome ∨ opType = OperationTypeExpense) ∧
      InStep q { d with
        Accounts := refReplaceFirst d.Accounts
          { acc with Balance := acc.Balance.add op.effect }
        Operations := refAppend d.Operations op } := by
  unfold OperationFacade.AddOperation at hok
  have hcat := ensureCategory_inStep p d h categoryID opType
  revert hok hcat
  rcases OperationFacade.ensureCategoryMatchesOperation
    (ProxyRepository.repo FileRepository.repo) p categoryID opType with ⟨_ | e, p'⟩
  · intro hok hcat
    simp only at hcat
    subst hcat
    simp only at hok
    rw [inStep_getAccount p' d h] at hok
    cases hk : firstByID d.Accounts accountID with
    | none =>
      rw [hk] at hok
      simp at hok
    | some acc₀ =>
      rw [hk] at hok
      simp only at hok
      rcases hf : f.CreateOperation g opType accountID categoryID amount date description
        with ⟨_ | operation, g₁⟩
      · rw [hf] at hok
        simp at hok
      · rw [hf] at hok
        simp only at hok
        obtain ⟨_, hop, ht, _, _⟩ := createOperation_ok f g opType accountID categoryID amount
          date description operation (by rw [hf])
        rcases hw : (ProxyRepository.repo FileRepository.repo).CreateOperation p' operation
          with ⟨_ | e, p₂⟩
        · rw [hw] at hok
          simp only at hok
          rcases hx : OperationFacade.applyOperationEffect
            (ProxyRepository.repo FileRepository.repo) p₂ operation true with ⟨_ | e, p₃⟩
          · rw [hx] at hok
            simp only [Prod.mk.injEq, Except.ok.injEq] at hok
            obtain ⟨ho, hq, _⟩ := hok
            subst ho hq
            have h₂ := inStep_createOperation p' p₂ d operation h hfresh hw
            have hamt : operation.Amount.IsFloat := by
              rw [hop]
              exact hfl
            obtain ⟨acc, hacc, h₃⟩ := applyEffect_inStep p₂ p₃ _ operation true h₂ hamt hx
            have hb : operation.BankAccountID = accountID := by rw [hop]
            simp only at hacc
            rw [hb, hk] at hacc
            cases hacc
            refine ⟨acc₀, rfl, ?_, ht, ?_⟩
            · have h5 : operation =
                  ({ ID := operation.ID, Typ := opType, BankAccountID := accountID,
                     CategoryID := categoryID, Amount := amount, Date := date,
                     Description := TrimSpace description } : Operation) := hop
              exact h5
            · simpa using h₃
          · rw [hx] at hok
            simp at hok
        · rw [hw] at hok
          simp at hok
  · intro hok _
    simp at hok

end FileFacades

section ReferenceLists

variable {α : Type} [HasID α]

theorem mem_of_firstByID (l : List α) (id : String) (a : α) (h : firstByID l id = some a) :
    a ∈ l ∧ HasID.ID a = id := by
  obtain ⟨pre, post, hl, hid, _⟩ := (firstByID_eq_some l id a).1 h
  exact ⟨by rw [hl]; simp, hid⟩

/-- After the replacement the ID reads as the new entity. -/
theorem firstByID_refReplaceFirst_self (l : List α) (a x : α)
    (h : firstByID l (HasID.ID a) = some x) :
    firstByID (refReplaceFirst l a) (HasID.ID a) = some a := by
  induction l with
  | nil => simp [firstByID] at h
  | cons y ys ih =>
    by_cases hy : HasID.ID y = HasID.ID a
    · simp [refReplaceFirst, firstByID, hy]
    · simp only [firstByID, hy, if_false] at h
      simp only [refReplaceFirst, hy, if_false, firstByID]
      exact ih h

/-- The replacement leaves every other ID as it reads. -/
theorem firstByID_refReplaceFirst_ne (l : List α) (a : α) (id : String)
    (h : id ≠ HasID.ID a) : firstByID (refReplaceFirst l a) id = firstByID l id := by
  induction l with
  | nil => rfl
  | cons y ys ih =>
    by_cases hy : HasID.ID y = HasID.ID a
    · have hy' : ¬ HasID.ID y = id := fun h' => h (h'.symm.trans hy)
      have ha : ¬ HasID.ID a = id := fun h' => h h'.symm
      simp [refReplaceFirst, firstByID, hy, hy', ha]
    · simp only [refReplaceFirst, hy, if_false, firstByID]
      by_cases hy' : HasID.ID y = id
      · simp [hy']
      · simp only [hy', if_false]
        exact ih

theorem firstByID_refAppend_self (l : List α) (a : α) (h : HasID.ID a ∉ ids l) :
    firstByID (refAppend l a) (HasID.ID a) = some a := by
  unfold refAppend
  induction l with
  | nil => simp [firstByID]
  | cons y ys ih =>
    have hy : ¬ HasID.ID y = HasID.ID a := by
      intro h'
      exact h (by simp [ids, h'])
    have hys : HasID.ID a ∉ ids ys := by
      intro h'
      exact h (by simp only [ids, List.map_cons, List.mem_cons]; exact Or.inr h')
    simp only [List.cons_append, firstByID, hy, if_false]
    exact ih hys

/-- Removing the entity appended under an unused ID gives the list back. -/
theorem refRemoveFirst_refAppend (l : List α) (a : α) (h : HasID.ID a ∉ ids l) :
    refRemoveFirst (refAppend l a) (HasID.ID a) = l := by
  unfold refAppend
  induction l with
  | nil => simp [refRemoveFirst]
  | cons y ys ih =>
    have hy : ¬ HasID.ID y = HasID.ID a := by
      intro h'
      exact h (by simp [ids, h'])
    have hys : HasID.ID a ∉ ids ys := by
      intro h'
      exact h (by simp only [ids, List.map_cons, List.mem_cons]; exact Or.inr h')
    simp only [List.cons_append, refRemoveFirst, hy, if_false]
    exact congrArg (y :: ·) (ih hys)

/-- Replacing an entity and then putting the old entity back gives the list
back. -/
theorem refReplaceFirst_back (l : List α) (a x : α) (hid : HasID.ID a = HasID.ID x)
    (h : firstByID l (HasID.ID x) = some x) :
    refReplaceFirst (refReplaceFirst l a) x = l := by
  induction l with
  | nil => rfl
  | cons y ys ih =>
    by_cases hy : HasID.ID y = HasID.ID x
    · simp only [firstByID, hy, if_true, Option.some.injEq] at h
      subst h
      simp [refReplaceFirst, hid]
    · simp only [firstByID, hy, if_false] at h
      have hy' : ¬ HasID.ID y = HasID.ID a := by rw [hid]; exact hy
      simp only [refReplaceFirst, hy', hy, if_false]
      rw [ih h]

end ReferenceLists

section FileFacadesMore

variable {γ : Type}

/-- The loop of `RecalculateBalance` is the running total of the effects on the
account, in the order of the list. -/
theorem recalculated_effects (id : String) (ops : List Operation) :
    AccountFacade.recalculated id ops = total (effectsOn id ops) := by
  unfold AccountFacade.recalculated total
  generalize Float64.finite 0 = init
  induction ops generalizing init with
  | nil => rfl
  | cons op rest ih =>
    rw [List.foldl_cons, ih]
    unfold effectsOn
    rw [List.filter_cons]
    by_cases hid : op.BankAccountID = id
    · by_cases hi : op.Typ = OperationTypeIncome
      · simp [hid, hi, Operation.effect]
      · by_cases he : op.Typ = OperationTypeExpense
        · have hne : ¬ OperationTypeExpense = OperationTypeIncome := by decide
          simp [hid, hi, he, hne, Operation.effect, Float64.sub]
        · simp [hid, hi, he]
    · simp [hid]

/-- In step, a `DeleteOperation` that returns nil has removed the operation from
the file and replaced its account by the account with the effect taken from the
balance. -/
theorem deleteOperation_inStep (p q : ProxyRepository Disk) (d : StorageData) (id : String)
    (h : InStep p d) (hst : ∀ o, firstByID d.Operations id = some o → o.Amount.IsFloat)
    (hok : OperationFacade.DeleteOperation (ProxyRepository.repo FileRepository.repo) p id =
      (none, q)) :
    ∃ op acc, firstByID d.Operations id = some op ∧
      firstByID d.Accounts op.BankAccountID = some acc ∧
      InStep q { d with
        Accounts := refReplaceFirst d.Accounts
          { acc with Balance := acc.Balance.sub op.effect }
        Operations := refRemoveFirst d.Operations id } := by
  unfold OperationFacade.DeleteOperation at hok
  rw [inStep_getOperation p d h] at hok
  cases hk : firstByID d.Operations id with
  | none =>
    rw [hk] at hok
    simp at hok
  | some op =>
    rw [hk] at hok
    simp only at hok
    rcases hw : (ProxyRepository.repo FileRepository.repo).DeleteOperation p id
      with ⟨_ | e, p₂⟩
    · rw [hw] at hok
      simp only at hok
      have h₂ := inStep_deleteOperation p p₂ d id h hw
      obtain ⟨acc, hacc, h₃⟩ := applyEffect_inStep p₂ q _ op false h₂
        (hst op hk) hok
      refine ⟨op, acc, rfl, hacc, ?_⟩
      simpa using h₃
    · rw [hw] at hok
      simp at hok

/-- In step, an `UpdateOperation` that returns nil has taken the effect of the
previous operation from its account, replaced the operation in the file by the
new one under the old ID, and added the effect of the new one to the account
named in the call. -/
theorem updateOperation_inStep (f : DomainFactory γ) (p q : ProxyRepository Disk)
    (d : StorageData) (g g' : γ) (id : String) (opType : OperationType)
    (accountID categoryID : String) (amount : Float64) (date : Time) (description : String)
    (h : InStep p d) (hfl : amount.IsFloat)
    (hst : ∀ o, firstByID d.Operations id = some o → o.Amount.IsFloat)
    (hok : OperationFacade.UpdateOperation (ProxyRepository.repo FileRepository.repo) f p g
      id opType accountID categoryID amount date description = (none, q, g')) :
    ∃ prev accP accN, firstByID d.Operations id = some prev ∧
      firstByID d.Accounts prev.BankAccountID = some accP ∧
      firstByID (refReplaceFirst d.Accounts
        { accP with Balance := accP.Balance.sub prev.effect }) accountID = some accN ∧
      (opType = OperationTypeIncome ∨ opType = OperationTypeExpense) ∧
      InStep q { d with
        Accounts := refReplaceFirst
          (refReplaceFirst d.Accounts { accP with Balance := accP.Balance.sub prev.effect })
          { accN with
            Balance := accN.Balance.add
              (Operation.effect
                ⟨id, opType, accountID, amount, date, TrimSpace description, categoryID⟩) }
        Operations := refReplaceFirst d.Operations
          ⟨id, opType, accountID, amount, date, TrimSpace description, categoryID⟩ } := by
  unfold OperationFacade.UpdateOperation at hok
  rw [inStep_getOperation p d h] at hok
  cases hk : firstByID d.Operations id with
  | none =>
    rw [hk] at hok
    simp at hok
  | some prev =>
    rw [hk] at hok
    simp only at hok
    have hcat := ensureCategory_inStep p d h categoryID opType
    revert hok hcat
    rcases OperationFacade.ensureCategoryMatchesOperation
      (ProxyRepository.repo FileRepository.repo) p categoryID opType with ⟨_ | e, p'⟩
    · intro hok hcat
      simp only at hcat
      subst hcat
      simp only at hok
      rw [inStep_getAccount p' d h] at hok
      cases hka : firstByID d.Accounts accountID with
      | none =>
        rw [hka] at hok
        simp at hok
      | some acc₀ =>
        rw [hka] at hok
        simp only at hok
        rcases hx : OperationFacade.applyOperationEffect
          (ProxyRepository.repo FileRepository.repo) p' prev false with ⟨_ | e, p₂⟩
        · rw [hx] at hok
          simp only at hok
          obtain ⟨accP, haccP, h₂⟩ := applyEffect_inStep p' p₂ d prev false h
            (hst prev hk) hx
          rcases hf : f.CreateOperation g opType accountID categoryID amount date description
            with ⟨_ | updated, g₁⟩
          · rw [hf] at hok
            simp at hok
          · rw [hf] at hok
            simp only at hok
            obtain ⟨_, hop, ht, _, _⟩ := createOperation_ok f g opType accountID categoryID
              amount date description updated (by rw [hf])
            have hnew : ({ updated with ID := id } : Operation) =
                ⟨id, opType, accountID, amount, date, TrimSpace description, categoryID⟩ := by
              rw [hop]
            rw [hnew] at hok
            rcases hw : (ProxyRepository.repo FileRepository.repo).UpdateOperation p₂
              ⟨id, opType, accountID, amount, date, TrimSpace description, categoryID⟩
              with ⟨_ | e, p₃⟩
            · rw [hw] at hok
              simp only at hok
              have h₃ := inStep_updateOperation p₂ p₃ _ _ h₂ hw
              rcases hy : OperationFacade.applyOperationEffect
                (ProxyRepository.repo FileRepository.repo) p₃
                ⟨id, opType, accountID, amount, date, TrimSpace description, categoryID⟩ true
                with ⟨r, p₄⟩
              rw [hy] at hok
              simp only [Prod.mk.injEq] at hok
              obtain ⟨hr, hq, _⟩ := hok
              subst hr hq
              obtain ⟨accN, haccN, h₄⟩ := applyEffect_inStep p₃ p₄ _ _ true h₃ hfl hy
              simp only at haccN
              refine ⟨prev, accP, accN, rfl, haccP, ?_, ht, ?_⟩
              · simpa using haccN
              · simpa using h₄
            · rw [hw] at hok
              simp at hok
        · rw [hx] at hok
          simp at hok
    · intro hok _
      simp at hok

/-- In step, a `RecalculateBalance` that returns nil has replaced the account in
the file by the account with the running total of the effects of the stored
operations on it as its balance. -/
theorem recalculate_inStep (p q : ProxyRepository Disk) (d : StorageData) (id : String)
    (h : InStep p d)
    (hok : AccountFacade.RecalculateBalance (ProxyRepository.repo FileRepository.repo) p id =
      (none, q)) :
    ∃ acc, firstByID d.Accounts id = some acc ∧
      InStep q { d with
        Accounts := refReplaceFirst d.Accounts
          { acc with Balance := total (effectsOn id d.Operations) } } := by
  unfold AccountFacade.RecalculateBalance at hok
  rw [inStep_getAccount p d h] at hok
  cases hk : firstByID d.Accounts id with
  | none =>
    rw [hk] at hok
    simp at hok
  | some acc =>
    rw [hk] at hok
    simp only at hok
    rw [inStep_listOperations p d h] at hok
    simp only at hok
    rw [recalculated_effects] at hok
    exact ⟨acc, rfl, inStep_updateAccount p q d _ h hok⟩

end FileFacadesMore

section ThroughGuard

variable {σ γ : Type}

/-- Each facade method starts with a read, so on a proxy that has not loaded yet
it does what it does on the proxy the load guard leaves. -/
theorem addOperation_through_guard (b : Repository σ) (f : DomainFactory γ)
    (p p₁ : ProxyRepository σ) (g : γ) (opType : OperationType)
    (accountID categoryID : String) (amount : Float64) (date : Time) (description : String)
    (h : ProxyRepository.ensureLoaded b p = (none, p₁))
    (h₁ : ProxyRepository.ensureLoaded b p₁ = (none, p₁)) :
    OperationFacade.AddOperation (ProxyRepository.repo b) f p g opType accountID categoryID
      amount date description =
    OperationFacade.AddOperation (ProxyRepository.repo b) f p₁ g opType accountID categoryID
      amount date description := by
  unfold OperationFacade.AddOperation OperationFacade.ensureCategoryMatchesOperation
  rw [(reads_after_guard b p p₁ h h₁).2.1 categoryID]

theorem updateOperation_through_guard (b : Repository σ) (f : DomainFactory γ)
    (p p₁ : ProxyRepository σ) (g : γ) (id : String) (opType : OperationType)
    (accountID categoryID : String) (amount : Float64) (date : Time) (description : String)
    (h : ProxyRepository.ensureLoaded b p = (none, p₁))
    (h₁ : ProxyRepository.ensureLoaded b p₁ = (none, p₁)) :
    OperationFacade.UpdateOperation (ProxyRepository.repo b) f p g id opType accountID
      categoryID amount date description =
    OperationFacade.UpdateOperation (ProxyRepository.repo b) f p₁ g id opType accountID
      categoryID amount date description := by
  unfold OperationFacade.UpdateOperation
  rw [(reads_after_guard b p p₁ h h₁).2.2.1 id]

theorem deleteOperation_through_guard (b : Repository σ) (p p₁ : ProxyRepository σ)
    (id : String) (h : ProxyRepository.ensureLoaded b p = (none, p₁))
    (h₁ : ProxyRepository.ensureLoaded b p₁ = (none, p₁)) :
    OperationFacade.DeleteOperation (ProxyRepository.repo b) p id =
    OperationFacade.DeleteOperation (ProxyRepository.repo b) p₁ id := by
  unfold OperationFacade.DeleteOperation
  rw [(reads_after_guard b p p₁ h h₁).2.2.1 id]

theorem recalculate_through_guard (b : Repository σ) (p p₁ : ProxyRepository σ)
    (id : String) (h : ProxyRepository.ensureLoaded b p = (none, p₁))
    (h₁ : ProxyRepository.ensureLoaded b p₁ = (none, p₁)) :
    AccountFacade.RecalculateBalance (ProxyRepository.repo b) p id =
    AccountFacade.RecalculateBalance (ProxyRepository.repo b) p₁ id := by
  unfold AccountFacade.RecalculateBalance
  rw [(reads_after_guard b p p₁ h h₁).1 id]

theorem deleteAccount_through_guard (b : Repository σ) (p p₁ : ProxyRepository σ)
    (id : String) (h : ProxyRepository.ensureLoaded b p = (none, p₁))
    (h₁ : ProxyRepository.ensureLoaded b p₁ = (none, p₁)) :
    AccountFacade.DeleteAccount (ProxyRepository.repo b) p id =
    AccountFacade.DeleteAccount (ProxyRepository.repo b) p₁ id := by
  unfold AccountFacade.DeleteAccount
  rw [(reads_after_guard b p p₁ h h₁).2.2.2]

/-- Adding the effect of an operation: its amount added for an income, taken
away for an expense. -/
theorem add_effect (balance : Float64) (op : Operation) :
    balance.add op.effect =
      if op.Typ = OperationTypeIncome then balance.add op.Amount
      else balance.sub op.Amount := by
  unfold Operation.effect
  by_cases h : op.Typ = OperationTypeIncome
  · rw [if_pos h, if_pos h]
  · rw [if_neg h, if_neg h]
    rfl

end ThroughGuard

section FileWritesSucceed

/-- In step, a `Create*`, `Update*` or `Delete*` whose mutation applies and whose
value can be encoded returns nil. -/
theorem inStep_write_ok (p : ProxyRepository Disk) (d d₁ : StorageData) (c : Call)
    (h : InStep p d) (hc : c.isCUD = true) (hf : c.freshAt d = true)
    (he : c.encodes = true) (hm : FileRepository.mutation c d = .ok d₁) :
    ((ProxyRepository.repo FileRepository.repo).call p c).1 = .done none := by
  obtain ⟨hs, hy, hp⟩ := inStep_sound p d h
  have hw : c.isWrite = true := by
    cases c <;> simp [Call.isCUD, Call.isWrite] at hc ⊢
  have hf' : c.freshAt (p.base.persisted.getD {}) = true := by
    rw [hp]
    exact hf
  rw [synced_step_reply p c hs hy hw hf' he]
  obtain ⟨ho, hcr, hwr, _, _, hen, _⟩ := h
  rw [store_write_of_sound p.base d c ho hcr hwr hp hen hw he, hm]
  rfl

/-- In step, a `Create*`, `Update*` or `Delete*` whose mutation fails returns
the error of the mutation and leaves the file and the cache as they are. -/
theorem inStep_write_error (p : ProxyRepository Disk) (d : StorageData) (c : Call)
    (e : Error) (h : InStep p d) (hc : c.isCUD = true)
    (hm : FileRepository.mutation c d = .error e) :
    (ProxyRepository.repo FileRepository.repo).call p c = (.done (some e), p) := by
  obtain ⟨ho, _, _, hp, _⟩ := h
  have hw : c.isWrite = true := by
    cases c <;> simp [Call.isCUD, Call.isWrite] at hc ⊢
  have hl := loadUnsafe_of_persisted p.base d ho hp
  have hb : FileRepository.repo.call p.base c = (.done (some e), p.base) := by
    rw [store_call_cud p.base c hc, withData_of_fn_error p.base d _ e hl hm]
  rw [proxy_write_of_base_error FileRepository.repo p c e hw (by rw [hb]; rfl), hb]

end FileWritesSucceed

section RemoveFirst

variable {α : Type} [HasID α]

theorem not_mem_ids_refRemoveFirst (l : List α) (id : String) (h : (ids l).Nodup) :
    id ∉ ids (refRemoveFirst l id) := by
  induction l with
  | nil => simp [refRemoveFirst, ids]
  | cons y ys ih =>
    have hn : HasID.ID y ∉ ids ys ∧ (ids ys).Nodup := by
      simpa [ids] using h
    by_cases hy : HasID.ID y = id
    · simp only [refRemoveFirst, hy, if_true]
      rw [← hy]
      exact hn.1
    · simp only [refRemoveFirst, hy, if_false, ids, List.map_cons, List.mem_cons, not_or]
      exact ⟨fun h' => hy h'.symm, ih hn.2⟩

theorem firstByID_refRemoveFirst_ne (l : List α) (id id' : String) (h : id' ≠ id) :
    firstByID (refRemoveFirst l id) id' = firstByID l id' := by
  induction l with
  | nil => rfl
  | cons y ys ih =>
    by_cases hy : HasID.ID y = id
    · have hy' : ¬ HasID.ID y = id' := fun h' => h (h'.symm.trans hy)
      have hne : ¬ id = id' := fun h' => h h'.symm
      simp [refRemoveFirst, firstByID, hy, hne]
    · simp only [refRemoveFirst, hy, if_false, firstByID]
      by_cases hy' : HasID.ID y = id'
      · simp [hy']
      · simp only [hy', if_false]
        exact ih

end RemoveFirst

section LoadFromStore

theorem GoMap.assign_values {V : Type} (m : GoMap V) (k : String) (v a : V)
    (h : a ∈ (m.assign k v).values) : a ∈ m.values ∨ a = v := by
  unfold GoMap.assign at h
  unfold GoMap.values at h ⊢
  split at h
  · obtain ⟨e, he, rfl⟩ := List.mem_map.1 h
    obtain ⟨e', he', rfl⟩ := List.mem_map.1 he
    by_cases hk : e'.1 = k
    · right
      simp [hk]
    · left
      simp only [hk, if_false]
      exact List.mem_map.2 ⟨e', he', rfl⟩
  · rw [List.map_append, List.mem_append] at h
    rcases h with h | h
    · exact Or.inl h
    · right
      simpa using h

theorem GoMap.assign_keys {V : Type} (m : GoMap V) (k : String) (v : V) (k' : String) :
    k' ∈ (m.assign k v).map Prod.fst ↔ k' ∈ m.map Prod.fst ∨ k' = k := by
  unfold GoMap.assign
  split
  · rename_i hany
    have hmap : (m.map (fun e => if e.1 = k then (k, v) else e)).map Prod.fst =
        m.map Prod.fst := by
      rw [List.map_map]
      apply List.map_congr_left
      intro e _
      by_cases he : e.1 = k <;> simp [he]
    rw [hmap]
    constructor
    · exact Or.inl
    · rintro (h | h)
      · exact h
      · obtain ⟨e, he, hk⟩ := List.any_eq_true.1 hany
        rw [h]
        exact List.mem_map.2 ⟨e, he, by simpa using hk⟩
  · rw [List.map_append, List.mem_append]
    simp

variable {V : Type} [HasID V]

theorem GoMap.assignAll_values (l : List V) (m : GoMap V) (a : V)
    (h : a ∈ (m.assignAll l).values) : a ∈ m.values ∨ a ∈ l := by
  induction l generalizing m with
  | nil => exact Or.inl h
  | cons x xs ih =>
    rcases ih (m.assign (HasID.ID x) x) h with h' | h'
    · rcases GoMap.assign_values m _ x a h' with h'' | h''
      · exact Or.inl h''
      · exact Or.inr (by rw [h'']; exact List.mem_cons_self _ _)
    · exact Or.inr (List.mem_cons_of_mem _ h')

theorem GoMap.assignAll_keys (l : List V) (m : GoMap V) (k : String) :
    k ∈ (m.assignAll l).map Prod.fst ↔ k ∈ m.map Prod.fst ∨ k ∈ ids l := by
  induction l generalizing m with
  | nil => simp [GoMap.assignAll, ids]
  | cons x xs ih =>
    have := ih (m.assign (HasID.ID x) x)
    unfold GoMap.assignAll at this ⊢
    rw [List.foldl_cons, this, GoMap.assign_keys]
    simp only [ids, List.map_cons, List.mem_cons]
    tauto

theorem ids_values_eq_keys (m : GoMap V) (hk : m.KeysAreIDs) :
    ids m.values = m.map Prod.fst := by
  unfold ids GoMap.values
  rw [List.map_map]
  apply List.map_congr_left
  intro e he
  exact (hk e he).symm

/-- A lookup in the map the load builds from the list `l` of the store: it fails
exactly when `l` holds no entity with the ID, and what it finds is an entity of
`l` with the ID. -/
theorem loaded_map_outcome (l : List V) (id kind : String) :
    ((match (GoMap.assignAll [] l).lookup id with
      | none => Except.error (notFound kind id)
      | some a => Except.ok a) = Except.error (notFound kind id) ↔ id ∉ ids l) ∧
    (∀ a : V, (match (GoMap.assignAll [] l).lookup id with
      | none => Except.error (notFound kind id)
      | some a => Except.ok a) = Except.ok a → HasID.ID a = id ∧ a ∈ l) ∧
    (id ∈ ids l → ∃ a : V, (match (GoMap.assignAll [] l).lookup id with
      | none => Except.error (notFound kind id)
      | some a => Except.ok a) = Except.ok a) := by
  have hinv : (GoMap.assignAll ([] : GoMap V) l).KeysAreIDs :=
    GoMap.assignAll_keysAreIDs l [] GoMap.keysAreIDs_nil
  have hkeys : ∀ k, k ∈ ids (GoMap.assignAll ([] : GoMap V) l).values ↔ k ∈ ids l := by
    intro k
    rw [ids_values_eq_keys _ hinv, GoMap.assignAll_keys]
    simp
  obtain ⟨h1, h2, h3⟩ := GoMap.get_outcome (GoMap.assignAll ([] : GoMap V) l) id kind hinv
  refine ⟨?_, ?_, ?_⟩
  · rw [h1, hkeys]
  · intro a ha
    obtain ⟨hid, hmem⟩ := h2 a ha
    refine ⟨hid, ?_⟩
    rcases GoMap.assignAll_values l [] a hmem with h | h
    · simp [GoMap.values] at h
    · exact h
  · intro hmem
    exact h3 ((hkeys id).2 hmem)

/-- The first pass of the load guard over a store whose three `List*` succeed
fills the maps from the lists. -/
theorem ensureLoaded_of_lists {σ : Type} (b : Repository σ) (p : ProxyRepository σ)
    (accounts : List BankAccount) (categories : List Category) (operations : List Operation)
    (s₁ s₂ s₃ : σ) (hlo : p.loadOnce = false) (hle : p.loadErr = none)
    (ha : b.ListAccounts p.base = (.ok accounts, s₁))
    (hc : b.ListCategories s₁ = (.ok categories, s₂))
    (ho : b.ListOperations s₂ = (.ok operations, s₃)) :
    ProxyRepository.ensureLoaded b p =
      (none, { p with
        base := s₃
        loadOnce := true
        accounts := GoMap.assignAll [] accounts
        categories := GoMap.assignAll [] categories
        operations := GoMap.assignAll [] operations }) := by
  simp [ProxyRepository.ensureLoaded, hlo, ProxyRepository.loadBody, ha, hc, ho, hle]

end LoadFromStore

section Claims

variable {σ : Type}

/-- C1: when the wrapped store's write (Create*, Update*, Delete*, ReplaceAll)
returns an error, the proxy's write returns that error and leaves the load
guard, the load error and the three cached maps as they were; hence on a proxy
whose load guard has run (as it has after any earlier List call) each List call
returns after the failed write what it returned before it. -/
theorem proxy_failed_store_write_keeps_cache (b : Repository σ) (p : ProxyRepository σ)
    (c : Call) (e : Error) (hw : c.isWrite = true)
    (hfail : (b.call p.base c).1.err = some e) :
    ((ProxyRepository.repo b).call p c).1.err = some e ∧
    ((ProxyRepository.repo b).call p c).2.accounts = p.accounts ∧
    ((ProxyRepository.repo b).call p c).2.categories = p.categories ∧
    ((ProxyRepository.repo b).call p c).2.operations = p.operations ∧
    ((ProxyRepository.repo b).call p c).2.loadOnce = p.loadOnce ∧
    ((ProxyRepository.repo b).call p c).2.loadErr = p.loadErr ∧
    (∀ q : Call, q.isList = true → p.loadOnce = true →
      ((ProxyRepository.repo b).call ((ProxyRepository.repo b).call p c).2 q).1 =
        ((ProxyRepository.repo b).call p q).1) ∧
    (∀ (p₀ : ProxyRepository σ) (q : Call), q.isList = true →
      ((ProxyRepository.repo b).call p₀ q).2.loadOnce = true) := by
  rw [proxy_write_of_base_error b p c e hw hfail]
  refine ⟨rfl, rfl, rfl, rfl, rfl, rfl, ?_, ?_⟩
  · intro q hq hl
    have h₁ := list_reply_of_loadOnce b { p with base := (b.call p.base c).2 } q hq hl
    have h₂ := list_reply_of_loadOnce b p q hq hl
    exact h₁.trans h₂.symm
  · intro p₀ q hq
    cases q <;> simp [Call.isList] at hq <;>
      simp only [Repository.call, ProxyRepository.repo, ProxyRepository.ListAccounts,
        ProxyRepository.ListCategories, ProxyRepository.ListOperations] <;>
      (have h := ensureLoaded_loadOnce b p₀
       split <;> simp_all)

/-- Witness of C1: on a disk that refuses `os.Create`, `CreateAccount` on a loaded
proxy returns the store's error and the cached accounts stay as they were. -/
theorem proxy_failed_store_write_keeps_cache_witness :
    (Call.createAccount sampleNaN).isWrite = true ∧
    (FileRepository.repo.call
      (ProxyRepository.ListAccounts FileRepository.repo (NewProxyRepository readOnlyDisk)).2.base
      (.createAccount sampleNaN)).1.err =
      some (.wrap "create storage file" (.text "permission denied")) ∧
    ((ProxyRepository.repo FileRepository.repo).call
      (ProxyRepository.ListAccounts FileRepository.repo (NewProxyRepository readOnlyDisk)).2
      (.createAccount sampleNaN)).1.err =
      some (.wrap "create storage file" (.text "permission denied")) ∧
    ((ProxyRepository.repo FileRepository.repo).call
      (ProxyRepository.ListAccounts FileRepository.repo (NewProxyRepository readOnlyDisk)).2
      (.createAccount sampleNaN)).2.accounts =
      (ProxyRepository.ListAccounts FileRepository.repo
        (NewProxyRepository readOnlyDisk)).2.accounts :=
  ⟨by decide, by decide,
    (proxy_failed_store_write_keeps_cache FileRepository.repo
      (ProxyRepository.ListAccounts FileRepository.repo (NewProxyRepository readOnlyDisk)).2
      (.createAccount sampleNaN) (.wrap "create storage file" (.text "permission denied"))
      (by decide) (by decide)).1,
    (proxy_failed_store_write_keeps_cache FileRepository.repo
      (ProxyRepository.ListAccounts FileRepository.repo (NewProxyRepository readOnlyDisk)).2
      (.createAccount sampleNaN) (.wrap "create storage file" (.text "permission denied"))
      (by decide) (by decide)).2.1⟩

/-- C2 (the claim as stated fails): two `CreateAccount` calls under the same ID
`a1`, applied to a fresh proxy over an empty store and replayed on an empty
store: the proxy's map keeps one entry per ID and lists one account, the store
lists both. -/
theorem cache_diverges_from_store_on_duplicate_id :
    (ProxyRepository.ListAccounts FileRepository.repo
      ((ProxyRepository.repo FileRepository.repo).run (NewProxyRepository emptyDisk)
        [.createAccount sampleAccount, .createAccount sampleTwin])).1 = .ok [sampleTwin] ∧
    (FileRepository.ListAccounts
      (FileRepository.repo.run emptyDisk
        [.createAccount sampleAccount, .createAccount sampleTwin])).1 =
      .ok [sampleAccount, sampleTwin] ∧
    ¬ List.Perm [sampleTwin] [sampleAccount, sampleTwin] :=
  ⟨by decide, by decide, fun h => by simpa using h.length_eq⟩

/-- C2 (amended): on a disk without I/O faults whose file holds a snapshot with
unique IDs and encodable values, for every sequence of `Create*`, `Update*` and
`Delete*` calls in which each `Create*` brings an ID its collection does not
hold at that moment and every value brought is encodable, the collections the
proxy's `List*` return after the sequence was applied to a fresh proxy are, up
to order, the collections the store's `List*` return after the same sequence was
replayed on a store with the same initial content. -/
theorem cache_matches_store_on_unique_ids (r : Disk) (calls : List Call) (hr : r.Sound)
    (hcud : ∀ c ∈ calls, c.isCUD = true) (ha : admissible r calls = true) :
    ∃ la la' lc lc' lo lo',
      (ProxyRepository.ListAccounts FileRepository.repo
        ((ProxyRepository.repo FileRepository.repo).run (NewProxyRepository r) calls)).1 =
        .ok la' ∧
      (FileRepository.ListAccounts (FileRepository.repo.run r calls)).1 = .ok la ∧
      la'.Perm la ∧
      (ProxyRepository.ListCategories FileRepository.repo
        ((ProxyRepository.repo FileRepository.repo).run (NewProxyRepository r) calls)).1 =
        .ok lc' ∧
      (FileRepository.ListCategories (FileRepository.repo.run r calls)).1 = .ok lc ∧
      lc'.Perm lc ∧
      (ProxyRepository.ListOperations FileRepository.repo
        ((ProxyRepository.repo FileRepository.repo).run (NewProxyRepository r) calls)).1 =
        .ok lo' ∧
      (FileRepository.ListOperations (FileRepository.repo.run r calls)).1 = .ok lo ∧
      lo'.Perm lo := by
  have hws : ∀ c ∈ calls, c.isWrite = true := by
    intro c hc
    have := hcud c hc
    cases c <;> first | rfl | simp [Call.isCUD, Call.isWrite] at this
  obtain ⟨hb, hs, hy⟩ :=
    synced_run calls (NewProxyRepository r) hr (Or.inl ⟨rfl, rfl⟩) hws ha
  obtain ⟨d, _, hA, hC, hO, hA', hC', hO'⟩ := synced_lists _ hs hy
  rw [hb] at hA' hC' hO'
  exact ⟨d.Accounts, d.Accounts, d.Categories, d.Categories, d.Operations, d.Operations,
    hA, hA', List.Perm.refl _, hC, hC', List.Perm.refl _, hO, hO', List.Perm.refl _⟩

/-- Witness of C2 (amended): the sample calls on the sample file. -/
theorem cache_matches_store_on_unique_ids_witness :
    sampleDisk.Sound ∧ (∀ c ∈ sampleCalls, c.isCUD = true) ∧
    admissible sampleDisk sampleCalls = true ∧
    ∃ la la' lc lc' lo lo',
      (ProxyRepository.ListAccounts FileRepository.repo
        ((ProxyRepository.repo FileRepository.repo).run (NewProxyRepository sampleDisk)
          sampleCalls)).1 = .ok la' ∧
      (FileRepository.ListAccounts (FileRepository.repo.run sampleDisk sampleCalls)).1 =
        .ok la ∧
      la'.Perm la ∧
      (ProxyRepository.ListCategories FileRepository.repo
        ((ProxyRepository.repo FileRepository.repo).run (NewProxyRepository sampleDisk)
          sampleCalls)).1 = .ok lc' ∧
      (FileRepository.ListCategories (FileRepository.repo.run sampleDisk sampleCalls)).1 =
        .ok lc ∧
      lc'.Perm lc ∧
      (ProxyRepository.ListOperations FileRepository.repo
        ((ProxyRepository.repo FileRepository.repo).run (NewProxyRepository sampleDisk)
          sampleCalls)).1 = .ok lo' ∧
      (FileRepository.ListOperations (FileRepository.repo.run sampleDisk sampleCalls)).1 =
        .ok lo ∧
      lo'.Perm lo :=
  ⟨⟨rfl, rfl, rfl, sampleData, rfl, by decide, by decide⟩, by decide, by decide,
    cache_matches_store_on_unique_ids sampleDisk sampleCalls
      ⟨rfl, rfl, rfl, sampleData, rfl, by decide, by decide⟩ (by decide) (by decide)⟩

/-- C3 (as the code behaves): on a proxy whose lazy load failed because the file
did not decode, `ReplaceAll` returns the load error although the wrapped store
has already replaced the file with the new snapshot. -/
theorem proxy_replaceAll_after_failed_load_persists :
    (ProxyRepository.ListAccounts FileRepository.repo (NewProxyRepository corruptDisk)).1 =
      .error (.wrap "load accounts" (.wrap "decode storage" (.text "unexpected EOF"))) ∧
    (ProxyRepository.ReplaceAll FileRepository.repo
      (ProxyRepository.ListAccounts FileRepository.repo (NewProxyRepository corruptDisk)).2
      sampleData).1 =
      some (.wrap "load accounts" (.wrap "decode storage" (.text "unexpected EOF"))) ∧
    (ProxyRepository.ListAccounts FileRepository.repo
      (NewProxyRepository corruptDisk)).2.base.persisted = none ∧
    (ProxyRepository.ReplaceAll FileRepository.repo
      (ProxyRepository.ListAccounts FileRepository.repo (NewProxyRepository corruptDisk)).2
      sampleData).2.base.persisted = some sampleData := by
  decide

/-- C4 (as the code behaves): creating an account with a NaN balance fails in the
save step after `os.Create` has truncated the file, so the file that held
`sampleData` is left empty and the next load returns the empty snapshot. -/
theorem save_failure_truncates_file :
    FileRepository.load sampleDisk = .ok sampleData ∧
    (FileRepository.CreateAccount sampleDisk sampleNaN).1 =
      some (.wrap "encode storage" (.text "json: unsupported value")) ∧
    (FileRepository.CreateAccount sampleDisk sampleNaN).2.file = some .empty ∧
    FileRepository.load (FileRepository.CreateAccount sampleDisk sampleNaN).2 = .ok {} := by
  decide

/-- C5 (as the code behaves): after the lazy load failed with `e`, a write whose
delegation to the store fails returns the store's error instead of `e`: on the
still corrupt file `CreateAccount` returns the bare decode error, and once a
`ReplaceAll` has repaired the file `UpdateAccount` of an absent ID returns a
not-found error. -/
theorem proxy_write_after_failed_load_returns_store_error :
    (ProxyRepository.ListAccounts FileRepository.repo (NewProxyRepository corruptDisk)).1 =
      .error (.wrap "load accounts" (.wrap "decode storage" (.text "unexpected EOF"))) ∧
    (ProxyRepository.CreateAccount FileRepository.repo
      (ProxyRepository.ListAccounts FileRepository.repo (NewProxyRepository corruptDisk)).2
      sampleAccount).1 =
      some (.wrap "decode storage" (.text "unexpected EOF")) ∧
    (ProxyRepository.UpdateAccount FileRepository.repo
      (ProxyRepository.ReplaceAll FileRepository.repo
        (ProxyRepository.ListAccounts FileRepository.repo (NewProxyRepository corruptDisk)).2
        sampleData).2
      sampleNaN).1 = some (notFound "account" "a2") := by
  decide

/-- C6: over any sequence of calls on a fresh proxy, the wrapped store's
`ListAccounts`, `ListCategories` and `ListOperations` are each called at most
once, and not at all while the load guard has not run; the load is attempted by
the very call that runs the guard; once the guard has run, whatever the load's
outcome, a later call adds no `List*` call to the store's journal, and `List*`
and `Get*` leave the store's state and journal untouched. -/
theorem lazy_load_runs_at_most_once {σ : Type} (b : Repository σ) (s : σ)
    (calls : List Call) :
    ((journalled b s calls).base.2.count .listAccounts ≤ 1 ∧
      (journalled b s calls).base.2.count .listCategories ≤ 1 ∧
      (journalled b s calls).base.2.count .listOperations ≤ 1) ∧
    ((journalled b s calls).loadOnce = false →
      ∀ q ∈ (journalled b s calls).base.2, q.isList = false) ∧
    (∀ c : Call, (journalled b s calls).loadOnce = false →
      ((journalled b s (calls ++ [c])).loadOnce = true ↔
        .listAccounts ∈ (journalled b s (calls ++ [c])).base.2)) ∧
    (∀ c : Call, (journalled b s calls).loadOnce = true →
      (journalled b s (calls ++ [c])).loadOnce = true ∧
      ∃ new, (journalled b s (calls ++ [c])).base.2 =
          (journalled b s calls).base.2 ++ new ∧ ∀ q ∈ new, q.isList = false) ∧
    (∀ c : Call, (journalled b s calls).loadOnce = true → c.isWrite = false →
      (journalled b s (calls ++ [c])).base = (journalled b s calls).base) := by
  have hrun : ∀ c : Call, journalled b s (calls ++ [c]) =
      ((ProxyRepository.repo b.traced).call (journalled b s calls) c).2 := by
    intro c
    unfold journalled
    generalize NewProxyRepository (s, ([] : List Call)) = p
    induction calls generalizing p with
    | nil => rfl
    | cons x xs ih => exact ih _
  have hinv := journal_inv b calls (NewProxyRepository (s, []))
    (fun _ q hq => by cases hq) ⟨by simp [NewProxyRepository], by simp [NewProxyRepository],
      by simp [NewProxyRepository]⟩
  refine ⟨hinv.2, hinv.1, ?_, ?_, ?_⟩
  · intro c hlo
    rw [hrun c]
    obtain ⟨new, hj, _, hf⟩ := journal_step b (journalled b s calls) c
    rw [hj]
    rcases hf hlo with ⟨hl', hn⟩ | ⟨hl', hA, _, _⟩
    · constructor
      · intro h
        rw [hl'] at h
        cases h
      · intro hmem
        rcases List.mem_append.1 hmem with hm | hm
        · have := hinv.1 hlo _ hm
          cases this
        · have := hn _ hm
          cases this
    · constructor
      · intro _
        apply List.mem_append_right
        apply List.count_pos_iff.1
        omega
      · intro _
        exact hl'
  · intro c hlo
    rw [hrun c]
    obtain ⟨new, hj, ht, _⟩ := journal_step b (journalled b s calls) c
    exact ⟨(ht hlo).1, new, hj, (ht hlo).2.1⟩
  · intro c hlo hw
    rw [hrun c]
    obtain ⟨new, _, ht, _⟩ := journal_step b (journalled b s calls) c
    exact (ht hlo).2.2 hw

/-- Witness of C6: a delete, two lists and a get on a fresh proxy over the sample
file reach the store as one `DeleteAccount` followed by the three `List*` calls
of the single load. -/
theorem lazy_load_runs_at_most_once_witness :
    (journalled FileRepository.repo sampleDisk
      [.deleteAccount "a1", .listAccounts, .getAccount "a1", .listOperations]).base.2 =
      [.deleteAccount "a1", .listAccounts, .listCategories, .listOperations] ∧
    (journalled FileRepository.repo sampleDisk
      [.deleteAccount "a1", .listAccounts, .getAccount "a1",
        .listOperations]).base.2.count .listAccounts ≤ 1 :=
  ⟨by decide,
    (lazy_load_runs_at_most_once FileRepository.repo sampleDisk
      [.deleteAccount "a1", .listAccounts, .getAccount "a1", .listOperations]).1.1⟩

/-- C8 (the claim as stated fails): `CreateAccount` appends without looking at
the IDs already stored, so creating a second account under the ID `a1` turns a
file with unique IDs into one that holds `a1` twice. -/
theorem store_create_duplicate_id_breaks_uniqueness :
    sampleDisk.persisted = some sampleData ∧ UniqueIDs sampleData ∧
    (Call.createAccount sampleTwin).isCUD = true ∧
    (FileRepository.repo.call sampleDisk (.createAccount sampleTwin)).1.err = none ∧
    (FileRepository.repo.call sampleDisk (.createAccount sampleTwin)).2.persisted =
      some { sampleData with Accounts := [sampleAccount, sampleTwin] } ∧
    ¬ UniqueIDs { sampleData with Accounts := [sampleAccount, sampleTwin] } := by
  decide

/-- C8 (amended): if the file holds a snapshot with unique IDs, then after any
`Update*` or `Delete*`, and after any `Create*` whose entity brings an ID the
collection does not hold yet, whatever snapshot the file holds again has unique
IDs within each collection (whether the call succeeded or failed, under any I/O
fault), and a call that returns no error leaves such a snapshot. -/
theorem store_keeps_ids_unique (r : Disk) (d : StorageData) (c : Call)
    (hp : r.persisted = some d) (hu : UniqueIDs d) (hc : c.isCUD = true)
    (hf : c.freshAt d = true) :
    (∀ d', (FileRepository.repo.call r c).2.persisted = some d' → UniqueIDs d') ∧
    ((FileRepository.repo.call r c).1.err = none →
      ∃ d', (FileRepository.repo.call r c).2.persisted = some d' ∧ UniqueIDs d') := by
  rw [store_call_cud r c hc]
  simp only [Reply.err]
  have key : ∀ d', (FileRepository.withData r (FileRepository.mutation c)).2.persisted =
      some d' → UniqueIDs d' := by
    intro d' hd'
    cases hl : FileRepository.loadUnsafe r with
    | error e =>
      rw [withData_of_load_error r e _ hl] at hd'
      rw [hp] at hd'
      cases hd'
      exact hu
    | ok d₀ =>
      have hd₀ : d₀ = d := by
        have := persisted_of_loadUnsafe r d₀ hl
        rw [hp] at this
        exact (Option.some.inj this).symm
      subst hd₀
      cases hm : FileRepository.mutation c d₀ with
      | error e =>
        rw [withData_of_fn_error r d₀ _ e hl hm, hp] at hd'
        cases hd'
        exact hu
      | ok d₁ =>
        rw [withData_of_fn_ok r d₀ d₁ _ hl hm] at hd'
        rcases saveUnsafe_persisted r d₁ d' hd' with h | h | h
        · exact h ▸ mutation_uniqueIDs c d₀ d₁ hu hf hm
        · exact h ▸ uniqueIDs_empty
        · rw [hp] at h
          cases h
          exact hu
  refine ⟨key, ?_⟩
  intro hok
  cases hl : FileRepository.loadUnsafe r with
  | error e => rw [withData_of_load_error r e _ hl] at hok; cases hok
  | ok d₀ =>
    cases hm : FileRepository.mutation c d₀ with
    | error e => rw [withData_of_fn_error r d₀ _ e hl hm] at hok; cases hok
    | ok d₁ =>
      rw [withData_of_fn_ok r d₀ d₁ _ hl hm] at hok
      have hs := saveUnsafe_ok r d₁ hok
      rw [← withData_of_fn_ok r d₀ d₁ _ hl hm] at hs
      exact ⟨d₁, hs, key d₁ hs⟩

/-- Witness of C8 (amended): updating the account `a1` of the sample file. -/
theorem store_keeps_ids_unique_witness :
    sampleDisk.persisted = some sampleData ∧ UniqueIDs sampleData ∧
    ∃ d', (FileRepository.repo.call sampleDisk (.updateAccount sampleTwin)).2.persisted =
      some d' ∧ UniqueIDs d' :=
  ⟨by decide, by decide,
    (store_keeps_ids_unique sampleDisk sampleData (.updateAccount sampleTwin)
      (by decide) (by decide) (by decide) (by decide)).2 (by decide)⟩

/-- C10: on a file that loads, `Update*` of an entity and `Delete*` of an ID that
the relevant collection does not hold return the not-found error and leave the
disk, hence the file with all its accounts, categories and operations, exactly
as it was. -/
theorem store_update_delete_absent_id (r : Disk) (d : StorageData)
    (hl : FileRepository.loadUnsafe r = .ok d) :
    (∀ a : BankAccount, a.ID ∉ ids d.Accounts →
      FileRepository.UpdateAccount r a = (some (notFound "account" a.ID), r)) ∧
    (∀ id : String, id ∉ ids d.Accounts →
      FileRepository.DeleteAccount r id = (some (notFound "account" id), r)) ∧
    (∀ c : Category, c.ID ∉ ids d.Categories →
      FileRepository.UpdateCategory r c = (some (notFound "category" c.ID), r)) ∧
    (∀ id : String, id ∉ ids d.Categories →
      FileRepository.DeleteCategory r id = (some (notFound "category" id), r)) ∧
    (∀ o : Operation, o.ID ∉ ids d.Operations →
      FileRepository.UpdateOperation r o = (some (notFound "operation" o.ID), r)) ∧
    (∀ id : String, id ∉ ids d.Operations →
      FileRepository.DeleteOperation r id = (some (notFound "operation" id), r)) := by
  refine ⟨?_, ?_, ?_, ?_, ?_, ?_⟩ <;> intro x hx <;>
    refine withData_of_fn_error r d _ _ hl ?_ <;>
    simp [(indexOfID_eq_none _ _).2 hx]

/-- Witness of C10: deleting the absent operation ID `o9` from the sample file. -/
theorem store_update_delete_absent_id_witness :
    FileRepository.loadUnsafe sampleDisk = .ok sampleData ∧
    FileRepository.DeleteOperation sampleDisk "o9" =
      (some (notFound "operation" "o9"), sampleDisk) :=
  ⟨by decide,
    (store_update_delete_absent_id sampleDisk sampleData (by decide)).2.2.2.2.2 "o9"
      (by decide)⟩


/-- C12: `FileRepository.ReplaceAll(s)` does not look at the file it replaces: its
outcome is the same whatever the file held (absent, empty, undecodable or a
snapshot); it succeeds exactly when the file can be created, `s` can be encoded
and the bytes can be written; and after a success the file holds `s`, so that
`ListAccounts`, `ListCategories` and `ListOperations` (when the file can be
opened) return the collections of `s` in the order of `s`. -/
theorem store_replaceAll_unconditional (r : Disk) (s : StorageData) :
    (∀ f : Option FileBytes,
      (FileRepository.ReplaceAll { r with file := f } s).1 = (FileRepository.ReplaceAll r s).1) ∧
    ((FileRepository.ReplaceAll r s).1 = none ↔
      r.createErr = none ∧ encodeError s = none ∧ r.writeErr = none) ∧
    ((FileRepository.ReplaceAll r s).1 = none →
      (FileRepository.ReplaceAll r s).2.file = some (.document s) ∧
      (r.openErr = none →
        (FileRepository.ListAccounts (FileRepository.ReplaceAll r s).2).1 = .ok s.Accounts ∧
        (FileRepository.ListCategories (FileRepository.ReplaceAll r s).2).1 =
          .ok s.Categories ∧
        (FileRepository.ListOperations (FileRepository.ReplaceAll r s).2).1 =
          .ok s.Operations)) := by
  have hsucc : (FileRepository.ReplaceAll r s).1 = none ↔
      r.createErr = none ∧ encodeError s = none ∧ r.writeErr = none := by
    unfold FileRepository.ReplaceAll FileRepository.saveUnsafe
    rw [jsonEncode_eq]
    cases hc : r.createErr <;> cases he : encodeError s <;> cases hw : r.writeErr <;> simp
  refine ⟨?_, hsucc, ?_⟩
  · intro f
    unfold FileRepository.ReplaceAll FileRepository.saveUnsafe
    rw [jsonEncode_eq]
    cases hc : r.createErr <;> cases he : encodeError s <;> cases hw : r.writeErr <;> simp
  · intro h
    obtain ⟨hc, he, hw⟩ := hsucc.1 h
    have hs : FileRepository.ReplaceAll r s = (none, { r with file := some (.document s) }) :=
      saveUnsafe_of_sound r s hc hw he
    rw [hs]
    refine ⟨rfl, fun ho => ?_⟩
    simp [FileRepository.ListAccounts, FileRepository.ListCategories,
      FileRepository.ListOperations, FileRepository.load, FileRepository.loadUnsafe, ho]

/-- Witness of C12: replacing an undecodable file by the sample snapshot. -/
theorem store_replaceAll_unconditional_witness :
    (FileRepository.ReplaceAll corruptDisk sampleData).1 = none ∧
    corruptDisk.openErr = none ∧
    (FileRepository.ListAccounts (FileRepository.ReplaceAll corruptDisk sampleData).2).1 =
      .ok sampleData.Accounts :=
  ⟨by decide, rfl,
    ((store_replaceAll_unconditional corruptDisk sampleData).2.2 (by decide)).2 rfl |>.1⟩

/-- C13: the serialization round trip. (1) Decoding the JSON value that
`json.Marshal` writes for a snapshot `s` gives `s` back: the same entities in the
same order with every field equal (an empty `description`, which `omitempty`
leaves out, is read back as the empty string). (2) When `saveUnsafe` of `s` returns
nil, the file holds the encoding of `s` and, on a disk that opens, the next load
returns `s`. (3) When the load returns `d` and `saveUnsafe` of `d` returns nil,
the next load returns `d`, and what the file holds as a snapshot is `d` before and
after, also when the file was missing or empty before the save. The text of a
string is taken as valid UTF-8 and a number by the `float64` it parses to. -/
theorem save_load_round_trip (r : Disk) (s : StorageData) :
    StorageData.ofJson s.json = .ok s ∧
    ((FileRepository.saveUnsafe r s).1 = none →
      jsonEncode s = .ok (.document s) ∧
      (FileRepository.saveUnsafe r s).2.file = some (.document s) ∧
      (r.openErr = none →
        FileRepository.loadUnsafe (FileRepository.saveUnsafe r s).2 = .ok s)) ∧
    (∀ d, FileRepository.loadUnsafe r = .ok d →
      (FileRepository.saveUnsafe r d).1 = none →
      FileRepository.loadUnsafe (FileRepository.saveUnsafe r d).2 = .ok d ∧
      r.persisted = some d ∧ (FileRepository.saveUnsafe r d).2.persisted = some d) := by
  have hsave : ∀ x, (FileRepository.saveUnsafe r x).1 = none →
      jsonEncode x = .ok (.document x) ∧
      FileRepository.saveUnsafe r x = (none, { r with file := some (.document x) }) := by
    intro x h
    obtain ⟨he, hs⟩ := saveUnsafe_none r x h
    refine ⟨?_, hs⟩
    rw [jsonEncode_eq, he]
  refine ⟨storageData_roundtrip s, ?_, ?_⟩
  · intro h
    obtain ⟨he, hs⟩ := hsave s h
    refine ⟨he, ?_, ?_⟩
    · rw [hs]
    · intro ho
      rw [hs]
      simp [FileRepository.loadUnsafe, ho]
  · intro d hl h
    obtain ⟨_, hs⟩ := hsave d h
    have ho : r.openErr = none := openErr_of_loadUnsafe r d hl
    refine ⟨?_, ?_, ?_⟩
    · rw [hs]
      simp [FileRepository.loadUnsafe, ho]
    · unfold FileRepository.loadUnsafe at hl
      rw [ho] at hl
      unfold Disk.persisted
      cases hf : r.file with
      | none => rw [hf] at hl; simpa using hl
      | some bytes =>
        rw [hf] at hl
        cases bytes <;> simp_all
    · rw [hs]
      rfl

/-- Witness of C13: the sample snapshot saved where no file exists loads back as
the sample snapshot; the load of a missing file, saved, loads as the same empty
snapshot. -/
theorem save_load_round_trip_witness :
    (FileRepository.saveUnsafe emptyDisk sampleData).1 = none ∧
    FileRepository.loadUnsafe (FileRepository.saveUnsafe emptyDisk sampleData).2 =
      .ok sampleData ∧
    FileRepository.loadUnsafe emptyDisk = .ok {} ∧
    (FileRepository.saveUnsafe emptyDisk {}).1 = none ∧
    FileRepository.loadUnsafe (FileRepository.saveUnsafe emptyDisk {}).2 = .ok {} :=
  ⟨by decide,
    ((save_load_round_trip emptyDisk sampleData).2.1 (by decide)).2.2 (by decide),
    by decide, by decide,
    ((save_load_round_trip emptyDisk {}).2.2 {} (by decide) (by decide)).1⟩

/-- C14: the load of the file store returns the empty snapshot without error when
the file does not exist or holds no JSON value, returns the decoded snapshot
when the file decodes, and returns an error in every other case: when the file
cannot be opened for another reason and when decoding fails for another reason
than end of input. -/
theorem load_outcomes (r : Disk) :
    (r.openErr = none → r.file = none → FileRepository.load r = .ok {}) ∧
    (r.openErr = none → r.file = some .empty → FileRepository.load r = .ok {}) ∧
    (∀ d, r.openErr = none → r.file = some (.document d) → FileRepository.load r = .ok d) ∧
    (∀ e, r.openErr = some e →
      FileRepository.load r = .error (.wrap "open storage file" e)) ∧
    (∀ e, r.openErr = none → r.file = some (.malformed e) →
      FileRepository.load r = .error (.wrap "decode storage" e)) ∧
    ((∃ e, FileRepository.load r = .error e) ↔
      (r.openErr ≠ none ∨ ∃ e, r.file = some (.malformed e))) := by
  unfold FileRepository.load FileRepository.loadUnsafe
  refine ⟨?_, ?_, ?_, ?_, ?_, ?_⟩
  · intro ho hf; simp [ho, hf]
  · intro ho hf; simp [ho, hf]
  · intro d ho hf; simp [ho, hf]
  · intro e ho; simp [ho]
  · intro e ho hf; simp [ho, hf]
  · cases ho : r.openErr with
    | some e => simp
    | none =>
      cases hf : r.file with
      | none => simp
      | some bytes => cases bytes <;> simp

/-- Witness of C14: a missing file loads as the empty snapshot, an undecodable one
fails. -/
theorem load_outcomes_witness :
    emptyDisk.openErr = none ∧ emptyDisk.file = none ∧
    FileRepository.load emptyDisk = .ok {} ∧
    FileRepository.load corruptDisk = .error (.wrap "decode storage" (.text "unexpected EOF")) :=
  ⟨rfl, rfl, (load_outcomes emptyDisk).1 rfl rfl, by decide⟩


/-- C11: after a `ProxyRepository.ReplaceAll(s)` that returned nil, for a snapshot
`s` with unique IDs per collection and whatever the proxy held before (also when
the proxy was fresh), each `List*` returns the matching collection of `s` up to
order, each `Get*` of the ID of an entity of `s` returns that entity, and each
`Get*` of an ID that `s` does not hold in that collection returns the not-found
error, so that nothing cached before the call and absent from `s` can be
retrieved. -/
theorem proxy_replaceAll_rebuilds_cache {σ : Type} (b : Repository σ)
    (p : ProxyRepository σ) (s : StorageData) (hu : UniqueIDs s)
    (hok : (ProxyRepository.ReplaceAll b p s).1 = none) :
    (∃ l, (ProxyRepository.ListAccounts b (ProxyRepository.ReplaceAll b p s).2).1 = .ok l ∧
      l.Perm s.Accounts) ∧
    (∃ l, (ProxyRepository.ListCategories b (ProxyRepository.ReplaceAll b p s).2).1 = .ok l ∧
      l.Perm s.Categories) ∧
    (∃ l, (ProxyRepository.ListOperations b (ProxyRepository.ReplaceAll b p s).2).1 = .ok l ∧
      l.Perm s.Operations) ∧
    (∀ a ∈ s.Accounts,
      (ProxyRepository.GetAccount b (ProxyRepository.ReplaceAll b p s).2 a.ID).1 = .ok a) ∧
    (∀ id, id ∉ ids s.Accounts →
      (ProxyRepository.GetAccount b (ProxyRepository.ReplaceAll b p s).2 id).1 =
        .error (notFound "account" id)) ∧
    (∀ c ∈ s.Categories,
      (ProxyRepository.GetCategory b (ProxyRepository.ReplaceAll b p s).2 c.ID).1 = .ok c) ∧
    (∀ id, id ∉ ids s.Categories →
      (ProxyRepository.GetCategory b (ProxyRepository.ReplaceAll b p s).2 id).1 =
        .error (notFound "category" id)) ∧
    (∀ o ∈ s.Operations,
      (ProxyRepository.GetOperation b (ProxyRepository.ReplaceAll b p s).2 o.ID).1 = .ok o) ∧
    (∀ id, id ∉ ids s.Operations →
      (ProxyRepository.GetOperation b (ProxyRepository.ReplaceAll b p s).2 id).1 =
        .error (notFound "operation" id)) := by
  obtain ⟨hl, he, hA, hC, hO⟩ := replaceAll_ok b p s hok
  rw [assignAll_nil_entries _ hu.1] at hA
  rw [assignAll_nil_entries _ hu.2.1] at hC
  rw [assignAll_nil_entries _ hu.2.2] at hO
  have hr := fun id => reads_of_loaded b (ProxyRepository.ReplaceAll b p s).2 hl he id
  simp only [hA, hC, hO, values_entries, lookup_entries] at hr
  refine ⟨⟨_, (hr "").1, List.Perm.refl _⟩, ⟨_, (hr "").2.1, List.Perm.refl _⟩,
    ⟨_, (hr "").2.2.1, List.Perm.refl _⟩, ?_, ?_, ?_, ?_, ?_, ?_⟩
  · intro a ha
    have hf : firstByID s.Accounts a.ID = some a := firstByID_of_mem s.Accounts a hu.1 ha
    rw [(hr a.ID).2.2.2.1, hf]
  · intro id hid
    rw [(hr id).2.2.2.1, (firstByID_eq_none s.Accounts id).2 hid]
  · intro a ha
    have hf : firstByID s.Categories a.ID = some a := firstByID_of_mem s.Categories a hu.2.1 ha
    rw [(hr a.ID).2.2.2.2.1, hf]
  · intro id hid
    rw [(hr id).2.2.2.2.1, (firstByID_eq_none s.Categories id).2 hid]
  · intro a ha
    have hf : firstByID s.Operations a.ID = some a := firstByID_of_mem s.Operations a hu.2.2 ha
    rw [(hr a.ID).2.2.2.2.2, hf]
  · intro id hid
    rw [(hr id).2.2.2.2.2, (firstByID_eq_none s.Operations id).2 hid]

/-- Witness of C11: `ReplaceAll` with the one account `a1` as the first call on a
fresh proxy over a store without a file; `a1` is found, `a2` is not. -/
theorem proxy_replaceAll_rebuilds_cache_witness :
    UniqueIDs { Accounts := [sampleAccount] } ∧
    (ProxyRepository.ReplaceAll FileRepository.repo (NewProxyRepository emptyDisk)
      { Accounts := [sampleAccount] }).1 = none ∧
    (ProxyRepository.GetAccount FileRepository.repo
      (ProxyRepository.ReplaceAll FileRepository.repo (NewProxyRepository emptyDisk)
        { Accounts := [sampleAccount] }).2 "a2").1 = .error (notFound "account" "a2") ∧
    (ProxyRepository.GetAccount FileRepository.repo
      (ProxyRepository.ReplaceAll FileRepository.repo (NewProxyRepository emptyDisk)
        { Accounts := [sampleAccount] }).2 "a1").1 = .ok sampleAccount :=
  ⟨by decide, by decide,
    (proxy_replaceAll_rebuilds_cache FileRepository.repo (NewProxyRepository emptyDisk)
      { Accounts := [sampleAccount] } (by decide) (by decide)).2.2.2.2.1 "a2" (by decide),
    by decide⟩


/-- C15 (the claim as stated fails): the store's `ListAccounts` fails on an
undecodable file with the error `decode storage: unexpected EOF`; the proxy's
`ListAccounts`, whose lazy load made that call, returns the different error
`load accounts: decode storage: unexpected EOF`. -/
theorem proxy_wraps_load_error :
    (FileRepository.ListAccounts corruptDisk).1 =
      .error (.wrap "decode storage" (.text "unexpected EOF")) ∧
    (ProxyRepository.ListAccounts FileRepository.repo (NewProxyRepository corruptDisk)).1 =
      .error (.wrap "load accounts" (.wrap "decode storage" (.text "unexpected EOF"))) ∧
    Error.wrap "load accounts" (.wrap "decode storage" (.text "unexpected EOF")) ≠
      .wrap "decode storage" (.text "unexpected EOF") := by
  decide

/-- C15 (amended): when the store's write to which a proxy write delegates returns
the error `e`, the proxy returns exactly `e`; when a call reaches the load guard
for the first time and the store's `ListAccounts`, `ListCategories` or
`ListOperations` of the lazy load returns `e`, the proxy returns `e` wrapped
with the name of the step (`load accounts: e`, `load categories: e`,
`load operations: e`), from which `e` can be unwrapped. -/
theorem proxy_error_propagation {σ : Type} (b : Repository σ) (p : ProxyRepository σ)
    (c : Call) (e : Error) :
    (c.isWrite = true → (b.call p.base c).1.err = some e →
      ((ProxyRepository.repo b).call p c).1.err = some e) ∧
    ((c.isWrite = true → (b.call p.base c).1.err = none) → p.loadOnce = false →
      (b.ListAccounts (ProxyRepository.guardState b p c)).1 = .error e →
      ((ProxyRepository.repo b).call p c).1.err = some (.wrap "load accounts" e)) ∧
    ((c.isWrite = true → (b.call p.base c).1.err = none) → p.loadOnce = false →
      (∃ la, (b.ListAccounts (ProxyRepository.guardState b p c)).1 = .ok la) →
      (b.ListCategories (b.ListAccounts (ProxyRepository.guardState b p c)).2).1 = .error e →
      ((ProxyRepository.repo b).call p c).1.err = some (.wrap "load categories" e)) ∧
    ((c.isWrite = true → (b.call p.base c).1.err = none) → p.loadOnce = false →
      (∃ la, (b.ListAccounts (ProxyRepository.guardState b p c)).1 = .ok la) →
      (∃ lc, (b.ListCategories
        (b.ListAccounts (ProxyRepository.guardState b p c)).2).1 = .ok lc) →
      (b.ListOperations (b.ListCategories
        (b.ListAccounts (ProxyRepository.guardState b p c)).2).2).1 = .error e →
      ((ProxyRepository.repo b).call p c).1.err = some (.wrap "load operations" e)) := by
  refine ⟨?_, ?_, ?_, ?_⟩
  · intro hw hf
    rw [proxy_write_of_base_error b p c e hw hf]
    rfl
  · intro hr hl ha
    exact call_err_of_guard b p c _ hr
      ((ensureLoaded_error_wrapped b { p with base := ProxyRepository.guardState b p c } hl).1
        e ha)
  · intro hr hl ⟨la, ha⟩ hc
    exact call_err_of_guard b p c _ hr
      ((ensureLoaded_error_wrapped b { p with base := ProxyRepository.guardState b p c }
        hl).2.1 la e ha hc)
  · intro hr hl ⟨la, ha⟩ ⟨lc, hc⟩ ho
    exact call_err_of_guard b p c _ hr
      ((ensureLoaded_error_wrapped b { p with base := ProxyRepository.guardState b p c }
        hl).2.2 la lc e ha hc ho)

/-- Witness of C15 (amended): `UpdateAccount` of an absent ID on a proxy over the
sample file returns the store's not-found error as it is. -/
theorem proxy_error_propagation_witness :
    (Call.updateAccount sampleNaN).isWrite = true ∧
    (FileRepository.repo.call (NewProxyRepository sampleDisk).base
      (.updateAccount sampleNaN)).1.err = some (notFound "account" "a2") ∧
    ((ProxyRepository.repo FileRepository.repo).call (NewProxyRepository sampleDisk)
      (.updateAccount sampleNaN)).1.err = some (notFound "account" "a2") :=
  ⟨rfl, by decide,
    (proxy_error_propagation FileRepository.repo (NewProxyRepository sampleDisk)
      (.updateAccount sampleNaN) (notFound "account" "a2")).1 rfl (by decide)⟩


/-- C16: every `Create*`, `Update*` and `Delete*` of the file store that returns
nil on a file holding the snapshot `d` leaves a file that loads as the reference
snapshot: `d` with the entity appended at the end of its collection, or with the
first element of that ID replaced by the entity (the collection keeps its
length), or with the first element of that ID removed (the others keep their
order); the two other collections are as they were. -/
theorem store_mutation_refines_reference (r : Disk) (d : StorageData) (c : Call)
    (hl : FileRepository.loadUnsafe r = .ok d) (hc : c.isCUD = true)
    (hok : (FileRepository.repo.call r c).1.err = none) :
    FileRepository.load (FileRepository.repo.call r c).2 = .ok (referenceAfter c d) ∧
    (∀ a, c = .updateAccount a →
      (referenceAfter c d).Accounts.length = d.Accounts.length ∧
      (referenceAfter c d).Categories = d.Categories ∧
      (referenceAfter c d).Operations = d.Operations) ∧
    (∀ id, c = .deleteAccount id →
      (referenceAfter c d).Accounts.Sublist d.Accounts ∧
      (referenceAfter c d).Categories = d.Categories ∧
      (referenceAfter c d).Operations = d.Operations) ∧
    (∀ a, c = .updateCategory a →
      (referenceAfter c d).Categories.length = d.Categories.length ∧
      (referenceAfter c d).Accounts = d.Accounts ∧
      (referenceAfter c d).Operations = d.Operations) ∧
    (∀ id, c = .deleteCategory id →
      (referenceAfter c d).Categories.Sublist d.Categories ∧
      (referenceAfter c d).Accounts = d.Accounts ∧
      (referenceAfter c d).Operations = d.Operations) ∧
    (∀ a, c = .updateOperation a →
      (referenceAfter c d).Operations.length = d.Operations.length ∧
      (referenceAfter c d).Accounts = d.Accounts ∧
      (referenceAfter c d).Categories = d.Categories) ∧
    (∀ id, c = .deleteOperation id →
      (referenceAfter c d).Operations.Sublist d.Operations ∧
      (referenceAfter c d).Accounts = d.Accounts ∧
      (referenceAfter c d).Categories = d.Categories) := by
  refine ⟨?_, ?_, ?_, ?_, ?_, ?_, ?_⟩
  · rw [store_call_cud r c hc] at hok ⊢
    simp only [Reply.err] at hok
    cases hm : FileRepository.mutation c d with
    | error e =>
      rw [withData_of_fn_error r d _ e hl hm] at hok
      cases hok
    | ok d₁ =>
      rw [withData_of_fn_ok r d d₁ _ hl hm] at hok ⊢
      have ho : (FileRepository.saveUnsafe r d₁).2.openErr = none := by
        rw [saveUnsafe_openErr]
        exact openErr_of_loadUnsafe r d hl
      have hp := saveUnsafe_ok r d₁ hok
      rw [← mutation_eq_reference c d d₁ hm hc]
      exact loadUnsafe_of_persisted _ d₁ ho hp
  · rintro a rfl
    exact ⟨refReplaceFirst_length _ _, rfl, rfl⟩
  · rintro id rfl
    exact ⟨refRemoveFirst_sublist _ _, rfl, rfl⟩
  · rintro a rfl
    exact ⟨refReplaceFirst_length _ _, rfl, rfl⟩
  · rintro id rfl
    exact ⟨refRemoveFirst_sublist _ _, rfl, rfl⟩
  · rintro a rfl
    exact ⟨refReplaceFirst_length _ _, rfl, rfl⟩
  · rintro id rfl
    exact ⟨refRemoveFirst_sublist _ _, rfl, rfl⟩

/-- Witness of C16: updating, then deleting, the account `a1` of the sample file. -/
theorem store_mutation_refines_reference_witness :
    FileRepository.loadUnsafe sampleDisk = .ok sampleData ∧
    (Call.updateAccount sampleTwin).isCUD = true ∧
    (FileRepository.repo.call sampleDisk (.updateAccount sampleTwin)).1.err = none ∧
    FileRepository.load (FileRepository.repo.call sampleDisk (.updateAccount sampleTwin)).2 =
      .ok (referenceAfter (.updateAccount sampleTwin) sampleData) ∧
    referenceAfter (.updateAccount sampleTwin) sampleData =
      { sampleData with Accounts := [sampleTwin] } :=
  ⟨by decide, rfl, by decide,
    (store_mutation_refines_reference sampleDisk sampleData (.updateAccount sampleTwin)
      (by decide) rfl (by decide)).1,
    by decide⟩


/-- C20: when `rand.Read` delivers the 16 bytes `b`, `newUUID` returns a string of
exactly 36 characters with a hyphen at the indices 8, 13, 18 and 23 and a
lowercase hexadecimal digit at every other index; the character at index 14 is
`4`, the character at index 19 is one of `8`, `9`, `a`, `b` (it keeps the two low
bits of the high half of byte 8), and every other digit is the matching
hexadecimal digit of the input bytes: the low digit of each byte, and the high
digit of each byte but bytes 6 and 8. -/
theorem newUUID_is_v4 (rnd : RandSource) (b : List Nat)
    (hr : rnd.reads rnd.next = .ok b) (hlen : b.length = 16) (hb : ∀ x ∈ b, x < 256) :
    (newUUID rnd).1 = .ok (uuidFromBytes b) ∧
    (uuidFromBytes b).data.length = 36 ∧
    (∀ i, i < 36 →
      if i = 8 ∨ i = 13 ∨ i = 18 ∨ i = 23 then (uuidFromBytes b).data.getD i '0' = '-'
      else (uuidFromBytes b).data.getD i '-' ∈ hextable) ∧
    (uuidFromBytes b).data.getD 14 '0' = '4' ∧
    (uuidFromBytes b).data.getD 19 '0' ∈ ['8', '9', 'a', 'b'] ∧
    (uuidFromBytes b).data.getD 19 '0' = hexDigit (8 + (b.getD 8 0 / 16) % 4) ∧
    (∀ j, j < 16 →
      (uuidFromBytes b).data.getD (uuidPos j + 1) '0' = hexDigit (b.getD j 0 % 16) ∧
      (j ≠ 6 → j ≠ 8 →
        (uuidFromBytes b).data.getD (uuidPos j) '0' = hexDigit (b.getD j 0 / 16))) := by
  refine ⟨by simp [newUUID, hr], ?_⟩
  clear hr
  revert hb
  refine list16 (fun b => (∀ x ∈ b, x < 256) →
    (uuidFromBytes b).data.length = 36 ∧
    (∀ i, i < 36 →
      if i = 8 ∨ i = 13 ∨ i = 18 ∨ i = 23 then (uuidFromBytes b).data.getD i '0' = '-'
      else (uuidFromBytes b).data.getD i '-' ∈ hextable) ∧
    (uuidFromBytes b).data.getD 14 '0' = '4' ∧
    (uuidFromBytes b).data.getD 19 '0' ∈ ['8', '9', 'a', 'b'] ∧
    (uuidFromBytes b).data.getD 19 '0' = hexDigit (8 + (b.getD 8 0 / 16) % 4) ∧
    (∀ j, j < 16 →
      (uuidFromBytes b).data.getD (uuidPos j + 1) '0' = hexDigit (b.getD j 0 % 16) ∧
      (j ≠ 6 → j ≠ 8 →
        (uuidFromBytes b).data.getD (uuidPos j) '0' = hexDigit (b.getD j 0 / 16)))) ?_ b hlen
  intro b0 b1 b2 b3 b4 b5 b6 b7 b8 b9 b10 b11 b12 b13 b14 b15 hb
  rw [uuid_explicit b0 b1 b2 b3 b4 b5 b6 b7 b8 b9 b10 b11 b12 b13 b14 b15 hb]
  simp only [List.mem_cons, List.mem_singleton, forall_eq_or_imp, forall_eq,
    List.not_mem_nil, false_imp_iff, implies_true, and_true] at hb
  obtain ⟨h0, h1, h2, h3, h4, h5, h6, h7, h8, h9, h10, h11, h12, h13, h14, h15⟩ := hb
  have hvar : hexDigit (8 + (b8 / 16) % 4) ∈ ['8', '9', 'a', 'b'] :=
    hexDigit_variant _ (by omega)
  have hvar' : hexDigit (8 + (b8 / 16) % 4) ∈ hextable := hexDigit_mem _ (by omega)
  have h4' : '4' ∈ hextable := by decide
  refine ⟨rfl, ?_, rfl, hvar, rfl, ?_⟩
  · intro i hi
    interval_cases i <;>
      simp only [List.getD_cons_zero, List.getD_cons_succ, if_true, if_false, true_or,
        or_true, Nat.reduceEqDiff, or_self, OfNat.ofNat_ne_zero, OfNat.zero_ne_ofNat,
        Nat.succ_ne_self, reduceCtorEq] <;>
      first
      | rfl
      | exact hexDigit_mod_mem _
      | exact hexDigit_div_mem _ (by assumption)
      | exact hvar'
      | exact h4'
  · intro j hj
    interval_cases j <;> exact ⟨rfl, fun h6' h8' => by first | rfl | exact absurd rfl h6' | exact absurd rfl h8'⟩

/-- Witness of C20: the UUID made of the bytes 0, 1, ..., 15. -/
theorem newUUID_is_v4_witness :
    (newUUID { reads := fun _ => .ok (List.range 16) }).1 =
      .ok "00010203-0405-4607-8809-0a0b0c0d0e0f" ∧
    (uuidFromBytes (List.range 16)).data.length = 36 :=
  ⟨by decide,
    (newUUID_is_v4 { reads := fun _ => .ok (List.range 16) } (List.range 16) rfl
      (by decide) (by decide)).2.1⟩


/-- C17 (the claim as stated fails): on a proxy over a file in which the ID `c1`
names an income category and, after it, an expense category, renaming `c1`
succeeds: the proxy looks up the category cached last (the expense one), the
store overwrites the first one, and the stored income category `Salary` has
become an expense category. -/
theorem updateCategoryName_changes_type_of_twin :
    (CategoryFacade.UpdateCategoryName (ProxyRepository.repo FileRepository.repo)
      (NewProxyRepository twinCategoryDisk) "c1" "Bills").1 = none ∧
    twinCategoryDisk.persisted =
      some { Categories := [⟨"c1", "income", "Salary"⟩, ⟨"c1", "expense", "Rent"⟩] } ∧
    (CategoryFacade.UpdateCategoryName (ProxyRepository.repo FileRepository.repo)
      (NewProxyRepository twinCategoryDisk) "c1" "Bills").2.base.persisted =
      some { Categories := [⟨"c1", "expense", "Bills"⟩, ⟨"c1", "expense", "Rent"⟩] } := by
  decide

/-- C18 (as the code behaves): the check `initialBalance < 0` is false for NaN, so
`CreateBankAccount` returns an account whose balance is NaN, which is not
`≥ 0`; a negative balance is refused. -/
theorem createBankAccount_accepts_nan :
    (DomainFactory.CreateBankAccount (NewDomainFactory (fixedID "id-1")) () "Cash" .nan).1 =
      .ok ⟨"id-1", "Cash", .nan⟩ ∧
    Float64.lt .nan (.finite 0) = false ∧
    Float64.le (.finite 0) .nan = false ∧
    (DomainFactory.CreateBankAccount (NewDomainFactory (fixedID "id-1")) () "Cash"
      (.finite (-1))).1 = .error (.text "initial balance cannot be negative") := by
  decide

/-- C19 (as the code behaves): the check `amount <= 0` is false for NaN, so
`CreateOperation` succeeds with an amount that is not strictly positive; the
description is trimmed, and an amount of zero is refused. -/
theorem createOperation_accepts_nan :
    (DomainFactory.CreateOperation (NewDomainFactory (fixedID "id-1")) () "income" "a1" "c1"
      .nan ⟨63900000000, 0, 0⟩ "  lunch ").1 =
      .ok ⟨"id-1", "income", "a1", .nan, ⟨63900000000, 0, 0⟩, "lunch", "c1"⟩ ∧
    Float64.lt (.finite 0) .nan = false ∧
    Float64.le .nan (.finite 0) = false ∧
    (DomainFactory.CreateOperation (NewDomainFactory (fixedID "id-1")) () "income" "a1" "c1"
      (.finite 0) ⟨63900000000, 0, 0⟩ "  lunch ").1 =
      .error (.text "operation amount must be positive") := by
  decide


/-- C17 (amended): on a proxy whose cache is in step with a store without I/O
faults whose snapshot `d` has unique IDs, `UpdateCategoryName(id, newName)` either
returns an error and leaves the file as it is and the cache in step with it, or
returns nil, and then `d` held a category `c` under `id` and the file holds `d`
with that category replaced by `c` with the name `newName` (same ID, same type)
and everything else as before, the cache again in step. -/
theorem updateCategoryName_keeps_type (p : ProxyRepository Disk) (d : StorageData)
    (id newName : String) (hs : p.base.Sound) (hy : Synced p)
    (hp : p.base.persisted = some d) :
    ((CategoryFacade.UpdateCategoryName (ProxyRepository.repo FileRepository.repo)
        p id newName).1 ≠ none →
      (CategoryFacade.UpdateCategoryName (ProxyRepository.repo FileRepository.repo)
        p id newName).2.base = p.base ∧
      Synced (CategoryFacade.UpdateCategoryName (ProxyRepository.repo FileRepository.repo)
        p id newName).2) ∧
    ((CategoryFacade.UpdateCategoryName (ProxyRepository.repo FileRepository.repo)
        p id newName).1 = none →
      ∃ c, firstByID d.Categories id = some c ∧ c.ID = id ∧
        (CategoryFacade.UpdateCategoryName (ProxyRepository.repo FileRepository.repo)
          p id newName).2.base.persisted =
          some { d with
            Categories := refReplaceFirst d.Categories { c with Name := newName } } ∧
        Synced (CategoryFacade.UpdateCategoryName (ProxyRepository.repo FileRepository.repo)
          p id newName).2) := by
  unfold CategoryFacade.UpdateCategoryName
  by_cases hn : newName = ""
  · rw [if_pos hn]
    exact ⟨fun _ => ⟨rfl, hy⟩, fun h => by cases h⟩
  · simp only [hn, if_false]
    obtain ⟨hg, hgb, hgy⟩ := proxy_getCategory_synced p d id hs hy hp
    have hrepo : (ProxyRepository.repo FileRepository.repo).GetCategory p id =
        ProxyRepository.GetCategory FileRepository.repo p id := rfl
    rw [hrepo]
    revert hg hgb hgy
    rcases ProxyRepository.GetCategory FileRepository.repo p id with ⟨res, p₁⟩
    intro hg hgb hgy
    simp only at hg hgb hgy
    cases hk : firstByID d.Categories id with
    | none =>
      rw [hk] at hg
      simp only at hg
      subst hg
      exact ⟨fun _ => ⟨hgb, hgy⟩, fun h => by cases h⟩
    | some c =>
      rw [hk] at hg
      simp only at hg
      subst hg
      simp only
      obtain ⟨hcid, i, hi⟩ := indexOfID_of_firstByID d.Categories id c hk
      have hs₁ : p₁.base.Sound := hgb ▸ hs
      have hp₁ : p₁.base.persisted = some d := hgb ▸ hp
      obtain ⟨ho, hc', hw', d', hp', _, hen⟩ := hs₁
      have hd : d' = d := by
        rw [hp₁] at hp'
        exact (Option.some.inj hp').symm
      subst hd
      have hstep := synced_step p₁ (.updateCategory { c with Name := newName })
        ⟨ho, hc', hw', d', hp', by assumption, hen⟩ hgy rfl rfl rfl
      have hrep := synced_step_reply p₁ (.updateCategory { c with Name := newName })
        ⟨ho, hc', hw', d', hp', by assumption, hen⟩ hgy rfl rfl rfl
      have hstore := store_write_of_sound p₁.base d'
        (.updateCategory { c with Name := newName }) ho hc' hw' hp' hen rfl rfl
      have hi' : indexOfID d'.Categories ({ c with Name := newName } : Category).ID =
          some i := by
        have : ({ c with Name := newName } : Category).ID = id := hcid
        rw [this]
        exact hi
      have hm : FileRepository.mutation (.updateCategory { c with Name := newName }) d' =
          .ok { d' with
            Categories := refReplaceFirst d'.Categories { c with Name := newName } } := by
        simp only [FileRepository.mutation, hi']
        rw [set_eq_refReplaceFirst d'.Categories { c with Name := newName } i hi']
      rw [hm] at hstore
      rw [hstore] at hstep hrep
      have hcall : (ProxyRepository.repo FileRepository.repo).UpdateCategory p₁
          { c with Name := newName } =
          (((ProxyRepository.repo FileRepository.repo).call p₁
              (.updateCategory { c with Name := newName })).1.err,
            ((ProxyRepository.repo FileRepository.repo).call p₁
              (.updateCategory { c with Name := newName })).2) := rfl
      rw [hcall, hrep]
      simp only [Reply.err]
      refine ⟨fun h => absurd rfl h, fun _ => ?_⟩
      refine ⟨c, rfl, hcid, ?_, hstep.2.2⟩
      rw [hstep.1]
      rfl

/-- Witness of C17 (amended): renaming the category `c1` of the sample file. -/
theorem updateCategoryName_keeps_type_witness :
    (NewProxyRepository sampleDisk).base.Sound ∧ Synced (NewProxyRepository sampleDisk) ∧
    (CategoryFacade.UpdateCategoryName (ProxyRepository.repo FileRepository.repo)
      (NewProxyRepository sampleDisk) "c1" "Wages").1 = none ∧
    ∃ c, firstByID sampleData.Categories "c1" = some c ∧ c.ID = "c1" ∧
      (CategoryFacade.UpdateCategoryName (ProxyRepository.repo FileRepository.repo)
        (NewProxyRepository sampleDisk) "c1" "Wages").2.base.persisted =
        some { sampleData with
          Categories := refReplaceFirst sampleData.Categories { c with Name := "Wages" } } ∧
      Synced (CategoryFacade.UpdateCategoryName (ProxyRepository.repo FileRepository.repo)
        (NewProxyRepository sampleDisk) "c1" "Wages").2 :=
  ⟨⟨rfl, rfl, rfl, sampleData, rfl, by decide, by decide⟩, Or.inl ⟨rfl, rfl⟩, by decide,
    (updateCategoryName_keeps_type (NewProxyRepository sampleDisk) sampleData "c1" "Wages"
      ⟨rfl, rfl, rfl, sampleData, rfl, by decide, by decide⟩ (Or.inl ⟨rfl, rfl⟩) rfl).2
      (by decide)⟩

/-- C29 (as the code behaves): `UpdateOperation` takes the previous operation's
effect back from the account before the factory validates the new values. Asked
to set the amount of the income `o1` (10, on account `a1` with balance 100) to 0,
it returns the factory's error, and the balance of `a1` is 90 both in the cache
and in the file; the operation itself is as before. -/
theorem updateOperation_error_after_balance_change :
    (OperationFacade.UpdateOperation (ProxyRepository.repo FileRepository.repo)
      (NewDomainFactory (fixedID "o2")) (NewProxyRepository sampleDisk) () "o1" "income" "a1"
      "c1" (.finite 0) ⟨63900000000, 0, 0⟩ "").1 =
      some (.text "operation amount must be positive") ∧
    (ProxyRepository.GetAccount FileRepository.repo (NewProxyRepository sampleDisk) "a1").1 =
      .ok ⟨"a1", "Checking", .finite 100⟩ ∧
    (ProxyRepository.GetAccount FileRepository.repo
      (OperationFacade.UpdateOperation (ProxyRepository.repo FileRepository.repo)
        (NewDomainFactory (fixedID "o2")) (NewProxyRepository sampleDisk) () "o1" "income"
        "a1" "c1" (.finite 0) ⟨63900000000, 0, 0⟩ "").2.1 "a1").1 =
      .ok ⟨"a1", "Checking", .finite 90⟩ ∧
    sampleDisk.persisted = some sampleData ∧
    (OperationFacade.UpdateOperation (ProxyRepository.repo FileRepository.repo)
      (NewDomainFactory (fixedID "o2")) (NewProxyRepository sampleDisk) () "o1" "income" "a1"
      "c1" (.finite 0) ⟨63900000000, 0, 0⟩ "").2.1.base.persisted =
      some { sampleData with Accounts := [⟨"a1", "Checking", .finite 90⟩] } := by
  decide!

/-- C26: `Difference(from, to)` over any repository. If `to` is earlier than
`from` it returns the period error and calls nothing. Otherwise it lists the
operations; if that fails it returns the error, and if it yields `ops` it returns
the total of the amounts of the income operations minus the total of the amounts
of the expense operations, both taken over the operations of `ops` whose date
`d` satisfies `from ≤ d ≤ to`. -/
theorem difference_over_period (repo : Repository σ) (s : σ) (frm til : Time) :
    (¬ Time.le frm til →
      AnalyticsFacade.Difference repo s frm til =
        (.error (.text "period end cannot precede start"), s)) ∧
    (Time.le frm til → ∀ ops s', repo.ListOperations s = (.ok ops, s') →
      AnalyticsFacade.Difference repo s frm til =
        (.ok ((total (amountsOfType OperationTypeIncome (inRange frm til ops))).sub
          (total (amountsOfType OperationTypeExpense (inRange frm til ops)))), s')) ∧
    (Time.le frm til → ∀ e s', repo.ListOperations s = (.error e, s') →
      AnalyticsFacade.Difference repo s frm til = (.error e, s')) := by
  refine ⟨fun h => ?_, fun h ops s' hl => ?_, fun h e s' hl => ?_⟩
  · have hb := (before_iff frm til).2 h
    simp only [AnalyticsFacade.Difference, AnalyticsFacade.validatePeriod, hb, if_true]
  · have hb : til.Before frm = false := by
      rw [Bool.eq_false_iff]
      intro hb
      exact (before_iff frm til).1 hb h
    simp only [AnalyticsFacade.Difference, AnalyticsFacade.validatePeriod, hb,
      Bool.false_eq_true, if_false, hl, difference_loop]
    rfl
  · have hb : til.Before frm = false := by
      rw [Bool.eq_false_iff]
      intro hb
      exact (before_iff frm til).1 hb h
    simp only [AnalyticsFacade.Difference, AnalyticsFacade.validatePeriod, hb,
      Bool.false_eq_true, if_false, hl]

/-- Witness of C26: over the file with an income of 10 and an expense of 4 dated
at the one instant that is both `from` and `to`, the difference is 6; with `to`
one second before `from` the call fails. -/
theorem difference_over_period_witness :
    Time.le ⟨63900000000, 0, 0⟩ ⟨63900000000, 0, 0⟩ ∧
    ¬ Time.le ⟨63900000001, 0, 0⟩ ⟨63900000000, 0, 0⟩ ∧
    (AnalyticsFacade.Difference FileRepository.repo sameNameDisk ⟨63900000000, 0, 0⟩
      ⟨63900000000, 0, 0⟩).1 = .ok (.finite 6) ∧
    AnalyticsFacade.Difference FileRepository.repo sameNameDisk ⟨63900000001, 0, 0⟩
      ⟨63900000000, 0, 0⟩ = (.error (.text "period end cannot precede start"), sameNameDisk) := by
  have h := difference_over_period FileRepository.repo sameNameDisk
  refine ⟨by decide, by decide, ?_,
    (h ⟨63900000001, 0, 0⟩ ⟨63900000000, 0, 0⟩).1 (by decide)⟩
  rw [(h ⟨63900000000, 0, 0⟩ ⟨63900000000, 0, 0⟩).2.1 (by decide) _ sameNameDisk rfl]
  decide!


/-- C27 (as the code behaves): `GroupByCategory`, documented as aggregating the
totals per category, keys its result by category name (`totals[category.Name]`).
Over a file with the categories `c1` and `c2`, both named `Misc`, an income of 10
in `c1` and an expense of 4 in `c2`, the result has the one entry `Misc` with
income 10 and expense 4, while the operations of `c1` have no expense and those
of `c2` no income. -/
theorem groupByCategory_merges_same_name :
    (AnalyticsFacade.GroupByCategory FileRepository.repo sameNameDisk ⟨63900000000, 0, 0⟩
      ⟨63900000000, 0, 0⟩).1 = .ok [("Misc", ⟨.finite 10, .finite 4⟩)] ∧
    (FileRepository.ListCategories sameNameDisk).1 =
      .ok [⟨"c1", "income", "Misc"⟩, ⟨"c2", "expense", "Misc"⟩] ∧
    total (amountsOfType OperationTypeExpense
      (ofCategory "c1" (inRange ⟨63900000000, 0, 0⟩ ⟨63900000000, 0, 0⟩
        (sameNameDisk.persisted.getD {}).Operations))) = .finite 0 ∧
    total (amountsOfType OperationTypeIncome
      (ofCategory "c2" (inRange ⟨63900000000, 0, 0⟩ ⟨63900000000, 0, 0⟩
        (sameNameDisk.persisted.getD {}).Operations))) = .finite 0 := by
  decide!

/-- Where `GroupByCategory` does give the totals per category: over any
repository whose listed categories have distinct IDs and distinct names, for a
period with `from ≤ to`, `GroupByCategory` returns a
map in which every listed category that has an operation in the period has, under
its name, the total of the income amounts and the total of the expense amounts
of the in-period operations whose `category_id` is its ID; a listed category
without such an operation has no entry. -/
theorem groupByCategory_totals_per_category (repo : Repository σ) (s s₁ s₂ : σ)
    (frm til : Time) (ops : List Operation) (cats : List Category)
    (hp : Time.le frm til)
    (hops : repo.ListOperations s = (.ok ops, s₁))
    (hcats : repo.ListCategories s₁ = (.ok cats, s₂))
    (hids : (ids cats).Nodup) (hnames : (cats.map Category.Name).Nodup) :
    ∃ totals, AnalyticsFacade.GroupByCategory repo s frm til = (.ok totals, s₂) ∧
      ∀ c ∈ cats, totals.lookup c.Name =
        if ofCategory c.ID (inRange frm til ops) = [] then none
        else some
          ⟨total (amountsOfType OperationTypeIncome (ofCategory c.ID (inRange frm til ops))),
           total (amountsOfType OperationTypeExpense
             (ofCategory c.ID (inRange frm til ops)))⟩ := by
  have hb : til.Before frm = false := by
    rw [Bool.eq_false_iff]
    intro hb
    exact (before_iff frm til).1 hb hp
  refine ⟨ops.foldl (AnalyticsFacade.groupStep (GoMap.assignAll [] cats) frm til) [], ?_, ?_⟩
  · simp only [AnalyticsFacade.GroupByCategory, AnalyticsFacade.validatePeriod, hb,
      Bool.false_eq_true, if_false, hops, hcats]
  · intro c hc
    have hfilter : ops.filter (fun op => AnalyticsFacade.inPeriod op.Date frm til &&
        (((GoMap.assignAll [] cats).lookup op.CategoryID).map
          (fun c' => c'.Name == c.Name)).getD false) =
        ofCategory c.ID (inRange frm til ops) := by
      unfold ofCategory inRange
      rw [List.filter_filter]
      apply List.filter_congr
      intro op _
      rw [assignAll_nil_entries cats hids, lookup_entries]
      have hfc : firstByID cats c.ID = some c := firstByID_of_mem cats c hids hc
      have hper : AnalyticsFacade.inPeriod op.Date frm til =
          decide (Time.le frm op.Date ∧ Time.le op.Date til) := by
        rw [Bool.eq_iff_iff]
        simpa using inPeriod_iff op.Date frm til
      rw [hper, Bool.and_comm]
      congr 1
      cases hf : firstByID cats op.CategoryID with
      | none =>
        have : ¬ op.CategoryID = c.ID := by
          intro h
          rw [h, hfc] at hf
          cases hf
        simp [this]
      | some c' =>
        obtain ⟨pre, post, hl, hid', _⟩ := (firstByID_eq_some cats op.CategoryID c').1 hf
        have hmem : c' ∈ cats := by
          rw [hl]
          simp
        simp only [Option.map_some', Option.getD_some]
        rw [Bool.eq_iff_iff]
        simp only [beq_iff_eq, decide_eq_true_eq]
        constructor
        · intro hn
          have : c' = c := List.inj_on_of_nodup_map hnames hmem hc hn
          rw [← hid', this]
          rfl
        · intro h
          rw [h, hfc] at hf
          cases hf
          rfl
    rw [group_loop, hfilter]
    split
    · rfl
    · rw [addToEntry_loop]
      rfl

/-- The totals per category on the sample file, with its one category `c1` and
its income of 10 in it. -/
theorem groupByCategory_totals_per_category_witness :
    Time.le ⟨63900000000, 0, 0⟩ ⟨63900000000, 0, 0⟩ ∧
    FileRepository.repo.ListOperations sampleDisk = (.ok [sampleOperation], sampleDisk) ∧
    FileRepository.repo.ListCategories sampleDisk = (.ok [sampleCategory], sampleDisk) ∧
    (ids [sampleCategory]).Nodup ∧ ([sampleCategory].map Category.Name).Nodup ∧
    ofCategory "c1" (inRange ⟨63900000000, 0, 0⟩ ⟨63900000000, 0, 0⟩ [sampleOperation]) ≠
      [] ∧
    ∃ totals, AnalyticsFacade.GroupByCategory FileRepository.repo sampleDisk
        ⟨63900000000, 0, 0⟩ ⟨63900000000, 0, 0⟩ = (.ok totals, sampleDisk) ∧
      ∀ c ∈ [sampleCategory], totals.lookup c.Name =
        if ofCategory c.ID (inRange ⟨63900000000, 0, 0⟩ ⟨63900000000, 0, 0⟩
            [sampleOperation]) = [] then none
        else some
          ⟨total (amountsOfType OperationTypeIncome
            (ofCategory c.ID (inRange ⟨63900000000, 0, 0⟩ ⟨63900000000, 0, 0⟩
              [sampleOperation]))),
           total (amountsOfType OperationTypeExpense
             (ofCategory c.ID (inRange ⟨63900000000, 0, 0⟩ ⟨63900000000, 0, 0⟩
               [sampleOperation])))⟩ :=
  ⟨by decide, by decide, by decide, by decide, by decide, by decide,
    groupByCategory_totals_per_category FileRepository.repo sampleDisk sampleDisk sampleDisk
      ⟨63900000000, 0, 0⟩ ⟨63900000000, 0, 0⟩ [sampleOperation] [sampleCategory] (by decide)
      (by decide) (by decide) (by decide) (by decide)⟩


/-- C30: on a disk without I/O faults whose file holds a snapshot with unique IDs
and encodable values, after any sequence of `Create*`, `Update*`, `Delete*` and
`ReplaceAll` calls made on a fresh proxy (so the lazy load runs after the first
write has reached the store), in which each `Create*` brings an ID its collection
does not hold at that moment, each `ReplaceAll` brings a snapshot with unique IDs
and every value brought is encodable: the store under the proxy is in the state
of a store on which the calls were made directly, each `List*` of the proxy
returns a permutation of what the store's `List*` returns, and each `Get*(id)` of
the proxy returns what the store's `Get*(id)` returns, the entity or the
not-found error. -/
theorem proxy_refines_store (r : Disk) (calls : List Call) (hr : r.Sound)
    (hw : ∀ c ∈ calls, c.isWrite = true) (ha : admissible r calls = true) :
    ((ProxyRepository.repo FileRepository.repo).run (NewProxyRepository r) calls).base =
      FileRepository.repo.run r calls ∧
    (∃ la la' lc lc' lo lo',
      (ProxyRepository.ListAccounts FileRepository.repo
        ((ProxyRepository.repo FileRepository.repo).run (NewProxyRepository r) calls)).1 =
        .ok la' ∧
      (FileRepository.ListAccounts (FileRepository.repo.run r calls)).1 = .ok la ∧
      la'.Perm la ∧
      (ProxyRepository.ListCategories FileRepository.repo
        ((ProxyRepository.repo FileRepository.repo).run (NewProxyRepository r) calls)).1 =
        .ok lc' ∧
      (FileRepository.ListCategories (FileRepository.repo.run r calls)).1 = .ok lc ∧
      lc'.Perm lc ∧
      (ProxyRepository.ListOperations FileRepository.repo
        ((ProxyRepository.repo FileRepository.repo).run (NewProxyRepository r) calls)).1 =
        .ok lo' ∧
      (FileRepository.ListOperations (FileRepository.repo.run r calls)).1 = .ok lo ∧
      lo'.Perm lo) ∧
    ∀ id,
      (ProxyRepository.GetAccount FileRepository.repo
        ((ProxyRepository.repo FileRepository.repo).run (NewProxyRepository r) calls) id).1 =
        (FileRepository.GetAccount (FileRepository.repo.run r calls) id).1 ∧
      (ProxyRepository.GetCategory FileRepository.repo
        ((ProxyRepository.repo FileRepository.repo).run (NewProxyRepository r) calls) id).1 =
        (FileRepository.GetCategory (FileRepository.repo.run r calls) id).1 ∧
      (ProxyRepository.GetOperation FileRepository.repo
        ((ProxyRepository.repo FileRepository.repo).run (NewProxyRepository r) calls) id).1 =
        (FileRepository.GetOperation (FileRepository.repo.run r calls) id).1 := by
  obtain ⟨hb, hs, hy⟩ :=
    synced_run calls (NewProxyRepository r) hr (Or.inl ⟨rfl, rfl⟩) hw ha
  obtain ⟨d, _, hA, hC, hO, hA', hC', hO'⟩ := synced_lists _ hs hy
  refine ⟨hb, ?_, ?_⟩
  · rw [hb] at hA' hC' hO'
    exact ⟨d.Accounts, d.Accounts, d.Categories, d.Categories, d.Operations, d.Operations,
      hA, hA', List.Perm.refl _, hC, hC', List.Perm.refl _, hO, hO', List.Perm.refl _⟩
  · intro id
    have := synced_gets _ hs hy id
    rw [hb] at this
    exact this

/-- Witness of C30: a create, a `ReplaceAll`, a create and a delete of an absent
ID on a fresh proxy over the sample file. -/
theorem proxy_refines_store_witness :
    sampleDisk.Sound ∧ (∀ c ∈ replaceCalls, c.isWrite = true) ∧
    admissible sampleDisk replaceCalls = true ∧
    (FileRepository.GetAccount (FileRepository.repo.run sampleDisk replaceCalls) "a1").1 =
      .ok sampleTwin ∧
    ∀ id,
      (ProxyRepository.GetAccount FileRepository.repo
        ((ProxyRepository.repo FileRepository.repo).run (NewProxyRepository sampleDisk)
          replaceCalls) id).1 =
        (FileRepository.GetAccount (FileRepository.repo.run sampleDisk replaceCalls) id).1 :=
  ⟨⟨rfl, rfl, rfl, sampleData, rfl, by decide, by decide⟩, by decide, by decide, by decide,
    fun id => ((proxy_refines_store sampleDisk replaceCalls
      ⟨rfl, rfl, rfl, sampleData, rfl, by decide, by decide⟩ (by decide) (by decide)).2.2
      id).1⟩


/-- C28 (as the code behaves): `renderYAML` writes the category name `a"b` with the
verb `%q`, as the Go literal `"a\"b"`; `unquote` takes the enclosing quotes off and
unescapes nothing, so the category imported from the exported text has the name
`a\"b`, four characters instead of three. This holds whatever the library
functions for numbers, dates and wide characters do; the ID and the type come
back as they were. -/
theorem yaml_import_keeps_escape (lib : TextLib) :
    Quote lib quotedName = ⟨[dquote, 'a', backslash, dquote, 'b', dquote]⟩ ∧
    unquote (Quote lib quotedName) = ⟨['a', backslash, dquote, 'b']⟩ ∧
    YAMLImport lib "export.yaml"
      (.ok (renderYAML lib [] [⟨"c1", "income", quotedName⟩] [])) =
      .ok { Categories := [⟨"c1", "income", ⟨['a', backslash, dquote, 'b']⟩⟩] } ∧
    YAMLImport lib "export.yaml"
      (.ok (renderYAML lib [] [⟨"c1", "income", quotedName⟩] [])) ≠
      .ok { Categories := [⟨"c1", "income", quotedName⟩] } ∧
    YAMLImport lib "export.yaml"
      (.ok (renderYAML lib [] [⟨"c1", "income", "Salary"⟩] [])) =
      .ok { Categories := [⟨"c1", "income", "Salary"⟩] } := by
  refine ⟨rfl, rfl, rfl, ?_, rfl⟩
  intro h
  have h' : YAMLImport lib "export.yaml"
      (.ok (renderYAML lib [] [⟨"c1", "income", quotedName⟩] [])) =
      .ok { Categories := [⟨"c1", "income", ⟨['a', backslash, dquote, 'b']⟩⟩] } := rfl
  rw [h'] at h
  revert h
  decide


/-- C22 (the claim as stated fails): the factory takes the ID of the new
operation from its generator and nothing checks that the ID is free. When the
random source delivers the bytes of the UUID under which the file already holds
an operation (an income of 10), `AddOperation` of an income of 7 succeeds and
takes the place of that operation in the cache, `DeleteOperation` of the ID
succeeds, and the repository, which listed one operation before, lists none;
the file holds the operation of 7 instead of the one of 10. -/
theorem deleteOperation_after_id_collision :
    (ProxyRepository.ListOperations FileRepository.repo (NewProxyRepository uuidDisk)).1 =
      .ok [{ sampleOperation with ID := "00000000-0000-4000-8000-000000000000" }] ∧
    (OperationFacade.AddOperation (ProxyRepository.repo FileRepository.repo)
      (NewDomainFactory UUIDGenerator) (NewProxyRepository uuidDisk) zeroSource "income" "a1"
      "c1" (.finite 7) ⟨63900000000, 0, 0⟩ "").1 =
      .ok ⟨"00000000-0000-4000-8000-000000000000", "income", "a1", .finite 7,
        ⟨63900000000, 0, 0⟩, "", "c1"⟩ ∧
    (OperationFacade.DeleteOperation (ProxyRepository.repo FileRepository.repo)
      (OperationFacade.AddOperation (ProxyRepository.repo FileRepository.repo)
        (NewDomainFactory UUIDGenerator) (NewProxyRepository uuidDisk) zeroSource "income"
        "a1" "c1" (.finite 7) ⟨63900000000, 0, 0⟩ "").2.1
      "00000000-0000-4000-8000-000000000000").1 = none ∧
    (ProxyRepository.ListOperations FileRepository.repo
      (OperationFacade.DeleteOperation (ProxyRepository.repo FileRepository.repo)
        (OperationFacade.AddOperation (ProxyRepository.repo FileRepository.repo)
          (NewDomainFactory UUIDGenerator) (NewProxyRepository uuidDisk) zeroSource "income"
          "a1" "c1" (.finite 7) ⟨63900000000, 0, 0⟩ "").2.1
        "00000000-0000-4000-8000-000000000000").2).1 = .ok [] ∧
    ((OperationFacade.DeleteOperation (ProxyRepository.repo FileRepository.repo)
      (OperationFacade.AddOperation (ProxyRepository.repo FileRepository.repo)
        (NewDomainFactory UUIDGenerator) (NewProxyRepository uuidDisk) zeroSource "income"
        "a1" "c1" (.finite 7) ⟨63900000000, 0, 0⟩ "").2.1
      "00000000-0000-4000-8000-000000000000").2.base.persisted.map
        StorageData.Operations) =
      some [⟨"00000000-0000-4000-8000-000000000000", "income", "a1", .finite 7,
        ⟨63900000000, 0, 0⟩, "", "c1"⟩] := by
  decide!


/-- C31: the cache key invariant, over any wrapped store. A fresh proxy has it;
every call (the lazy load it may trigger included, a `Create*`, `Update*`,
`Delete*` or `ReplaceAll`, a read, a failing call) keeps each of the three maps
holding every key once and every entity under its own ID; so it holds in every
state reached from a fresh proxy by any sequence of calls, and in such a state
no `List*` returns two entities with the same ID. -/
theorem cache_key_invariant (b : Repository σ) (s : σ) (calls : List Call) :
    (NewProxyRepository s).WellFormed ∧
    (∀ (p : ProxyRepository σ) (c : Call), p.WellFormed →
      ((ProxyRepository.repo b).call p c).2.WellFormed) ∧
    ((ProxyRepository.repo b).run (NewProxyRepository s) calls).CacheInv ∧
    (∀ l, (ProxyRepository.ListAccounts b
        ((ProxyRepository.repo b).run (NewProxyRepository s) calls)).1 = .ok l →
      (ids l).Nodup) ∧
    (∀ l, (ProxyRepository.ListCategories b
        ((ProxyRepository.repo b).run (NewProxyRepository s) calls)).1 = .ok l →
      (ids l).Nodup) ∧
    (∀ l, (ProxyRepository.ListOperations b
        ((ProxyRepository.repo b).run (NewProxyRepository s) calls)).1 = .ok l →
      (ids l).Nodup) := by
  have hq := run_wellFormed b calls (NewProxyRepository s) (new_wellFormed s)
  have hl := ensureLoaded_wellFormed b _ hq
  refine ⟨new_wellFormed s, fun p c h => call_wellFormed b p c h, hq.1, ?_, ?_, ?_⟩
  · intro l h
    unfold ProxyRepository.ListAccounts at h
    revert h hl
    rcases ProxyRepository.ensureLoaded b
      ((ProxyRepository.repo b).run (NewProxyRepository s) calls) with ⟨_ | e, q⟩
    · intro hl h
      simp only [Except.ok.injEq] at h
      subst h
      exact ids_values_nodup _ hl.1.1 hl.2.1
    · intro _ h
      cases h
  · intro l h
    unfold ProxyRepository.ListCategories at h
    revert h hl
    rcases ProxyRepository.ensureLoaded b
      ((ProxyRepository.repo b).run (NewProxyRepository s) calls) with ⟨_ | e, q⟩
    · intro hl h
      simp only [Except.ok.injEq] at h
      subst h
      exact ids_values_nodup _ hl.1.2.1 hl.2.2.1
    · intro _ h
      cases h
  · intro l h
    unfold ProxyRepository.ListOperations at h
    revert h hl
    rcases ProxyRepository.ensureLoaded b
      ((ProxyRepository.repo b).run (NewProxyRepository s) calls) with ⟨_ | e, q⟩
    · intro hl h
      simp only [Except.ok.injEq] at h
      subst h
      exact ids_values_nodup _ hl.1.2.2 hl.2.2.2
    · intro _ h
      cases h

/-- Witness of C31: over the file that holds two categories under the ID `c1`,
after a `CreateCategory` under `c1` again and a `ReplaceAll` with two accounts
under `a1`, the proxy lists one category and one account. -/
theorem cache_key_invariant_witness :
    (ProxyRepository.ListCategories FileRepository.repo
      ((ProxyRepository.repo FileRepository.repo).run (NewProxyRepository twinCategoryDisk)
        [.createCategory ⟨"c1", "income", "Bonus"⟩])).1 =
      .ok [⟨"c1", "income", "Bonus"⟩] ∧
    (ids [(⟨"c1", "income", "Bonus"⟩ : Category)]).Nodup ∧
    (ProxyRepository.ListAccounts FileRepository.repo
      ((ProxyRepository.repo FileRepository.repo).run (NewProxyRepository twinCategoryDisk)
        [.replaceAll { Accounts := [sampleAccount, sampleTwin] }])).1 = .ok [sampleTwin] ∧
    (ids [sampleTwin]).Nodup :=
  ⟨by decide,
    (cache_key_invariant FileRepository.repo twinCategoryDisk
      [.createCategory ⟨"c1", "income", "Bonus"⟩]).2.2.2.2.1 _ (by decide),
    by decide,
    (cache_key_invariant FileRepository.repo twinCategoryDisk
      [.replaceAll { Accounts := [sampleAccount, sampleTwin] }]).2.2.2.1 _ (by decide)⟩


/-- C32 (as the code behaves): a per-kind write whose save fails after `os.Create`
has truncated the file does not leave the two other collections as they were.
The sample file holds the category `c1` and the operation `o1`. `UpdateAccount`
of `a1` with a NaN balance on the file store returns the encode error, and the
store then lists no category and no operation. Through a proxy that has not
loaded yet, `CreateAccount` with a NaN balance returns the same error, and the
proxy then lists no category and no operation, where before the call it listed
`c1` and `o1`. -/
theorem failed_save_empties_other_collections :
    (FileRepository.ListCategories sampleDisk).1 = .ok [sampleCategory] ∧
    (FileRepository.ListOperations sampleDisk).1 = .ok [sampleOperation] ∧
    (FileRepository.UpdateAccount sampleDisk { sampleAccount with Balance := .nan }).1 =
      some (.wrap "encode storage" (.text "json: unsupported value")) ∧
    (FileRepository.ListCategories
      (FileRepository.UpdateAccount sampleDisk { sampleAccount with Balance := .nan }).2).1 =
      .ok [] ∧
    (FileRepository.ListOperations
      (FileRepository.UpdateAccount sampleDisk { sampleAccount with Balance := .nan }).2).1 =
      .ok [] ∧
    (ProxyRepository.ListCategories FileRepository.repo (NewProxyRepository sampleDisk)).1 =
      .ok [sampleCategory] ∧
    (ProxyRepository.ListOperations FileRepository.repo (NewProxyRepository sampleDisk)).1 =
      .ok [sampleOperation] ∧
    (ProxyRepository.CreateAccount FileRepository.repo (NewProxyRepository sampleDisk)
      sampleNaN).1 = some (.wrap "encode storage" (.text "json: unsupported value")) ∧
    (ProxyRepository.ListCategories FileRepository.repo
      (ProxyRepository.CreateAccount FileRepository.repo (NewProxyRepository sampleDisk)
        sampleNaN).2).1 = .ok [] ∧
    (ProxyRepository.ListOperations FileRepository.repo
      (ProxyRepository.CreateAccount FileRepository.repo (NewProxyRepository sampleDisk)
        sampleNaN).2).1 = .ok [] := by
  decide


/-- C21 (the claim as stated fails): over a file in which the ID `a1` names two
accounts, `Checking` with balance 100 and after it `Savings` with balance 5,
`AddOperation` of an income of 7 on `a1` succeeds: the proxy looks up the account
cached last, the store overwrites the first one, and the stored account that
read as `Checking` with 100 reads as `Savings` with 12, not with 107. -/
theorem addOperation_on_twin_account :
    (FileRepository.GetAccount twinAccountDisk "a1").1 = .ok ⟨"a1", "Checking", .finite 100⟩ ∧
    (OperationFacade.AddOperation (ProxyRepository.repo FileRepository.repo)
      (NewDomainFactory (fixedID "o2")) (NewProxyRepository twinAccountDisk) () "income" "a1"
      "c1" (.finite 7) ⟨63900000000, 0, 0⟩ "").1 =
      .ok ⟨"o2", "income", "a1", .finite 7, ⟨63900000000, 0, 0⟩, "", "c1"⟩ ∧
    (FileRepository.GetAccount
      (OperationFacade.AddOperation (ProxyRepository.repo FileRepository.repo)
        (NewDomainFactory (fixedID "o2")) (NewProxyRepository twinAccountDisk) () "income" "a1"
        "c1" (.finite 7) ⟨63900000000, 0, 0⟩ "").2.1.base "a1").1 =
      .ok ⟨"a1", "Savings", .finite 12⟩ ∧
    ((OperationFacade.AddOperation (ProxyRepository.repo FileRepository.repo)
        (NewDomainFactory (fixedID "o2")) (NewProxyRepository twinAccountDisk) () "income" "a1"
        "c1" (.finite 7) ⟨63900000000, 0, 0⟩ "").2.1.base.persisted.map
          StorageData.Accounts) =
      some [⟨"a1", "Savings", .finite 12⟩, ⟨"a1", "Savings", .finite 5⟩] := by
  decide!

/-- C21 (amended): on a proxy whose cache is in step with a store without I/O
faults whose snapshot `d` has unique IDs, for an amount that is a `float64`: when
`AddOperation` returns an operation whose ID was not in use, the operation has
the type, account, category, amount, date and trimmed description asked for, `d`
held an account `acc` under `accountID`, and the file holds `d` with the
operation appended and `acc` replaced by `acc` with the balance
`acc.Balance + amount` for an income and `acc.Balance - amount` for an expense
(one rounded `float64` operation); every other account ID reads as before, and
the cache is again in step, so the proxy returns the operation and the account
so updated. -/
theorem addOperation_stores_and_applies {γ : Type} (f : DomainFactory γ)
    (p : ProxyRepository Disk) (d : StorageData) (g : γ) (opType : OperationType)
    (accountID categoryID : String) (amount : Float64) (date : Time) (description : String)
    (op : Operation) (hs : p.base.Sound) (hy : Synced p) (hp : p.base.persisted = some d)
    (hfl : amount.IsFloat)
    (hok : (OperationFacade.AddOperation (ProxyRepository.repo FileRepository.repo) f p g
      opType accountID categoryID amount date description).1 = .ok op)
    (hfresh : op.ID ∉ ids d.Operations) :
    ∃ acc, firstByID d.Accounts accountID = some acc ∧
      op = ⟨op.ID, opType, accountID, amount, date, TrimSpace description, categoryID⟩ ∧
      (opType = OperationTypeIncome ∨ opType = OperationTypeExpense) ∧
      (OperationFacade.AddOperation (ProxyRepository.repo FileRepository.repo) f p g
        opType accountID categoryID amount date description).2.1.base.persisted =
        some { d with
          Accounts := refReplaceFirst d.Accounts
            { acc with
              Balance :=
                if opType = OperationTypeIncome then acc.Balance.add amount
                else acc.Balance.sub amount }
          Operations := refAppend d.Operations op } ∧
      (∀ id, id ≠ accountID →
        firstByID (refReplaceFirst d.Accounts
          { acc with
            Balance :=
              if opType = OperationTypeIncome then acc.Balance.add amount
              else acc.Balance.sub amount }) id = firstByID d.Accounts id) ∧
      (OperationFacade.AddOperation (ProxyRepository.repo FileRepository.repo) f p g
        opType accountID categoryID amount date description).2.1.base.Sound ∧
      Synced (OperationFacade.AddOperation (ProxyRepository.repo FileRepository.repo) f p g
        opType accountID categoryID amount date description).2.1 ∧
      (ProxyRepository.GetOperation FileRepository.repo
        (OperationFacade.AddOperation (ProxyRepository.repo FileRepository.repo) f p g
          opType accountID categoryID amount date description).2.1 op.ID).1 = .ok op ∧
      (ProxyRepository.GetAccount FileRepository.repo
        (OperationFacade.AddOperation (ProxyRepository.repo FileRepository.repo) f p g
          opType accountID categoryID amount date description).2.1 accountID).1 =
        .ok { acc with
          Balance :=
            if opType = OperationTypeIncome then acc.Balance.add amount
            else acc.Balance.sub amount } := by
  obtain ⟨p₁, hl, _, h₁⟩ := inStep_of_synced p d hs hy hp
  rw [addOperation_through_guard FileRepository.repo f p p₁ g opType accountID categoryID
    amount date description hl (inStep_ensureLoaded p₁ d h₁)] at hok ⊢
  rcases hr : OperationFacade.AddOperation (ProxyRepository.repo FileRepository.repo) f p₁ g
    opType accountID categoryID amount date description with ⟨r, q, g'⟩
  rw [hr] at hok
  simp only at hok ⊢
  subst hok
  obtain ⟨acc, hacc, hop, ht, hq⟩ := addOperation_inStep f p₁ q d g g' opType accountID
    categoryID amount date description op h₁ hfl hr hfresh
  have hbal : acc.Balance.add op.effect =
      if opType = OperationTypeIncome then acc.Balance.add amount
      else acc.Balance.sub amount := by
    rw [add_effect, hop]
  rw [hbal] at hq
  have hid : acc.ID = accountID := (mem_of_firstByID _ _ _ hacc).2
  obtain ⟨hsq, hyq, hpq⟩ := inStep_sound q _ hq
  have hgo := inStep_getOperation q _ hq op.ID
  have hga := inStep_getAccount q _ hq accountID
  refine ⟨acc, hacc, hop, ht, hpq, ?_, hsq, hyq, ?_, ?_⟩
  · intro id hne
    exact firstByID_refReplaceFirst_ne _ _ _ (by rw [show HasID.ID
      ({ acc with
          Balance :=
            if opType = OperationTypeIncome then acc.Balance.add amount
            else acc.Balance.sub amount } : BankAccount) = acc.ID from rfl, hid]; exact hne)
  · show ((ProxyRepository.repo FileRepository.repo).GetOperation q op.ID).1 = _
    rw [hgo]
    simp only
    have h5 : firstByID (refAppend d.Operations op) op.ID = some op :=
      firstByID_refAppend_self d.Operations op hfresh
    rw [h5]
  · show ((ProxyRepository.repo FileRepository.repo).GetAccount q accountID).1 = _
    rw [hga]
    simp only
    have := firstByID_refReplaceFirst_self d.Accounts
      ({ acc with
          Balance :=
            if opType = OperationTypeIncome then acc.Balance.add amount
            else acc.Balance.sub amount } : BankAccount) acc
      (by rw [show HasID.ID
        ({ acc with
            Balance :=
              if opType = OperationTypeIncome then acc.Balance.add amount
              else acc.Balance.sub amount } : BankAccount) = accountID from hid]; exact hacc)
    rw [show HasID.ID
        ({ acc with
            Balance :=
              if opType = OperationTypeIncome then acc.Balance.add amount
              else acc.Balance.sub amount } : BankAccount) = accountID from hid] at this
    rw [this]

/-- Witness of C21 (amended): an income of 7 added to the account `a1` of the
sample file, whose stored balance goes from 100 to 107. -/
theorem addOperation_stores_and_applies_witness :
    (NewProxyRepository sampleDisk).base.Sound ∧ Synced (NewProxyRepository sampleDisk) ∧
    (Float64.finite 7).IsFloat ∧
    (OperationFacade.AddOperation (ProxyRepository.repo FileRepository.repo)
      (NewDomainFactory (fixedID "o2")) (NewProxyRepository sampleDisk) () "income" "a1" "c1"
      (.finite 7) ⟨63900000000, 0, 0⟩ " bonus ").1 =
      .ok ⟨"o2", "income", "a1", .finite 7, ⟨63900000000, 0, 0⟩, "bonus", "c1"⟩ ∧
    (Float64.finite 100).add (.finite 7) = .finite 107 ∧
    ∃ acc, firstByID sampleData.Accounts "a1" = some acc ∧
      (OperationFacade.AddOperation (ProxyRepository.repo FileRepository.repo)
        (NewDomainFactory (fixedID "o2")) (NewProxyRepository sampleDisk) () "income" "a1"
        "c1" (.finite 7) ⟨63900000000, 0, 0⟩ " bonus ").2.1.base.persisted =
        some { sampleData with
          Accounts := refReplaceFirst sampleData.Accounts
            { acc with
              Balance :=
                if "income" = OperationTypeIncome then acc.Balance.add (.finite 7)
                else acc.Balance.sub (.finite 7) }
          Operations := refAppend sampleData.Operations
            ⟨"o2", "income", "a1", .finite 7, ⟨63900000000, 0, 0⟩, "bonus", "c1"⟩ } := by
  obtain ⟨acc, hacc, _, _, hpers, _⟩ :=
    addOperation_stores_and_applies (NewDomainFactory (fixedID "o2"))
      (NewProxyRepository sampleDisk) sampleData () "income" "a1" "c1" (.finite 7)
      ⟨63900000000, 0, 0⟩ " bonus "
      ⟨"o2", "income", "a1", .finite 7, ⟨63900000000, 0, 0⟩, "bonus", "c1"⟩
      ⟨rfl, rfl, rfl, sampleData, rfl, by decide, by decide⟩ (Or.inl ⟨rfl, rfl⟩) rfl
      (by decide) (by decide!) (by decide)
  exact ⟨⟨rfl, rfl, rfl, sampleData, rfl, by decide, by decide⟩, Or.inl ⟨rfl, rfl⟩,
    by decide, by decide!, by decide!, acc, hacc, hpers⟩


/-- C22 (amended): `DeleteOperation` takes back `AddOperation` when the ID of the
new operation was not in use and the addition needs no rounding. On a proxy
whose cache is in step with a store without I/O faults whose snapshot `d` has
unique IDs, with the balance of the account and the amount `float64` values whose
exact sum (difference, for an expense) is a `float64` again: when `AddOperation`
returns an operation under an unused ID and `DeleteOperation` of that ID then
returns nil, the file holds `d` again, every account with its balance and every
operation as before, and the cache is in step with it. -/
theorem deleteOperation_reverts_addOperation {γ : Type} (f : DomainFactory γ)
    (p : ProxyRepository Disk) (d : StorageData) (g : γ) (opType : OperationType)
    (accountID categoryID : String) (x : ℚ) (date : Time) (description : String)
    (op : Operation) (hs : p.base.Sound) (hy : Synced p) (hp : p.base.persisted = some d)
    (hfl : (Float64.finite x).IsFloat)
    (hadd : (OperationFacade.AddOperation (ProxyRepository.repo FileRepository.repo) f p g
      opType accountID categoryID (.finite x) date description).1 = .ok op)
    (hfresh : op.ID ∉ ids d.Operations)
    (hexact : ∀ acc, firstByID d.Accounts accountID = some acc →
      ∃ b, acc.Balance = .finite b ∧ Float64.ofRat b = .finite b ∧
        Float64.ofRat (b + (if opType = OperationTypeIncome then x else -x)) =
          .finite (b + (if opType = OperationTypeIncome then x else -x)))
    (hdel : (OperationFacade.DeleteOperation (ProxyRepository.repo FileRepository.repo)
      (OperationFacade.AddOperation (ProxyRepository.repo FileRepository.repo) f p g opType
        accountID categoryID (.finite x) date description).2.1 op.ID).1 = none) :
    (OperationFacade.DeleteOperation (ProxyRepository.repo FileRepository.repo)
      (OperationFacade.AddOperation (ProxyRepository.repo FileRepository.repo) f p g opType
        accountID categoryID (.finite x) date description).2.1 op.ID).2.base.persisted =
      some d ∧
    (OperationFacade.DeleteOperation (ProxyRepository.repo FileRepository.repo)
      (OperationFacade.AddOperation (ProxyRepository.repo FileRepository.repo) f p g opType
        accountID categoryID (.finite x) date description).2.1 op.ID).2.base.Sound ∧
    Synced (OperationFacade.DeleteOperation (ProxyRepository.repo FileRepository.repo)
      (OperationFacade.AddOperation (ProxyRepository.repo FileRepository.repo) f p g opType
        accountID categoryID (.finite x) date description).2.1 op.ID).2 := by
  obtain ⟨p₁, hl, _, h₁⟩ := inStep_of_synced p d hs hy hp
  rw [addOperation_through_guard FileRepository.repo f p p₁ g opType accountID categoryID
    (.finite x) date description hl (inStep_ensureLoaded p₁ d h₁)] at hadd hdel ⊢
  rcases hr : OperationFacade.AddOperation (ProxyRepository.repo FileRepository.repo) f p₁ g
    opType accountID categoryID (.finite x) date description with ⟨r, q, g'⟩
  rw [hr] at hadd hdel
  simp only at hadd hdel ⊢
  subst hadd
  obtain ⟨acc, hacc, hop, ht, hq⟩ := addOperation_inStep f p₁ q d g g' opType accountID
    categoryID (.finite x) date description op h₁ hfl hr hfresh
  rcases hr₂ : OperationFacade.DeleteOperation (ProxyRepository.repo FileRepository.repo) q
    op.ID with ⟨r₂, q₂⟩
  rw [hr₂] at hdel
  simp only at hdel ⊢
  subst hdel
  have hself : firstByID (refAppend d.Operations op) op.ID = some op :=
    firstByID_refAppend_self d.Operations op hfresh
  have hamt : op.Amount = .finite x := by rw [hop]
  have hbank : op.BankAccountID = accountID := by rw [hop]
  have htyp : op.Typ = opType := by rw [hop]
  obtain ⟨op', acc', hop', hacc', hq₂⟩ := deleteOperation_inStep q q₂ _ op.ID hq
    (by
      intro o ho
      simp only at ho
      rw [hself] at ho
      cases ho
      rw [hamt]
      exact hfl) hr₂
  simp only at hop' hacc' hq₂
  rw [hself] at hop'
  cases hop'
  have hid : acc.ID = accountID := (mem_of_firstByID _ _ _ hacc).2
  have hacc₁ : firstByID (refReplaceFirst d.Accounts
      { acc with Balance := acc.Balance.add op.effect }) accountID =
      some { acc with Balance := acc.Balance.add op.effect } := by
    have := firstByID_refReplaceFirst_self d.Accounts
      ({ acc with Balance := acc.Balance.add op.effect } : BankAccount) acc
      (by rw [show HasID.ID ({ acc with Balance := acc.Balance.add op.effect } : BankAccount) =
        accountID from hid]; exact hacc)
    rw [show HasID.ID ({ acc with Balance := acc.Balance.add op.effect } : BankAccount) =
      accountID from hid] at this
    exact this
  rw [hbank, hacc₁] at hacc'
  cases hacc'
  obtain ⟨b, hb, hbf, hsum⟩ := hexact acc hacc
  have heff : op.effect = .finite (if opType = OperationTypeIncome then x else -x) := by
    unfold Operation.effect
    rw [htyp, hamt]
    by_cases hi : opType = OperationTypeIncome
    · rw [if_pos hi, if_pos hi]
    · rw [if_neg hi, if_neg hi]
      rfl
  have hback : (acc.Balance.add op.effect).sub op.effect = acc.Balance := by
    rw [heff, hb]
    exact float_add_sub_cancel b _ hbf hsum
  have hback' : ({ acc with Balance := (acc.Balance.add op.effect).sub op.effect } :
      BankAccount) = acc := by
    rw [hback]
  simp only at hq₂
  rw [hback'] at hq₂
  have hA : refReplaceFirst (refReplaceFirst d.Accounts
      { acc with Balance := acc.Balance.add op.effect }) acc = d.Accounts :=
    refReplaceFirst_back d.Accounts _ acc rfl
      (by rw [show HasID.ID acc = accountID from hid]; exact hacc)
  have hO : refRemoveFirst (refAppend d.Operations op) op.ID = d.Operations :=
    refRemoveFirst_refAppend d.Operations op hfresh
  rw [hA, hO] at hq₂
  obtain ⟨hsq, hyq, hpq⟩ := inStep_sound q₂ _ hq₂
  exact ⟨hpq, hsq, hyq⟩

/-- Witness of C22 (amended): an income of 7 is added to the account `a1` of the
sample file (balance 100, and 107 is a `float64`) and deleted again. -/
theorem deleteOperation_reverts_addOperation_witness :
    (NewProxyRepository sampleDisk).base.Sound ∧ Synced (NewProxyRepository sampleDisk) ∧
    (OperationFacade.AddOperation (ProxyRepository.repo FileRepository.repo)
      (NewDomainFactory (fixedID "o2")) (NewProxyRepository sampleDisk) () "income" "a1" "c1"
      (.finite 7) ⟨63900000000, 0, 0⟩ "").1 =
      .ok ⟨"o2", "income", "a1", .finite 7, ⟨63900000000, 0, 0⟩, "", "c1"⟩ ∧
    ((OperationFacade.AddOperation (ProxyRepository.repo FileRepository.repo)
      (NewDomainFactory (fixedID "o2")) (NewProxyRepository sampleDisk) () "income" "a1" "c1"
      (.finite 7) ⟨63900000000, 0, 0⟩ "").2.1.base.persisted.map StorageData.Accounts) =
      some [⟨"a1", "Checking", .finite 107⟩] ∧
    (OperationFacade.DeleteOperation (ProxyRepository.repo FileRepository.repo)
      (OperationFacade.AddOperation (ProxyRepository.repo FileRepository.repo)
        (NewDomainFactory (fixedID "o2")) (NewProxyRepository sampleDisk) () "income" "a1"
        "c1" (.finite 7) ⟨63900000000, 0, 0⟩ "").2.1 "o2").2.base.persisted =
      some sampleData :=
  ⟨⟨rfl, rfl, rfl, sampleData, rfl, by decide, by decide⟩, Or.inl ⟨rfl, rfl⟩, by decide!,
    by decide!,
    (deleteOperation_reverts_addOperation (NewDomainFactory (fixedID "o2"))
      (NewProxyRepository sampleDisk) sampleData () "income" "a1" "c1" 7
      ⟨63900000000, 0, 0⟩ ""
      ⟨"o2", "income", "a1", .finite 7, ⟨63900000000, 0, 0⟩, "", "c1"⟩
      ⟨rfl, rfl, rfl, sampleData, rfl, by decide, by decide⟩ (Or.inl ⟨rfl, rfl⟩) rfl
      (by decide) (by decide!) (by decide)
      (by
        intro acc hacc
        have : acc = sampleAccount := by
          have h' : firstByID sampleData.Accounts "a1" = some sampleAccount := by decide
          rw [h'] at hacc
          exact (Option.some.inj hacc).symm
        subst this
        exact ⟨100, rfl, by decide, by decide!⟩)
      (by decide!)).1⟩


/-- C23 (the claim as stated fails): over the file in which the ID `a1` names two
accounts, `Checking` with balance 100 and after it `Savings` with balance 5,
changing the amount of the income `o1` on `a1` from 10 to 25 succeeds: the proxy
works on the account cached last, the store overwrites the first one, and the
stored account that read as `Checking` with 100 reads as `Savings` with 20, not
with 115. -/
theorem updateOperation_on_twin_account :
    (FileRepository.GetAccount twinAccountDisk "a1").1 = .ok ⟨"a1", "Checking", .finite 100⟩ ∧
    (FileRepository.GetOperation twinAccountDisk "o1").1 = .ok sampleOperation ∧
    (OperationFacade.UpdateOperation (ProxyRepository.repo FileRepository.repo)
      (NewDomainFactory (fixedID "o2")) (NewProxyRepository twinAccountDisk) () "o1" "income"
      "a1" "c1" (.finite 25) ⟨63900000000, 0, 0⟩ "").1 = none ∧
    (FileRepository.GetAccount
      (OperationFacade.UpdateOperation (ProxyRepository.repo FileRepository.repo)
        (NewDomainFactory (fixedID "o2")) (NewProxyRepository twinAccountDisk) () "o1" "income"
        "a1" "c1" (.finite 25) ⟨63900000000, 0, 0⟩ "").2.1.base "a1").1 =
      .ok ⟨"a1", "Savings", .finite 20⟩ ∧
    ((OperationFacade.UpdateOperation (ProxyRepository.repo FileRepository.repo)
        (NewDomainFactory (fixedID "o2")) (NewProxyRepository twinAccountDisk) () "o1" "income"
        "a1" "c1" (.finite 25) ⟨63900000000, 0, 0⟩ "").2.1.base.persisted.map
          StorageData.Accounts) =
      some [⟨"a1", "Savings", .finite 20⟩, ⟨"a1", "Savings", .finite 5⟩] := by
  decide!

/-- C23 (amended): on a proxy whose cache is in step with a store without I/O
faults whose snapshot `d` has unique IDs, for amounts that are `float64` values:
when `UpdateOperation` returns nil, `d` held an operation `prev` under `id` and
its account `accP`, and the file holds `d` with the operation under `id`
replaced by the operation with the same ID and the new type, account, category,
amount, date and trimmed description, with the effect of `prev` taken from the
balance of `accP`, and with the effect of the new operation added to the balance
of the account named in the call (which is `accP` with the first change when the
account is the same, so the net change is the new effect minus the old one);
every other account ID reads as before, and the cache is again in step. -/
theorem updateOperation_reapplies_balances {γ : Type} (f : DomainFactory γ)
    (p : ProxyRepository Disk) (d : StorageData) (g : γ) (id : String)
    (opType : OperationType) (accountID categoryID : String) (amount : Float64)
    (date : Time) (description : String) (hs : p.base.Sound) (hy : Synced p)
    (hp : p.base.persisted = some d) (hfl : amount.IsFloat)
    (hst : ∀ o, firstByID d.Operations id = some o → o.Amount.IsFloat)
    (hok : (OperationFacade.UpdateOperation (ProxyRepository.repo FileRepository.repo) f p g
      id opType accountID categoryID amount date description).1 = none) :
    ∃ prev accP accN,
      firstByID d.Operations id = some prev ∧
      firstByID d.Accounts prev.BankAccountID = some accP ∧
      (prev.BankAccountID = accountID →
        accN = { accP with Balance := accP.Balance.sub prev.effect }) ∧
      (prev.BankAccountID ≠ accountID → firstByID d.Accounts accountID = some accN) ∧
      (opType = OperationTypeIncome ∨ opType = OperationTypeExpense) ∧
      (OperationFacade.UpdateOperation (ProxyRepository.repo FileRepository.repo) f p g
        id opType accountID categoryID amount date description).2.1.base.persisted =
        some { d with
          Accounts := refReplaceFirst
            (refReplaceFirst d.Accounts
              { accP with Balance := accP.Balance.sub prev.effect })
            { accN with
              Balance := accN.Balance.add
                (Operation.effect
                  ⟨id, opType, accountID, amount, date, TrimSpace description,
                    categoryID⟩) }
          Operations := refReplaceFirst d.Operations
            ⟨id, opType, accountID, amount, date, TrimSpace description, categoryID⟩ } ∧
      firstByID (refReplaceFirst d.Operations
        ⟨id, opType, accountID, amount, date, TrimSpace description, categoryID⟩) id =
        some ⟨id, opType, accountID, amount, date, TrimSpace description, categoryID⟩ ∧
      (∀ id', id' ≠ prev.BankAccountID → id' ≠ accountID →
        firstByID (refReplaceFirst
            (refReplaceFirst d.Accounts
              { accP with Balance := accP.Balance.sub prev.effect })
            { accN with
              Balance := accN.Balance.add
                (Operation.effect
                  ⟨id, opType, accountID, amount, date, TrimSpace description,
                    categoryID⟩) }) id' = firstByID d.Accounts id') ∧
      (OperationFacade.UpdateOperation (ProxyRepository.repo FileRepository.repo) f p g
        id opType accountID categoryID amount date description).2.1.base.Sound ∧
      Synced (OperationFacade.UpdateOperation (ProxyRepository.repo FileRepository.repo) f p
        g id opType accountID categoryID amount date description).2.1 := by
  obtain ⟨p₁, hl, _, h₁⟩ := inStep_of_synced p d hs hy hp
  rw [updateOperation_through_guard FileRepository.repo f p p₁ g id opType accountID
    categoryID amount date description hl (inStep_ensureLoaded p₁ d h₁)] at hok ⊢
  rcases hr : OperationFacade.UpdateOperation (ProxyRepository.repo FileRepository.repo) f p₁
    g id opType accountID categoryID amount date description with ⟨r, q, g'⟩
  rw [hr] at hok
  simp only at hok ⊢
  subst hok
  obtain ⟨prev, accP, accN, hprev, haccP, haccN, ht, hq⟩ := updateOperation_inStep f p₁ q d g
    g' id opType accountID categoryID amount date description h₁ hfl hst hr
  obtain ⟨hsq, hyq, hpq⟩ := inStep_sound q _ hq
  have hidP : accP.ID = prev.BankAccountID := (mem_of_firstByID _ _ _ haccP).2
  have hidN : accN.ID = accountID := (mem_of_firstByID _ _ _ haccN).2
  refine ⟨prev, accP, accN, hprev, haccP, ?_, ?_, ht, hpq, ?_, ?_, hsq, hyq⟩
  · intro hsame
    have := firstByID_refReplaceFirst_self d.Accounts
      ({ accP with Balance := accP.Balance.sub prev.effect } : BankAccount) accP
      (by rw [show HasID.ID ({ accP with Balance := accP.Balance.sub prev.effect } :
        BankAccount) = prev.BankAccountID from hidP]; exact haccP)
    rw [show HasID.ID ({ accP with Balance := accP.Balance.sub prev.effect } :
      BankAccount) = accountID from hidP.trans hsame] at this
    rw [this] at haccN
    exact (Option.some.inj haccN).symm
  · intro hne
    rw [firstByID_refReplaceFirst_ne _ _ _ (by
      rw [show HasID.ID ({ accP with Balance := accP.Balance.sub prev.effect } :
        BankAccount) = prev.BankAccountID from hidP]
      exact Ne.symm hne)] at haccN
    exact haccN
  · have := firstByID_refReplaceFirst_self d.Operations
      (⟨id, opType, accountID, amount, date, TrimSpace description, categoryID⟩ : Operation)
      prev hprev
    exact this
  · intro id' h1 h2
    rw [firstByID_refReplaceFirst_ne _ _ _ (by
      rw [show HasID.ID ({ accN with
        Balance := accN.Balance.add
          (Operation.effect
            ⟨id, opType, accountID, amount, date, TrimSpace description, categoryID⟩) } :
        BankAccount) = accountID from hidN]
      exact h2),
      firstByID_refReplaceFirst_ne _ _ _ (by
      rw [show HasID.ID ({ accP with Balance := accP.Balance.sub prev.effect } :
        BankAccount) = prev.BankAccountID from hidP]
      exact h1)]

/-- Witness of C23 (amended): the income `o1` of the sample file (10 on account
`a1`, balance 100) becomes an income of 25: the stored balance is
`(100 - 10) + 25`. -/
theorem updateOperation_reapplies_balances_witness :
    (NewProxyRepository sampleDisk).base.Sound ∧ Synced (NewProxyRepository sampleDisk) ∧
    (OperationFacade.UpdateOperation (ProxyRepository.repo FileRepository.repo)
      (NewDomainFactory (fixedID "o2")) (NewProxyRepository sampleDisk) () "o1" "income" "a1"
      "c1" (.finite 25) ⟨63900000000, 0, 0⟩ " pay ").1 = none ∧
    (OperationFacade.UpdateOperation (ProxyRepository.repo FileRepository.repo)
      (NewDomainFactory (fixedID "o2")) (NewProxyRepository sampleDisk) () "o1" "income" "a1"
      "c1" (.finite 25) ⟨63900000000, 0, 0⟩ " pay ").2.1.base.persisted =
      some { sampleData with
        Accounts := [⟨"a1", "Checking", .finite 115⟩]
        Operations := [⟨"o1", "income", "a1", .finite 25, ⟨63900000000, 0, 0⟩, "pay", "c1"⟩] } ∧
    ∃ prev accP accN, firstByID sampleData.Operations "o1" = some prev ∧
      firstByID sampleData.Accounts prev.BankAccountID = some accP ∧
      (prev.BankAccountID = "a1" →
        accN = { accP with Balance := accP.Balance.sub prev.effect }) := by
  obtain ⟨prev, accP, accN, h1, h2, h3, _⟩ :=
    updateOperation_reapplies_balances (NewDomainFactory (fixedID "o2"))
      (NewProxyRepository sampleDisk) sampleData () "o1" "income" "a1" "c1" (.finite 25)
      ⟨63900000000, 0, 0⟩ " pay " ⟨rfl, rfl, rfl, sampleData, rfl, by decide, by decide⟩
      (Or.inl ⟨rfl, rfl⟩) rfl (by decide)
      (by
        intro o ho
        have h' : firstByID sampleData.Operations "o1" = some sampleOperation := by decide
        rw [h'] at ho
        cases ho
        decide)
      (by decide!)
  exact ⟨⟨rfl, rfl, rfl, sampleData, rfl, by decide, by decide⟩, Or.inl ⟨rfl, rfl⟩,
    by decide!, by decide!, prev, accP, accN, h1, h2, h3⟩


/-- C24 (the claim as stated fails): the loop adds and subtracts the amounts one
by one in the order of the list, each step rounded to a `float64`, so the result
is not the sum of the incomes minus the sum of the expenses. The file holds, on
the account `a1`, an income of 1, an income of `2 ^ 53`, an expense of `2 ^ 53`
and an income of 1, in this order. `RecalculateBalance` on the file store sets
the balance to 1 (`1 + 2 ^ 53` rounds to `2 ^ 53`); the sum of the incomes minus
the sum of the expenses is 0 in `float64` arithmetic and 2 in exact
arithmetic. -/
theorem recalculateBalance_rounds_step_by_step :
    (AccountFacade.RecalculateBalance FileRepository.repo roundingDisk "a1").1 = none ∧
    ((AccountFacade.RecalculateBalance FileRepository.repo roundingDisk "a1").2.persisted.map
      StorageData.Accounts) = some [⟨"a1", "Checking", .finite 1⟩] ∧
    (total (amountsOf OperationTypeIncome "a1" (roundingDisk.persisted.getD {}).Operations)).sub
      (total (amountsOf OperationTypeExpense "a1"
        (roundingDisk.persisted.getD {}).Operations)) = .finite 0 ∧
    exactTotal (amountsOf OperationTypeIncome "a1" (roundingDisk.persisted.getD {}).Operations) -
      exactTotal (amountsOf OperationTypeExpense "a1"
        (roundingDisk.persisted.getD {}).Operations) = 2 := by
  decide!

/-- C24 (amended): on a proxy whose cache is in step with a store without I/O
faults whose snapshot `d` has unique IDs. If `d` holds no account under `id`,
`RecalculateBalance(id)` returns the not-found error and leaves the file as it
is. If `d` holds the account `acc` under `id` and the repository lists the
operations `ops` (the stored operations, in the order of the listing), the new
balance is the running total, from zero and in the order of `ops`, of the amount
of each income on `id` and the negated amount of each expense on `id`, every
step rounded to a `float64`; the previous balance plays no part. The call
returns nil when this total is a number JSON can hold, and whenever it returns
nil the file holds `d` with `acc` replaced by `acc` with this balance (same ID,
same name) and the cache is again in step. -/
theorem recalculateBalance_sets_balance (p : ProxyRepository Disk) (d : StorageData)
    (id : String) (hs : p.base.Sound) (hy : Synced p) (hp : p.base.persisted = some d) :
    (id ∉ ids d.Accounts →
      (AccountFacade.RecalculateBalance (ProxyRepository.repo FileRepository.repo) p id).1 =
        some (notFound "account" id) ∧
      (AccountFacade.RecalculateBalance (ProxyRepository.repo FileRepository.repo)
        p id).2.base = p.base) ∧
    (∀ acc ops, firstByID d.Accounts id = some acc →
      (ProxyRepository.ListOperations FileRepository.repo p).1 = .ok ops →
      ops.Perm d.Operations ∧
      ((total (effectsOn id ops)).isFinite = true →
        (AccountFacade.RecalculateBalance (ProxyRepository.repo FileRepository.repo)
          p id).1 = none) ∧
      ((AccountFacade.RecalculateBalance (ProxyRepository.repo FileRepository.repo)
          p id).1 = none →
        (AccountFacade.RecalculateBalance (ProxyRepository.repo FileRepository.repo)
          p id).2.base.persisted =
          some { d with
            Accounts := refReplaceFirst d.Accounts
              { acc with Balance := total (effectsOn id ops) } } ∧
        (AccountFacade.RecalculateBalance (ProxyRepository.repo FileRepository.repo)
          p id).2.base.Sound ∧
        Synced (AccountFacade.RecalculateBalance (ProxyRepository.repo FileRepository.repo)
          p id).2)) := by
  obtain ⟨p₁, hl, hb, h₁⟩ := inStep_of_synced p d hs hy hp
  have hl₁ := inStep_ensureLoaded p₁ d h₁
  rw [recalculate_through_guard FileRepository.repo p p₁ id hl hl₁]
  constructor
  · intro habs
    have hk := (firstByID_eq_none d.Accounts id).2 habs
    unfold AccountFacade.RecalculateBalance
    rw [inStep_getAccount p₁ d h₁, hk]
    exact ⟨rfl, hb⟩
  · intro acc ops hacc hops
    have hlist : ProxyRepository.ListOperations FileRepository.repo p =
        ProxyRepository.ListOperations FileRepository.repo p₁ :=
      (reads_after_guard FileRepository.repo p p₁ hl hl₁).2.2.2
    have hlist₁ : ProxyRepository.ListOperations FileRepository.repo p₁ =
        (.ok d.Operations, p₁) := inStep_listOperations p₁ d h₁
    rw [hlist, hlist₁] at hops
    simp only [Except.ok.injEq] at hops
    subst hops
    refine ⟨List.Perm.refl _, ?_, ?_⟩
    · intro hfin
      have hi : indexOfID d.Accounts id ≠ none := by
        intro hn
        have := (firstByID_eq_none d.Accounts id).2 ((indexOfID_eq_none d.Accounts id).1 hn)
        rw [this] at hacc
        cases hacc
      have hid : acc.ID = id := (mem_of_firstByID _ _ _ hacc).2
      cases hix : indexOfID d.Accounts id with
      | none => exact absurd hix hi
      | some i =>
        have hm : FileRepository.mutation
            (.updateAccount { acc with Balance := total (effectsOn id d.Operations) }) d =
            .ok { d with
              Accounts := d.Accounts.set i
                { acc with Balance := total (effectsOn id d.Operations) } } := by
          simp only [FileRepository.mutation]
          rw [show ({ acc with Balance := total (effectsOn id d.Operations) } :
            BankAccount).ID = id from hid, hix]
        have hrep := inStep_write_ok p₁ d _
          (.updateAccount { acc with Balance := total (effectsOn id d.Operations) }) h₁ rfl
          rfl (by simp [Call.encodes, BankAccount.encodeError, hfin]) hm
        unfold AccountFacade.RecalculateBalance
        rw [inStep_getAccount p₁ d h₁, hacc]
        simp only
        rw [inStep_listOperations p₁ d h₁]
        simp only
        rw [recalculated_effects]
        simp only [Repository.call, Reply.done.injEq] at hrep
        exact hrep
    · intro hok
      rcases hr : AccountFacade.RecalculateBalance (ProxyRepository.repo FileRepository.repo)
        p₁ id with ⟨r, q⟩
      rw [hr] at hok
      simp only at hok ⊢
      subst hok
      obtain ⟨acc', hacc', hq⟩ := recalculate_inStep p₁ q d id h₁ hr
      rw [hacc] at hacc'
      cases hacc'
      obtain ⟨hsq, hyq, hpq⟩ := inStep_sound q _ hq
      exact ⟨hpq, hsq, hyq⟩

/-- Witness of C24 (amended): on the sample file the balance of `a1` (100) is set
to the one income of 10; no account has the ID `zz`. -/
theorem recalculateBalance_sets_balance_witness :
    (NewProxyRepository sampleDisk).base.Sound ∧ Synced (NewProxyRepository sampleDisk) ∧
    "zz" ∉ ids sampleData.Accounts ∧
    (AccountFacade.RecalculateBalance (ProxyRepository.repo FileRepository.repo)
      (NewProxyRepository sampleDisk) "zz").1 = some (notFound "account" "zz") ∧
    (ProxyRepository.ListOperations FileRepository.repo (NewProxyRepository sampleDisk)).1 =
      .ok [sampleOperation] ∧
    total (effectsOn "a1" [sampleOperation]) = .finite 10 ∧
    (AccountFacade.RecalculateBalance (ProxyRepository.repo FileRepository.repo)
      (NewProxyRepository sampleDisk) "a1").1 = none ∧
    (AccountFacade.RecalculateBalance (ProxyRepository.repo FileRepository.repo)
      (NewProxyRepository sampleDisk) "a1").2.base.persisted =
      some { sampleData with
        Accounts := refReplaceFirst sampleData.Accounts
          { sampleAccount with Balance := total (effectsOn "a1" [sampleOperation]) } } :=
  ⟨⟨rfl, rfl, rfl, sampleData, rfl, by decide, by decide⟩, Or.inl ⟨rfl, rfl⟩, by decide,
    ((recalculateBalance_sets_balance (NewProxyRepository sampleDisk) sampleData "zz"
      ⟨rfl, rfl, rfl, sampleData, rfl, by decide, by decide⟩ (Or.inl ⟨rfl, rfl⟩) rfl).1
      (by decide)).1,
    by decide, by decide!,
    ((recalculateBalance_sets_balance (NewProxyRepository sampleDisk) sampleData "a1"
      ⟨rfl, rfl, rfl, sampleData, rfl, by decide, by decide⟩ (Or.inl ⟨rfl, rfl⟩) rfl).2
      sampleAccount [sampleOperation] (by decide) (by decide)).2.1 (by decide!),
    (((recalculateBalance_sets_balance (NewProxyRepository sampleDisk) sampleData "a1"
      ⟨rfl, rfl, rfl, sampleData, rfl, by decide, by decide⟩ (Or.inl ⟨rfl, rfl⟩) rfl).2
      sampleAccount [sampleOperation] (by decide) (by decide)).2.2 (by decide!)).1⟩


/-- C25 (the claim as stated fails): the facade looks for dependent operations in
what the repository lists. Over a file in which the ID `o1` names an operation
on the account `a1` and, after it, an operation on the account `a2`, the proxy
lists the operation cached last only, so `DeleteAccount("a1")` returns nil and
removes the account `a1` from the file, which still holds the operation on
`a1`. -/
theorem deleteAccount_despite_stored_operation :
    (FileRepository.ListOperations twinOperationDisk).1 =
      .ok [sampleOperation, { sampleOperation with BankAccountID := "a2" }] ∧
    sampleOperation.BankAccountID = "a1" ∧
    (AccountFacade.DeleteAccount (ProxyRepository.repo FileRepository.repo)
      (NewProxyRepository twinOperationDisk) "a1").1 = none ∧
    (AccountFacade.DeleteAccount (ProxyRepository.repo FileRepository.repo)
      (NewProxyRepository twinOperationDisk) "a1").2.base.persisted =
      some { Accounts := [⟨"a2", "Cash", .finite 3⟩]
             Categories := [sampleCategory]
             Operations := [sampleOperation, { sampleOperation with BankAccountID := "a2" }] } := by
  decide

/-- C25 (amended): on a proxy whose cache is in step with a store without I/O
faults whose snapshot `d` has unique IDs. If `d` holds an operation whose
`bank_account_id` is `id`, `DeleteAccount(id)` returns the error
`cannot delete account with existing operations` and leaves the file as it is and
the cache in step with it. If `d` holds no such operation and holds an account
under `id`, the call returns nil and the file holds `d` with that account
removed: no account has the ID any more, every other account ID reads as before,
categories and operations are as they were, and the cache is again in step. If
`d` holds neither, the call returns the not-found error and leaves the file as
it is. -/
theorem deleteAccount_guards_operations (p : ProxyRepository Disk) (d : StorageData)
    (id : String) (hs : p.base.Sound) (hy : Synced p) (hp : p.base.persisted = some d) :
    ((∃ o ∈ d.Operations, o.BankAccountID = id) →
      (AccountFacade.DeleteAccount (ProxyRepository.repo FileRepository.repo) p id).1 =
        some (.text "cannot delete account with existing operations") ∧
      (AccountFacade.DeleteAccount (ProxyRepository.repo FileRepository.repo) p id).2.base =
        p.base ∧
      Synced (AccountFacade.DeleteAccount (ProxyRepository.repo FileRepository.repo)
        p id).2) ∧
    ((∀ o ∈ d.Operations, o.BankAccountID ≠ id) → id ∈ ids d.Accounts →
      (AccountFacade.DeleteAccount (ProxyRepository.repo FileRepository.repo) p id).1 = none ∧
      (AccountFacade.DeleteAccount (ProxyRepository.repo FileRepository.repo)
        p id).2.base.persisted =
        some { d with Accounts := refRemoveFirst d.Accounts id } ∧
      id ∉ ids (refRemoveFirst d.Accounts id) ∧
      (∀ id', id' ≠ id →
        firstByID (refRemoveFirst d.Accounts id) id' = firstByID d.Accounts id') ∧
      (AccountFacade.DeleteAccount (ProxyRepository.repo FileRepository.repo)
        p id).2.base.Sound ∧
      Synced (AccountFacade.DeleteAccount (ProxyRepository.repo FileRepository.repo)
        p id).2) ∧
    ((∀ o ∈ d.Operations, o.BankAccountID ≠ id) → id ∉ ids d.Accounts →
      (AccountFacade.DeleteAccount (ProxyRepository.repo FileRepository.repo) p id).1 =
        some (notFound "account" id) ∧
      (AccountFacade.DeleteAccount (ProxyRepository.repo FileRepository.repo) p id).2.base =
        p.base) := by
  obtain ⟨p₁, hl, hb, h₁⟩ := inStep_of_synced p d hs hy hp
  have hl₁ := inStep_ensureLoaded p₁ d h₁
  rw [deleteAccount_through_guard FileRepository.repo p p₁ id hl hl₁]
  have hu : UniqueIDs d := h₁.2.2.2.2.1
  have hcall : (ProxyRepository.repo FileRepository.repo).DeleteAccount p₁ id =
      (((ProxyRepository.repo FileRepository.repo).call p₁ (.deleteAccount id)).1.err,
        ((ProxyRepository.repo FileRepository.repo).call p₁ (.deleteAccount id)).2) := rfl
  have hnone : (∀ o ∈ d.Operations, o.BankAccountID ≠ id) →
      AccountFacade.DeleteAccount (ProxyRepository.repo FileRepository.repo) p₁ id =
        (ProxyRepository.repo FileRepository.repo).DeleteAccount p₁ id := by
    intro hno
    unfold AccountFacade.DeleteAccount
    rw [inStep_listOperations p₁ d h₁]
    have hany : d.Operations.any (fun op => op.BankAccountID == id) = false := by
      rw [List.any_eq_false]
      intro o ho
      simpa using hno o ho
    simp only [hany]
    rfl
  refine ⟨?_, ?_, ?_⟩
  · rintro ⟨o, ho, hoid⟩
    have hany : d.Operations.any (fun op => op.BankAccountID == id) = true := by
      rw [List.any_eq_true]
      exact ⟨o, ho, by simpa using hoid⟩
    unfold AccountFacade.DeleteAccount
    rw [inStep_listOperations p₁ d h₁]
    simp only [hany, if_true]
    exact ⟨trivial, hb, (inStep_sound p₁ d h₁).2.1⟩
  · intro hno hmem
    rw [hnone hno, hcall]
    cases hix : indexOfID d.Accounts id with
    | none => exact absurd ((indexOfID_eq_none d.Accounts id).1 hix) (not_not.2 hmem)
    | some i =>
      have hm : FileRepository.mutation (.deleteAccount id) d =
          .ok { d with Accounts := removeAt d.Accounts i } := by
        simp only [FileRepository.mutation, hix]
      have hrep := inStep_write_ok p₁ d _ (.deleteAccount id) h₁ rfl rfl rfl hm
      have hq := inStep_write p₁ _ d (.deleteAccount id) h₁ rfl rfl
        (Prod.ext hrep rfl)
      obtain ⟨hsq, hyq, hpq⟩ := inStep_sound _ _ hq
      refine ⟨?_, hpq, not_mem_ids_refRemoveFirst d.Accounts id hu.1,
        fun id' hne => firstByID_refRemoveFirst_ne d.Accounts id id' hne, hsq, hyq⟩
      simp only
      rw [hrep]
      rfl
  · intro hno habs
    rw [hnone hno, hcall]
    have hm : FileRepository.mutation (.deleteAccount id) d =
        .error (notFound "account" id) := by
      simp only [FileRepository.mutation, (indexOfID_eq_none d.Accounts id).2 habs]
    rw [inStep_write_error p₁ d (.deleteAccount id) _ h₁ rfl hm]
    exact ⟨rfl, hb⟩

/-- Witness of C25 (amended): of the two accounts of the file, `a1` has the
operation `o1` and is kept, `a2` has none and is removed. -/
theorem deleteAccount_guards_operations_witness :
    (NewProxyRepository twoAccountDisk).base.Sound ∧ Synced (NewProxyRepository twoAccountDisk) ∧
    (∃ o ∈ sampleData.Operations, o.BankAccountID = "a1") ∧
    (AccountFacade.DeleteAccount (ProxyRepository.repo FileRepository.repo)
      (NewProxyRepository twoAccountDisk) "a1").1 =
      some (.text "cannot delete account with existing operations") ∧
    (AccountFacade.DeleteAccount (ProxyRepository.repo FileRepository.repo)
      (NewProxyRepository twoAccountDisk) "a1").2.base = twoAccountDisk ∧
    (AccountFacade.DeleteAccount (ProxyRepository.repo FileRepository.repo)
      (NewProxyRepository twoAccountDisk) "a2").1 = none ∧
    (AccountFacade.DeleteAccount (ProxyRepository.repo FileRepository.repo)
      (NewProxyRepository twoAccountDisk) "a2").2.base.persisted =
      some { sampleData with
        Accounts := refRemoveFirst [sampleAccount, ⟨"a2", "Cash", .finite 3⟩] "a2" } ∧
    refRemoveFirst [sampleAccount, (⟨"a2", "Cash", .finite 3⟩ : BankAccount)] "a2" =
      [sampleAccount] :=
  ⟨⟨rfl, rfl, rfl, _, rfl, by decide, by decide⟩, Or.inl ⟨rfl, rfl⟩,
    ⟨sampleOperation, by decide, rfl⟩,
    ((deleteAccount_guards_operations (NewProxyRepository twoAccountDisk)
      { sampleData with Accounts := [sampleAccount, ⟨"a2", "Cash", .finite 3⟩] } "a1"
      ⟨rfl, rfl, rfl, _, rfl, by decide, by decide⟩ (Or.inl ⟨rfl, rfl⟩) rfl).1
      ⟨sampleOperation, by decide, rfl⟩).1,
    ((deleteAccount_guards_operations (NewProxyRepository twoAccountDisk)
      { sampleData with Accounts := [sampleAccount, ⟨"a2", "Cash", .finite 3⟩] } "a1"
      ⟨rfl, rfl, rfl, _, rfl, by decide, by decide⟩ (Or.inl ⟨rfl, rfl⟩) rfl).1
      ⟨sampleOperation, by decide, rfl⟩).2.1,
    ((deleteAccount_guards_operations (NewProxyRepository twoAccountDisk)
      { sampleData with Accounts := [sampleAccount, ⟨"a2", "Cash", .finite 3⟩] } "a2"
      ⟨rfl, rfl, rfl, _, rfl, by decide, by decide⟩ (Or.inl ⟨rfl, rfl⟩) rfl).2.1
      (by decide) (by decide)).1,
    ((deleteAccount_guards_operations (NewProxyRepository twoAccountDisk)
      { sampleData with Accounts := [sampleAccount, ⟨"a2", "Cash", .finite 3⟩] } "a2"
      ⟨rfl, rfl, rfl, _, rfl, by decide, by decide⟩ (Or.inl ⟨rfl, rfl⟩) rfl).2.1
      (by decide) (by decide)).2.1,
    by decide⟩


/-- C9: on a file that loads, `FileRepository.Get*(id)` returns the not-found error
exactly when the collection holds no entity with that ID and otherwise returns
the first entity in file order whose ID is `id`. On a proxy before its lazy load,
over any store whose three `List*` succeed, `Get*(id)` returns the not-found
error exactly when the list the store returns holds no entity with that ID and
otherwise returns an entity of that list whose ID is `id`. On a proxy in any
state reached from a fresh one (so before or after its lazy load), whenever the
matching `List*` of the proxy succeeds with the collection `l`, `Get*(id)`
returns the not-found error exactly when `l` holds no entity with that ID and
otherwise returns an entity of `l` whose ID is `id`. -/
theorem get_not_found_iff_absent {σ : Type} (r : Disk) (d : StorageData)
    (b : Repository σ) (s : σ) (calls : List Call) (id : String)
    (hl : FileRepository.loadUnsafe r = .ok d) :
    (((FileRepository.GetAccount r id).1 = .error (notFound "account" id) ↔
        id ∉ ids d.Accounts) ∧
      (∀ a, (FileRepository.GetAccount r id).1 = .ok a ↔
        ∃ pre post, d.Accounts = pre ++ a :: post ∧ a.ID = id ∧ id ∉ ids pre)) ∧
    (((FileRepository.GetCategory r id).1 = .error (notFound "category" id) ↔
        id ∉ ids d.Categories) ∧
      (∀ a, (FileRepository.GetCategory r id).1 = .ok a ↔
        ∃ pre post, d.Categories = pre ++ a :: post ∧ a.ID = id ∧ id ∉ ids pre)) ∧
    (((FileRepository.GetOperation r id).1 = .error (notFound "operation" id) ↔
        id ∉ ids d.Operations) ∧
      (∀ a, (FileRepository.GetOperation r id).1 = .ok a ↔
        ∃ pre post, d.Operations = pre ++ a :: post ∧ a.ID = id ∧ id ∉ ids pre)) ∧
    (∀ l, (ProxyRepository.ListAccounts b
        ((ProxyRepository.repo b).run (NewProxyRepository s) calls)).1 = .ok l →
      ((ProxyRepository.GetAccount b
          ((ProxyRepository.repo b).run (NewProxyRepository s) calls) id).1 =
          .error (notFound "account" id) ↔ id ∉ ids l) ∧
      (∀ a, (ProxyRepository.GetAccount b
          ((ProxyRepository.repo b).run (NewProxyRepository s) calls) id).1 = .ok a →
          a.ID = id ∧ a ∈ l) ∧
      (id ∈ ids l → ∃ a, (ProxyRepository.GetAccount b
          ((ProxyRepository.repo b).run (NewProxyRepository s) calls) id).1 = .ok a)) ∧
    (∀ l, (ProxyRepository.ListCategories b
        ((ProxyRepository.repo b).run (NewProxyRepository s) calls)).1 = .ok l →
      ((ProxyRepository.GetCategory b
          ((ProxyRepository.repo b).run (NewProxyRepository s) calls) id).1 =
          .error (notFound "category" id) ↔ id ∉ ids l) ∧
      (∀ a, (ProxyRepository.GetCategory b
          ((ProxyRepository.repo b).run (NewProxyRepository s) calls) id).1 = .ok a →
          a.ID = id ∧ a ∈ l) ∧
      (id ∈ ids l → ∃ a, (ProxyRepository.GetCategory b
          ((ProxyRepository.repo b).run (NewProxyRepository s) calls) id).1 = .ok a)) ∧
    (∀ l, (ProxyRepository.ListOperations b
        ((ProxyRepository.repo b).run (NewProxyRepository s) calls)).1 = .ok l →
      ((ProxyRepository.GetOperation b
          ((ProxyRepository.repo b).run (NewProxyRepository s) calls) id).1 =
          .error (notFound "operation" id) ↔ id ∉ ids l) ∧
      (∀ a, (ProxyRepository.GetOperation b
          ((ProxyRepository.repo b).run (NewProxyRepository s) calls) id).1 = .ok a →
          a.ID = id ∧ a ∈ l) ∧
      (id ∈ ids l → ∃ a, (ProxyRepository.GetOperation b
          ((ProxyRepository.repo b).run (NewProxyRepository s) calls) id).1 = .ok a)) ∧
    (∀ (p : ProxyRepository σ) (accounts : List BankAccount) (categories : List Category)
        (operations : List Operation) (s₁ s₂ s₃ : σ),
      p.loadOnce = false → p.loadErr = none →
      b.ListAccounts p.base = (.ok accounts, s₁) →
      b.ListCategories s₁ = (.ok categories, s₂) →
      b.ListOperations s₂ = (.ok operations, s₃) →
      (((ProxyRepository.GetAccount b p id).1 = .error (notFound "account" id) ↔
          id ∉ ids accounts) ∧
        (∀ a, (ProxyRepository.GetAccount b p id).1 = .ok a → a.ID = id ∧ a ∈ accounts) ∧
        (id ∈ ids accounts → ∃ a, (ProxyRepository.GetAccount b p id).1 = .ok a)) ∧
      (((ProxyRepository.GetCategory b p id).1 = .error (notFound "category" id) ↔
          id ∉ ids categories) ∧
        (∀ a, (ProxyRepository.GetCategory b p id).1 = .ok a → a.ID = id ∧ a ∈ categories) ∧
        (id ∈ ids categories → ∃ a, (ProxyRepository.GetCategory b p id).1 = .ok a)) ∧
      (((ProxyRepository.GetOperation b p id).1 = .error (notFound "operation" id) ↔
          id ∉ ids operations) ∧
        (∀ a, (ProxyRepository.GetOperation b p id).1 = .ok a → a.ID = id ∧ a ∈ operations) ∧
        (id ∈ ids operations → ∃ a, (ProxyRepository.GetOperation b p id).1 = .ok a))) := by
  have hinv := run_cacheInv b calls (NewProxyRepository s) (new_cacheInv s)
  refine ⟨?_, ?_, ?_, ?_, ?_, ?_, ?_⟩
  · rw [store_getAccount r d id hl]
    have := firstByID_outcome d.Accounts id "account"
    cases hk : firstByID d.Accounts id <;> simp only [hk] at this ⊢ <;> exact this
  · rw [store_getCategory r d id hl]
    have := firstByID_outcome d.Categories id "category"
    cases hk : firstByID d.Categories id <;> simp only [hk] at this ⊢ <;> exact this
  · rw [store_getOperation r d id hl]
    have := firstByID_outcome d.Operations id "operation"
    cases hk : firstByID d.Operations id <;> simp only [hk] at this ⊢ <;> exact this
  · exact fun l h => proxy_getAccount_outcome b _ id l hinv h
  · exact fun l h => proxy_getCategory_outcome b _ id l hinv h
  · exact fun l h => proxy_getOperation_outcome b _ id l hinv h
  · intro p accounts categories operations s₁ s₂ s₃ hlo hle ha hc ho
    have hload := ensureLoaded_of_lists b p accounts categories operations s₁ s₂ s₃ hlo hle
      ha hc ho
    refine ⟨?_, ?_, ?_⟩
    · have := loaded_map_outcome accounts id "account"
      unfold ProxyRepository.GetAccount
      rw [hload]
      simp only
      cases hk : (GoMap.assignAll [] accounts).lookup id <;>
        simp only [hk] at this ⊢ <;> exact this
    · have := loaded_map_outcome categories id "category"
      unfold ProxyRepository.GetCategory
      rw [hload]
      simp only
      cases hk : (GoMap.assignAll [] categories).lookup id <;>
        simp only [hk] at this ⊢ <;> exact this
    · have := loaded_map_outcome operations id "operation"
      unfold ProxyRepository.GetOperation
      rw [hload]
      simp only
      cases hk : (GoMap.assignAll [] operations).lookup id <;>
        simp only [hk] at this ⊢ <;> exact this

/-- Witness of C9: on the sample file the absent ID `a9` gives the not-found
error, from the store and from a proxy that has not loaded yet, and the ID `a1`
gives the stored account from both. -/
theorem get_not_found_iff_absent_witness :
    FileRepository.loadUnsafe sampleDisk = .ok sampleData ∧
    (NewProxyRepository sampleDisk).loadOnce = false ∧
    FileRepository.repo.ListAccounts sampleDisk = (.ok [sampleAccount], sampleDisk) ∧
    (FileRepository.GetAccount sampleDisk "a9").1 = .error (notFound "account" "a9") ∧
    (FileRepository.GetAccount sampleDisk "a1").1 = .ok sampleAccount ∧
    (ProxyRepository.GetAccount FileRepository.repo (NewProxyRepository sampleDisk) "a9").1 =
      .error (notFound "account" "a9") ∧
    (∃ a, (ProxyRepository.GetAccount FileRepository.repo (NewProxyRepository sampleDisk)
      "a1").1 = .ok a) ∧
    (∀ a, (ProxyRepository.GetAccount FileRepository.repo (NewProxyRepository sampleDisk)
      "a1").1 = .ok a → a.ID = "a1" ∧ a ∈ [sampleAccount]) :=
  ⟨by decide, rfl, by decide,
    ((get_not_found_iff_absent sampleDisk sampleData FileRepository.repo sampleDisk [] "a9"
      (by decide)).1.1).2 (by decide),
    ((get_not_found_iff_absent sampleDisk sampleData FileRepository.repo sampleDisk [] "a1"
      (by decide)).1.2 sampleAccount).2 ⟨[], [], rfl, rfl, by decide⟩,
    (((get_not_found_iff_absent sampleDisk sampleData FileRepository.repo sampleDisk [] "a9"
      (by decide)).2.2.2.2.2.2 (NewProxyRepository sampleDisk) [sampleAccount]
      [sampleCategory] [sampleOperation] sampleDisk sampleDisk sampleDisk rfl rfl
      (by decide) (by decide) (by decide)).1.1).2 (by decide),
    ((get_not_found_iff_absent sampleDisk sampleData FileRepository.repo sampleDisk [] "a1"
      (by decide)).2.2.2.2.2.2 (NewProxyRepository sampleDisk) [sampleAccount]
      [sampleCategory] [sampleOperation] sampleDisk sampleDisk sampleDisk rfl rfl
      (by decide) (by decide) (by decide)).1.2.2 (by decide),
    ((get_not_found_iff_absent sampleDisk sampleData FileRepository.repo sampleDisk [] "a1"
      (by decide)).2.2.2.2.2.2 (NewProxyRepository sampleDisk) [sampleAccount]
      [sampleCategory] [sampleOperation] sampleDisk sampleDisk sampleDisk rfl rfl
      (by decide) (by decide) (by decide)).1.2.1⟩

end Claims

end Hw2
